import Mathlib

/-! Pthreads Game of Life (`src/Pthreads/life.c`): embedding and verified properties.

The file embeds the row partitioner of `main`, the row-band update of
`compute_thread`, and the barrier protocol between the compute workers, the
plotting thread and the master thread, and proves properties about them.

Modelling conventions.
* C `int` counters that only count up from 0 are `Nat`; `maxiter` and
  `numthreads` (results of `atoi`) and cell/population values are `Int`.
  Arithmetic is modelled without overflow.
* A buffer (`char **`) is a function from row and column to the cell value.
* Every block between `pthread_mutex_lock` and `pthread_mutex_unlock` is one
  step of the step relation, a `pthread_cond_wait` loop is a step that is
  enabled only when its predicate holds, and the unlocked read
  `population[w_plot]` in a loop test is one step.
* The band update of a thread (lines 81-94) is one step: it reads only
  `currWorld` and writes only the rows of its own band in `nextWorld`, and
  the barrier invariant shows that no swap is enabled while a thread is in its
  compute phase.
* `MeshPlot`, the `-step` prompt (`getchar`), timing and `free` do not touch the
  modelled variables and are steps without effect or omitted.
-/

namespace Life

/-! ## Row decomposition (`main`, lines 305-318) -/

/-- Line 305: `int rows_per_thread = (nx - 2) / num_comp_threads;` with `R = nx - 2`. -/
def rows_per_thread (R W : Nat) : Nat := R / W

/-- Line 306: `int extra_rows = (nx - 2) % num_comp_threads;` with `R = nx - 2`. -/
def extra_rows (R W : Nat) : Nat := R % W

/-- Line 316: `start_row = 1 + i * rows_per_thread + (i < extra_rows ? i : extra_rows)`. -/
def start_row (R W i : Nat) : Nat :=
  1 + i * rows_per_thread R W + (if i < extra_rows R W then i else extra_rows R W)

/-- Line 317: `end_row = start_row + rows_per_thread + (i < extra_rows ? 1 : 0)`. -/
def end_row (R W i : Nat) : Nat :=
  start_row R W i + rows_per_thread R W + (if i < extra_rows R W then 1 else 0)

/-! ## Buffers and the cell rule (`compute_thread`, lines 80-94) -/

/-- A buffer `char **`: cell value at row `i`, column `j`, promoted to `int`. -/
abbrev World := Nat → Nat → Int

/-- The store `g[i][j] = v`. -/
def World.set (g : World) (i j : Nat) (v : Int) : World :=
  fun a b => if a = i ∧ b = j then v else g a b

/-- The C loop `for (i = lo; i < hi; i++) body(i)` over a loop state. -/
def forLoop {σ : Type} (lo hi : Nat) (body : Nat → σ → σ) (s : σ) : σ :=
  (List.range' lo (hi - lo)).foldl (fun acc i => body i acc) s

/-- The neighbour count `nn` of lines 86-89 (same order of summands). -/
def neighbours (curr : World) (i j : Nat) : Int :=
  curr (i + 1) j + curr (i - 1) j +
  curr i (j + 1) + curr i (j - 1) +
  curr (i + 1) (j + 1) + curr (i - 1) (j - 1) +
  curr (i - 1) (j + 1) + curr (i + 1) (j - 1)

/-- The value stored by line 91:
`currWorld[i][j] ? (nn == 2 || nn == 3) : (nn == 3)`. -/
def next_cell (curr : World) (i j : Nat) : Int :=
  if curr i j ≠ 0 then
    (if neighbours curr i j = 2 ∨ neighbours curr i j = 3 then 1 else 0)
  else
    (if neighbours curr i j = 3 then 1 else 0)

/-- Body of the inner loop, lines 86-92: store the new cell into `nextWorld`,
then `local_pop += nextWorld[i][j]`. The loop state is `(nextWorld, local_pop)`. -/
def cell_body (curr : World) (i j : Nat) (st : World × Int) : World × Int :=
  let next := st.1.set i j (next_cell curr i j)
  (next, st.2 + next i j)

/-- Lines 81-94: `local_pop = 0;` followed by the loops over the rows
`start ≤ i < stop` and the columns `1 ≤ j < ny - 1`. -/
def compute_band (ny : Nat) (curr next : World) (start stop : Nat) : World × Int :=
  forLoop start stop
    (fun i st => forLoop 1 (ny - 1) (fun j st1 => cell_body curr i j st1) st)
    (next, 0)

/-- Sum of the cell values over rows `lo ≤ i < hi` and the interior columns. -/
def band_sum (ny : Nat) (g : World) (lo hi : Nat) : Int :=
  ∑ i in Finset.Ico lo hi, ∑ j in Finset.Ico 1 (ny - 1), g i j

/-- Number of live (non-zero) cells of the interior `1 ≤ i < nx - 1`, `1 ≤ j < ny - 1`,
counted independently of the workers. -/
def live_count (nx ny : Nat) (g : World) : Int :=
  ∑ i in Finset.Ico 1 (nx - 1), ∑ j in Finset.Ico 1 (ny - 1), (if g i j ≠ 0 then 1 else 0)

/-- All cells of row 0, row `nx - 1`, column 0 and column `ny - 1` are 0. -/
def border_zero (nx ny : Nat) (g : World) : Prop :=
  ∀ i j, i < nx → j < ny → (i = 0 ∨ i = nx - 1 ∨ j = 0 ∨ j = ny - 1) → g i j = 0

/-- One generation applied to a whole buffer: the rule on the interior, 0 on the border. -/
def life_step (nx ny : Nat) (g : World) : World :=
  fun i j => if 1 ≤ i ∧ i < nx - 1 ∧ 1 ≤ j ∧ j < ny - 1 then next_cell g i j else 0

/-! ## Configuration and shared state -/

/-- Command-line parameters that the protocol depends on. -/
structure Config where
  /-- Value of `-n`: interior side length (`nx = ny = n + 2` after line 229). -/
  n : Nat
  /-- Value of `-i`. -/
  maxiter : Int
  /-- Value of `-t`. -/
  numthreads : Int
  /-- Flag `-d`. -/
  disable_display : Bool

/-- Line 229: `nx` after `nx = nx+2;`. -/
def Config.nx (cfg : Config) : Nat := cfg.n + 2

/-- Line 230: `ny` after `ny = nx;`. -/
def Config.ny (cfg : Config) : Nat := cfg.nx

/-- Lines 224-225: the number of computation threads. -/
def num_comp_threads (cfg : Config) : Nat :=
  let k : Int :=
    if cfg.numthreads > 1 ∧ cfg.disable_display = false then cfg.numthreads - 1
    else cfg.numthreads
  if k < 1 then 1 else k.toNat

/-- Line 324: `(!disable_display && numthreads > 1)`. -/
def plotting_thread_wanted (cfg : Config) : Bool :=
  !cfg.disable_display && decide (cfg.numthreads > 1)

/-- Control points of a computation thread. -/
inductive WorkerPc where
  /-- Not yet created by `pthread_create`. -/
  | unborn
  /-- At the loop test of line 71. -/
  | check
  /-- At the start-of-round wait, lines 74-78. -/
  | wait
  /-- In the row-band compute phase, lines 81-94. -/
  | compute
  /-- Before the locked section of lines 97-130. -/
  | commit
  /-- Returned. -/
  | done
  deriving DecidableEq, Repr

/-- Local variables of a computation thread. -/
structure Worker where
  pc : WorkerPc
  t : Nat
  local_pop : Int

/-- Control points of the plotting thread. -/
inductive PlotPc where
  | unborn
  /-- At the loop test of line 141. -/
  | check
  /-- At the wait of lines 146-150. -/
  | waitDone
  /-- Before `MeshPlot`, line 153. -/
  | plot
  /-- Before the locked release of lines 163-166. -/
  | release
  | done
  deriving DecidableEq, Repr

/-- Local variables of the plotting thread. -/
structure Plotter where
  pc : PlotPc
  t : Nat

/-- Control points of the master thread from line 313 on. -/
inductive DriverPc where
  /-- In the creation loop of lines 313-321, about to create thread `i`. -/
  | spawn (i : Nat)
  /-- Before lines 324-328. -/
  | startPlot
  /-- At the loop test of line 337. -/
  | check
  /-- At the wait of lines 340-344. -/
  | waitDone
  /-- Before `handle_plotting_no_thread`, line 347. -/
  | plot
  /-- Before the locked release of lines 350-353. -/
  | release
  /-- In the join loop of lines 358-361, about to join thread `i`. -/
  | join (i : Nat)
  /-- Before lines 364-367. -/
  | joinPlot
  | finished
  deriving DecidableEq, Repr

/-- Local variables of the master thread. -/
structure Driver where
  pc : DriverPc
  t : Nat

/-- Shared variables and thread states. `swaps` is a ghost counter of the
pointer swaps performed (lines 104-106). -/
structure State where
  currWorld : World
  nextWorld : World
  population : Nat → Int
  w_update : Nat
  w_plot : Nat
  computation_complete : Nat
  current_iteration : Nat
  ready_to_compute : Bool
  has_plotting_thread : Bool
  workers : Nat → Worker
  plotter : Plotter
  driver : Driver
  swaps : Nat

/-- State when the master thread reaches line 313: static initialisers of
lines 27-45, `population[w_plot]` as set by the world generation, and
`population[w_update] = 0` (line 302). -/
def init_state (curr0 next0 : World) (pop0 : Int) : State :=
  { currWorld := curr0
    nextWorld := next0
    population := fun k => if k = 1 then pop0 else 0
    w_update := 0
    w_plot := 1
    computation_complete := 0
    current_iteration := 0
    ready_to_compute := true
    has_plotting_thread := false
    workers := fun _ => { pc := WorkerPc.unborn, t := 0, local_pop := 0 }
    plotter := { pc := PlotPc.unborn, t := 0 }
    driver := { pc := DriverPc.spawn 0, t := 0 }
    swaps := 0 }

/-! ## Steps of the threads -/

/-- The threads that can take a step. -/
inductive Actor where
  | worker (w : Nat)
  | plotter
  | driver
  deriving DecidableEq, Repr

/-- Replace the local state of computation thread `w`. -/
def set_worker (s : State) (w : Nat) (x : Worker) : State :=
  { s with workers := fun k => if k = w then x else s.workers k }

/-- The loop test `t < maxiter && population[w_plot]` of lines 71, 141 and 337. -/
def loop_test (cfg : Config) (s : State) (t : Nat) : Bool :=
  decide ((t : Int) < cfg.maxiter) && decide (s.population s.w_plot ≠ 0)

/-- Lines 98-100: `population[w_update] += local_pop; computation_complete++;`. -/
def commit_add (s : State) (local_pop : Int) : State :=
  { s with
    population := fun k => if k = s.w_update then s.population k + local_pop else s.population k
    computation_complete := s.computation_complete + 1 }

/-- Lines 101-129: the branch taken by the last thread of a round. -/
def commit_swap (cfg : Config) (s : State) (t : Nat) : State :=
  if s.computation_complete = num_comp_threads cfg then
    { s with
      currWorld := s.nextWorld
      nextWorld := s.currWorld
      w_update := s.w_plot
      w_plot := s.w_update
      population := fun k => if k = s.w_plot then 0 else s.population k
      computation_complete := 0
      current_iteration := t + 1
      ready_to_compute := if s.has_plotting_thread then false else true
      swaps := s.swaps + 1 }
  else s

/-- One step of computation thread `w`; `none` when it cannot move. -/
def worker_step (cfg : Config) (s : State) (w : Nat) : Option State :=
  if w < num_comp_threads cfg then
    let me := s.workers w
    match me.pc with
    | WorkerPc.unborn => none
    | WorkerPc.check =>
      if loop_test cfg s me.t then some (set_worker s w { me with pc := WorkerPc.wait })
      else some (set_worker s w { me with pc := WorkerPc.done })
    | WorkerPc.wait =>
      if s.ready_to_compute = true ∧ s.current_iteration = me.t then
        some (set_worker s w { me with pc := WorkerPc.compute })
      else none
    | WorkerPc.compute =>
      let r := compute_band cfg.ny s.currWorld s.nextWorld
        (start_row cfg.n (num_comp_threads cfg) w) (end_row cfg.n (num_comp_threads cfg) w)
      some (set_worker { s with nextWorld := r.1 } w
        { me with pc := WorkerPc.commit, local_pop := r.2 })
    | WorkerPc.commit =>
      some (set_worker (commit_swap cfg (commit_add s me.local_pop) me.t) w
        { me with pc := WorkerPc.check, t := me.t + 1 })
    | WorkerPc.done => none
  else none

/-- One step of the plotting thread (`plot_thread_func`). -/
def plotter_step (cfg : Config) (s : State) : Option State :=
  let me := s.plotter
  match me.pc with
  | PlotPc.unborn => none
  | PlotPc.check =>
    if loop_test cfg s me.t then
      (if cfg.disable_display = false then some { s with plotter := { me with pc := PlotPc.waitDone } }
       else some { s with plotter := { me with pc := PlotPc.release } })
    else some { s with plotter := { me with pc := PlotPc.done } }
  | PlotPc.waitDone =>
    if me.t < s.current_iteration then some { s with plotter := { me with pc := PlotPc.plot } }
    else none
  | PlotPc.plot => some { s with plotter := { me with pc := PlotPc.release } }
  | PlotPc.release =>
    some { s with ready_to_compute := true, plotter := { pc := PlotPc.check, t := me.t + 1 } }
  | PlotPc.done => none

/-- One step of the master thread (`main` from line 313). -/
def driver_step (cfg : Config) (s : State) : Option State :=
  let me := s.driver
  match me.pc with
  | DriverPc.spawn i =>
    if i < num_comp_threads cfg then
      some { set_worker s i { pc := WorkerPc.check, t := 0, local_pop := 0 } with
             driver := { me with pc := DriverPc.spawn (i + 1) } }
    else some { s with driver := { me with pc := DriverPc.startPlot } }
  | DriverPc.startPlot =>
    if plotting_thread_wanted cfg = true then
      some { s with has_plotting_thread := true
                    plotter := { pc := PlotPc.check, t := 0 }
                    driver := { me with pc := DriverPc.join 0 } }
    else
      some { s with has_plotting_thread := false
                    driver := { pc := DriverPc.check, t := 0 } }
  | DriverPc.check =>
    if loop_test cfg s me.t then some { s with driver := { me with pc := DriverPc.waitDone } }
    else some { s with driver := { me with pc := DriverPc.join 0 } }
  | DriverPc.waitDone =>
    if me.t < s.current_iteration then some { s with driver := { me with pc := DriverPc.plot } }
    else none
  | DriverPc.plot => some { s with driver := { me with pc := DriverPc.release } }
  | DriverPc.release =>
    some { s with ready_to_compute := true, driver := { pc := DriverPc.check, t := me.t + 1 } }
  | DriverPc.join i =>
    if i < num_comp_threads cfg then
      (if (s.workers i).pc = WorkerPc.done then
        some { s with driver := { me with pc := DriverPc.join (i + 1) } }
       else none)
    else some { s with driver := { me with pc := DriverPc.joinPlot } }
  | DriverPc.joinPlot =>
    if s.has_plotting_thread = true then
      (if s.plotter.pc = PlotPc.done then some { s with driver := { me with pc := DriverPc.finished } }
       else none)
    else some { s with driver := { me with pc := DriverPc.finished } }
  | DriverPc.finished => none

/-- The step relation as a function of the scheduled thread. -/
def step (cfg : Config) (s : State) : Actor → Option State
  | Actor.worker w => worker_step cfg s w
  | Actor.plotter => plotter_step cfg s
  | Actor.driver => driver_step cfg s

/-- Run a schedule; `none` when a scheduled thread cannot move. -/
def run (cfg : Config) (s : State) : List Actor → Option State
  | [] => some s
  | a :: rest =>
    match step cfg s a with
    | some s1 => run cfg s1 rest
    | none => none

/-- States reachable from `s0` by steps of the threads. -/
inductive Reachable (cfg : Config) (s0 : State) : State → Prop where
  | init : Reachable cfg s0 s0
  | step {s s1 : State} (a : Actor) : Reachable cfg s0 s → step cfg s a = some s1 →
      Reachable cfg s0 s1

/-! ## Auxiliary definitions for the protocol proofs -/

/-- Workers that have finished their locked section of the current round. -/
def contributors (cfg : Config) (s : State) : Finset Nat :=
  (Finset.range (num_comp_threads cfg)).filter
    (fun w => (s.workers w).t = s.current_iteration + 1)

/-- The state after the band update of worker `w` (the `compute` step). -/
def after_compute (cfg : Config) (s : State) (w : Nat) : State :=
  let r := compute_band cfg.ny s.currWorld s.nextWorld
    (start_row cfg.n (num_comp_threads cfg) w) (end_row cfg.n (num_comp_threads cfg) w)
  set_worker { s with nextWorld := r.1 } w
    { s.workers w with pc := WorkerPc.commit, local_pop := r.2 }

/-- The state after the locked section of worker `w` (the `commit` step). -/
def after_commit (cfg : Config) (s : State) (w : Nat) : State :=
  set_worker (commit_swap cfg (commit_add s (s.workers w).local_pop) (s.workers w).t) w
    { s.workers w with pc := WorkerPc.check, t := (s.workers w).t + 1 }

/-- The shared variables and computation threads untouched by a step. -/
def Frame (s s1 : State) : Prop :=
  s1.currWorld = s.currWorld ∧ s1.nextWorld = s.nextWorld ∧ s1.population = s.population ∧
  s1.w_update = s.w_update ∧ s1.w_plot = s.w_plot ∧
  s1.computation_complete = s.computation_complete ∧
  s1.current_iteration = s.current_iteration ∧ s1.workers = s.workers ∧ s1.swaps = s.swaps

/-- Control invariant of the barrier. -/
structure Inv (cfg : Config) (s : State) : Prop where
  t_range : ∀ w, w < num_comp_threads cfg →
    (s.workers w).t = s.current_iteration ∨ (s.workers w).t = s.current_iteration + 1
  t_now : ∀ w, w < num_comp_threads cfg →
    ((s.workers w).pc = WorkerPc.unborn ∨ (s.workers w).pc = WorkerPc.compute ∨
      (s.workers w).pc = WorkerPc.commit) → (s.workers w).t = s.current_iteration
  unborn_zero : ∀ w, (s.workers w).pc = WorkerPc.unborn → (s.workers w).t = 0
  count : s.computation_complete = (contributors cfg s).card
  lt : s.computation_complete < num_comp_threads cfg
  swaps_eq : s.swaps = s.current_iteration
  spawn : ∀ i, s.driver.pc = DriverPc.spawn i → ∀ w, i ≤ w → (s.workers w).pc = WorkerPc.unborn

/-- The state reached by a schedule (the start state if the schedule is not executable). -/
def run_from (cfg : Config) (s0 : State) (sched : List Actor) : State :=
  (run cfg s0 sched).getD s0

/-- Example configuration: `-n 2 -i 3 -t 1`, one computation thread, no plotting thread. -/
def cfg_one : Config := { n := 2, maxiter := 3, numthreads := 1, disable_display := false }

/-- Example buffer: all four interior cells of a 2x2 interior are live. -/
def full2 : World := fun i j => if (i = 1 ∨ i = 2) ∧ (j = 1 ∨ j = 2) then 1 else 0

/-- Example buffer: every cell is 0. -/
def dead_world : World := fun _ _ => 0

/-- The band of thread `w` in `nextWorld` holds the new cells computed from `currWorld`. -/
def band_ok (cfg : Config) (s : State) (w : Nat) : Prop :=
  ∀ i j, start_row cfg.n (num_comp_threads cfg) w ≤ i →
    i < end_row cfg.n (num_comp_threads cfg) w → 1 ≤ j → j < cfg.ny - 1 →
    s.nextWorld i j = next_cell s.currWorld i j

/-- Sum of the cells of `g` over the band of thread `w`. -/
def worker_band_sum (cfg : Config) (g : World) (w : Nat) : Int :=
  band_sum cfg.ny g (start_row cfg.n (num_comp_threads cfg) w)
    (end_row cfg.n (num_comp_threads cfg) w)

/-- Invariant of the buffers and population counters. -/
structure DataInv (cfg : Config) (s : State) : Prop where
  idx : (s.w_update = 0 ∧ s.w_plot = 1) ∨ (s.w_update = 1 ∧ s.w_plot = 0)
  band : ∀ w, w < num_comp_threads cfg →
    ((s.workers w).t = s.current_iteration + 1 ∨ (s.workers w).pc = WorkerPc.commit) →
    band_ok cfg s w
  lp : ∀ w, w < num_comp_threads cfg → (s.workers w).pc = WorkerPc.commit →
    (s.workers w).local_pop = worker_band_sum cfg (next_cell s.currWorld) w
  pop : s.population s.w_update =
    ∑ w in contributors cfg s, worker_band_sum cfg (next_cell s.currWorld) w
  plot : 1 ≤ s.current_iteration → s.population s.w_plot = live_count cfg.nx cfg.ny s.currWorld

/-- Invariant of the buffer contents relative to the initial current buffer `curr0`:
both borders are 0 and the current buffer is generation `current_iteration` of `curr0`. -/
structure GridInv (cfg : Config) (curr0 : World) (s : State) : Prop where
  border_curr : border_zero cfg.nx cfg.ny s.currWorld
  border_next : border_zero cfg.nx cfg.ny s.nextWorld
  hist : ∀ i j, i < cfg.nx → j < cfg.ny →
    s.currWorld i j = ((life_step cfg.nx cfg.ny)^[s.current_iteration] curr0) i j

/-- Lines 245-258: set the boundary ghost cells of a buffer to 0. -/
def clear_border (nx ny : Nat) (g : World) : World :=
  forLoop 0 ny (fun i h => (h.set 0 i 0).set (nx - 1) i 0)
    (forLoop 0 nx (fun i h => (h.set i 0 0).set i (ny - 1) 0) g)

/-- Lines 262-266 (`game == 0`): fill the interior from the outcomes
`rand i j` of `real_rand() < prob` and count the live cells. -/
def random_world (nx ny : Nat) (rand : Nat → Nat → Bool) (g : World) : World × Int :=
  forLoop 1 (nx - 1)
    (fun i st => forLoop 1 (ny - 1)
      (fun j st1 =>
        let c := st1.1.set i j (if rand i j then 1 else 0)
        (c, st1.2 + c i j)) st)
    (g, 0)

/-- Lines 270-272 (`game == 1`): the 2x2 block. -/
def block_world (nx ny : Nat) (g : World) : World :=
  (((g.set (nx / 2) (ny / 2) 1).set (nx / 2 + 1) (ny / 2) 1).set
    (nx / 2) (ny / 2 + 1) 1).set (nx / 2 + 1) (ny / 2 + 1) 1

/-- Lines 277-284 (`game == 2`): the glider. -/
def glider_world (nx ny : Nat) (g : World) : World :=
  ((((g.set (nx / 2) (ny / 2) 1).set (nx / 2 + 1) (ny / 2 + 1) 1).set
    (nx / 2 + 2) (ny / 2 - 1) 1).set (nx / 2 + 2) (ny / 2) 1).set (nx / 2 + 2) (ny / 2 + 1) 1

/-- Lines 229-302 of `main`: the state in which the threads are started, for the
pattern selector `game`, the random outcomes `rand` and the contents `m0`, `m1`
of the two freshly allocated buffers; `none` is `exit(-1)` for an unknown game. -/
def main_init (cfg : Config) (game : Int) (rand : Nat → Nat → Bool) (m0 m1 : World) :
    Option State :=
  let curr := clear_border cfg.nx cfg.ny m0
  let next := clear_border cfg.nx cfg.ny m1
  if game = 0 then
    some (init_state (random_world cfg.nx cfg.ny rand curr).1 next
      (random_world cfg.nx cfg.ny rand curr).2)
  else if game = 1 then some (init_state (block_world cfg.nx cfg.ny curr) next 4)
  else if game = 2 then some (init_state (glider_world cfg.nx cfg.ny curr) next 5)
  else none

/-- The buffer `g` moved down by `p` rows and right by `q` columns. -/
def shift (p q : Nat) (g : World) : World :=
  fun i j => if p ≤ i ∧ q ≤ j then g (i - p) (j - q) else 0

/-- The buffer whose live cells are exactly the listed positions. -/
def cells_of (pts : List (Nat × Nat)) : World :=
  fun i j => if (i, j) ∈ pts then 1 else 0

/-- The 2x2 block with its upper left cell at row 2, column 2. -/
def block_base : List (Nat × Nat) := [(3, 3), (2, 3), (3, 2), (2, 2)]

/-- All listed positions have both coordinates in `2..m`. -/
def within (m : Nat) (G : List (Nat × Nat)) : Prop :=
  ∀ x ∈ G, 2 ≤ x.1 ∧ x.1 ≤ m ∧ 2 ≤ x.2 ∧ x.2 ≤ m

/-- Example configuration: `-n 4 -i 3 -t 2 -d`, two computation threads, no plotting thread. -/
def cfg_two : Config := { n := 4, maxiter := 3, numthreads := 2, disable_display := true }

/-- Start state of `-n 4 -g 1` on zero-filled allocations. -/
def block_start : State :=
  init_state (block_world cfg_two.nx cfg_two.ny (clear_border cfg_two.nx cfg_two.ny dead_world))
    (clear_border cfg_two.nx cfg_two.ny dead_world) 4

/-- The five generations of the glider, the first with its top cell at row 2, column 3. -/
def glider_base : Nat → List (Nat × Nat)
  | 0 => [(4, 4), (4, 3), (4, 2), (3, 4), (2, 3)]
  | 1 => [(3, 2), (3, 4), (4, 3), (4, 4), (5, 3)]
  | 2 => [(3, 4), (4, 2), (4, 4), (5, 3), (5, 4)]
  | 3 => [(3, 3), (4, 4), (4, 5), (5, 3), (5, 4)]
  | _ => [(3, 4), (4, 5), (5, 3), (5, 4), (5, 5)]

/-- Example configuration: `-n 8 -i 4 -t 1 -d -g 2`. -/
def cfg_glider : Config := { n := 8, maxiter := 4, numthreads := 1, disable_display := true }

/-- Start state of `-n 8 -g 2` on zero-filled allocations. -/
def glider_start : State :=
  init_state
    (glider_world cfg_glider.nx cfg_glider.ny
      (clear_border cfg_glider.nx cfg_glider.ny dead_world))
    (clear_border cfg_glider.nx cfg_glider.ny dead_world) 5

/-- The four steps of one round of computation thread 0. -/
def round0 : List Actor := [Actor.worker 0, Actor.worker 0, Actor.worker 0, Actor.worker 0]

/-- Schedule of the witness for the glider: thread creation, then four rounds. -/
def glider_sched : List Actor :=
  Actor.driver :: (round0 ++ (round0 ++ (round0 ++ round0)))

/-- Invariant of a run started with `population[w_plot] = 0`: nothing has been
swapped and every thread is before its first loop test or has left its loop. -/
structure EmptyInv (s : State) : Prop where
  pop : s.population s.w_plot = 0
  cur : s.current_iteration = 0
  swaps : s.swaps = 0
  workers : ∀ w, ((s.workers w).pc = WorkerPc.unborn ∨ (s.workers w).pc = WorkerPc.check ∨
    (s.workers w).pc = WorkerPc.done) ∧ (s.workers w).t = 0
  plotter : (s.plotter.pc = PlotPc.unborn ∨ s.plotter.pc = PlotPc.check ∨
    s.plotter.pc = PlotPc.done) ∧ s.plotter.t = 0
  driver : s.driver.pc ≠ DriverPc.waitDone ∧ s.driver.pc ≠ DriverPc.plot ∧
    s.driver.pc ≠ DriverPc.release ∧ s.driver.t = 0

/-- Configuration `-n 2 -i 2 -t 3`: two computation threads and the plotting thread. -/
def cfg_dead : Config := { n := 2, maxiter := 2, numthreads := 3, disable_display := false }

/-- Random outcomes that make exactly the interior cell (1,1) live. -/
def rand_one : Nat → Nat → Bool := fun i j => decide (i = 1 ∧ j = 1)

/-- Start state of `cfg_dead` with the single live cell. -/
def dead_start : State :=
  init_state
    (random_world cfg_dead.nx cfg_dead.ny rand_one
      (clear_border cfg_dead.nx cfg_dead.ny dead_world)).1
    (clear_border cfg_dead.nx cfg_dead.ny dead_world)
    (random_world cfg_dead.nx cfg_dead.ny rand_one
      (clear_border cfg_dead.nx cfg_dead.ny dead_world)).2

/-- Interleaving that ends in a deadlock: thread 0 finishes round 0 and passes the
loop test of round 1 before thread 1 commits round 0; the population of
generation 1 is 0, so thread 1 and the plotting thread leave their loops. -/
def dead_sched : List Actor :=
  [Actor.driver, Actor.driver, Actor.driver, Actor.driver,
   Actor.worker 0, Actor.worker 0, Actor.worker 0, Actor.worker 0, Actor.worker 0,
   Actor.worker 1, Actor.worker 1, Actor.worker 1, Actor.worker 1, Actor.worker 1,
   Actor.plotter]

/-- Configuration `-n 2 -i 3 -t 2`: one computation thread and the plotting thread. -/
def cfg_race : Config := { n := 2, maxiter := 3, numthreads := 2, disable_display := false }

/-- Start state of `cfg_race` when every random outcome is "live" (the 2x2
interior is full, which is stable). -/
def race_start : State :=
  init_state
    (random_world cfg_race.nx cfg_race.ny (fun _ _ => true)
      (clear_border cfg_race.nx cfg_race.ny dead_world)).1
    (clear_border cfg_race.nx cfg_race.ny dead_world)
    (random_world cfg_race.nx cfg_race.ny (fun _ _ => true)
      (clear_border cfg_race.nx cfg_race.ny dead_world)).2

/-- Interleaving in which the computation thread commits round 0 before the
master thread executes line 324, and then starts round 1. -/
def race_sched : List Actor :=
  [Actor.driver, Actor.worker 0, Actor.worker 0, Actor.worker 0, Actor.worker 0,
   Actor.driver, Actor.driver, Actor.worker 0, Actor.worker 0]

/-- Invariant of thread creation: which threads exist at which point of `main`. -/
structure BornInv (cfg : Config) (s : State) : Prop where
  spawning : ∀ i, s.driver.pc = DriverPc.spawn i →
    i ≤ num_comp_threads cfg ∧ (∀ w, w < i → (s.workers w).pc ≠ WorkerPc.unborn) ∧
    s.plotter.pc = PlotPc.unborn ∧ s.has_plotting_thread = false
  spawned : (∀ i, s.driver.pc ≠ DriverPc.spawn i) →
    ∀ w, w < num_comp_threads cfg → (s.workers w).pc ≠ WorkerPc.unborn
  before_plot : s.driver.pc = DriverPc.startPlot →
    s.plotter.pc = PlotPc.unborn ∧ s.has_plotting_thread = false
  inline : (s.driver.pc = DriverPc.check ∨ s.driver.pc = DriverPc.waitDone ∨
    s.driver.pc = DriverPc.plot ∨ s.driver.pc = DriverPc.release) →
    s.plotter.pc = PlotPc.unborn ∧ s.has_plotting_thread = false
  plot_born : s.has_plotting_thread = true → s.plotter.pc ≠ PlotPc.unborn

/-- The master thread is inside its own wait/plot/release loop (lines 337-354). -/
def driver_in_loop (s : State) : Prop :=
  s.driver.pc = DriverPc.check ∨ s.driver.pc = DriverPc.waitDone ∨
  s.driver.pc = DriverPc.plot ∨ s.driver.pc = DriverPc.release

/-- The master thread has executed lines 324-328. -/
def driver_past_start (s : State) : Prop :=
  (∀ i, s.driver.pc ≠ DriverPc.spawn i) ∧ s.driver.pc ≠ DriverPc.startPlot

/-- Invariant relating the threads that exist to the configured variant. -/
structure VariantInv (cfg : Config) (s : State) : Prop where
  plot_wanted : s.plotter.pc ≠ PlotPc.unborn → plotting_thread_wanted cfg = true
  loop_unwanted : driver_in_loop s → plotting_thread_wanted cfg = false
  flag_wanted : s.has_plotting_thread = true → plotting_thread_wanted cfg = true
  past : driver_past_start s →
    s.has_plotting_thread = plotting_thread_wanted cfg ∧
    (plotting_thread_wanted cfg = true → s.plotter.pc ≠ PlotPc.unborn)

/-- Invariant of the iteration cap. -/
structure CapInv (cfg : Config) (s : State) : Prop where
  entered : ∀ w, ((s.workers w).pc = WorkerPc.wait ∨ (s.workers w).pc = WorkerPc.compute ∨
    (s.workers w).pc = WorkerPc.commit) → ((s.workers w).t : Int) < cfg.maxiter
  counter : ∀ w, ((s.workers w).t : Int) ≤ max cfg.maxiter 0
  cur : (s.current_iteration : Int) ≤ max cfg.maxiter 0

/-- Start state of `cfg_one` when every random outcome is "live" (the 2x2
interior is full, which is stable). -/
def one_start : State :=
  init_state
    (random_world cfg_one.nx cfg_one.ny (fun _ _ => true)
      (clear_border cfg_one.nx cfg_one.ny dead_world)).1
    (clear_border cfg_one.nx cfg_one.ny dead_world)
    (random_world cfg_one.nx cfg_one.ny (fun _ _ => true)
      (clear_border cfg_one.nx cfg_one.ny dead_world)).2

/-- Interleaving without plotting thread: the master thread creates the
computation thread, executes line 324 and blocks at its first wait for
`comp_done`; the computation thread runs round 0 and enters round 1. -/
def ahead_sched : List Actor :=
  [Actor.driver, Actor.driver, Actor.driver, Actor.driver,
   Actor.worker 0, Actor.worker 0, Actor.worker 0, Actor.worker 0,
   Actor.worker 0, Actor.worker 0]

/-- The interior of the freshly allocated buffer `m0` holds zeros. -/
def interior_zero (cfg : Config) (m0 : World) : Prop :=
  ∀ a b, 1 ≤ a → a < cfg.nx - 1 → 1 ≤ b → b < cfg.ny - 1 → m0 a b = 0

/-- Body of the inner loop of lines 264-265: store the outcome, then
`population[w_plot] += currWorld[i][j]`. -/
def random_cell (rand : Nat → Nat → Bool) (i j : Nat) (st : World × Int) : World × Int :=
  let c := st.1.set i j (if rand i j then 1 else 0)
  (c, st.2 + c i j)

/-- Start state of `-n 2 -g 1` on an allocation of zeros: the 2x2 block on a 2x2 interior. -/
def small_block_start : State :=
  init_state (block_world cfg_one.nx cfg_one.ny (clear_border cfg_one.nx cfg_one.ny dead_world))
    (clear_border cfg_one.nx cfg_one.ny dead_world) 4

/-- Example allocation: the byte of interior cell (1,1) holds 3, every other byte 0. -/
def three_alloc : World := fun i j => if i = 1 ∧ j = 1 then 3 else 0

/-- Start state of `-n 4 -g 1 -t 2 -d` when `malloc` returns `three_alloc` for the
current buffer: lines 245-258 clear the border, line 272 writes the block. -/
def dirty_block_start : State :=
  init_state (block_world cfg_two.nx cfg_two.ny (clear_border cfg_two.nx cfg_two.ny three_alloc))
    (clear_border cfg_two.nx cfg_two.ny dead_world) 4

/-- Example allocation: the bytes of the interior cells (2,2), (2,3), (3,2) and
(3,3) hold 1, every other byte 0. -/
def ones_alloc : World := fun i j => if (i = 2 ∨ i = 3) ∧ (j = 2 ∨ j = 3) then 1 else 0

/-- Start state of `-n 8 -i 4 -t 1 -d -g 2` when `malloc` returns `ones_alloc` for
the current buffer: lines 245-258 clear the border, lines 280-284 write the glider. -/
def dirty_glider_start : State :=
  init_state
    (glider_world cfg_glider.nx cfg_glider.ny
      (clear_border cfg_glider.nx cfg_glider.ny ones_alloc))
    (clear_border cfg_glider.nx cfg_glider.ny dead_world) 5

/-- Generation `k` of the glider of a 10x10 buffer (top cell at row 5, column 5)
together with the four cells left over from `ones_alloc`. -/
def dirty_gen (k : Nat) : List (Nat × Nat) :=
  (glider_base k).map (fun x => (x.1 + 3, x.2 + 2)) ++ [(2, 2), (2, 3), (3, 2), (3, 3)]

/-! ## Partitioner lemmas -/

theorem end_row_eq_start_succ (R W i : Nat) :
    end_row R W i = start_row R W (i + 1) := by
  unfold end_row start_row
  rw [Nat.add_mul]
  split_ifs <;> omega

theorem start_row_zero (R W : Nat) : start_row R W 0 = 1 := by
  simp [start_row]

theorem start_row_workers (R W : Nat) (hW : 1 ≤ W) : start_row R W W = R + 1 := by
  unfold start_row rows_per_thread extra_rows
  have h1 : R % W < W := Nat.mod_lt _ (by omega)
  have h2 := Nat.div_add_mod R W
  rw [if_neg (by omega)]
  omega

theorem start_le_end (R W i : Nat) : start_row R W i ≤ end_row R W i := by
  unfold end_row
  omega

theorem start_row_mono (R W : Nat) {i j : Nat} (h : i ≤ j) :
    start_row R W i ≤ start_row R W j := by
  induction j with
  | zero =>
    have : i = 0 := by omega
    subst this
    exact Nat.le_refl _
  | succ k ih =>
    rcases Nat.lt_or_ge i (k + 1) with hlt | hge
    · have h1 := ih (by omega)
      have h2 := start_le_end R W k
      rw [end_row_eq_start_succ] at h2
      omega
    · have : i = k + 1 := by omega
      subst this
      exact Nat.le_refl _

theorem end_le_start_of_lt (R W : Nat) {i j : Nat} (h : i < j) :
    end_row R W i ≤ start_row R W j := by
  rw [end_row_eq_start_succ]
  exact start_row_mono R W h

theorem one_le_start_row (R W i : Nat) : 1 ≤ start_row R W i := by
  unfold start_row
  omega

theorem end_row_le (R W i : Nat) (hW : 1 ≤ W) (hi : i < W) : end_row R W i ≤ R + 1 := by
  rw [← start_row_workers R W hW]
  exact end_le_start_of_lt R W hi

/-- Every row below `start_row k` and at least 1 lies in the band of a worker below `k`. -/
theorem row_covered_below (R W : Nat) (k r : Nat) (h1 : 1 ≤ r) (h2 : r < start_row R W k) :
    ∃ i, i < k ∧ start_row R W i ≤ r ∧ r < end_row R W i := by
  induction k with
  | zero =>
    rw [start_row_zero] at h2
    omega
  | succ k ih =>
    rcases Nat.lt_or_ge r (start_row R W k) with hlt | hge
    · obtain ⟨i, hi, hs, he⟩ := ih hlt
      exact ⟨i, by omega, hs, he⟩
    · refine ⟨k, by omega, hge, ?_⟩
      rw [end_row_eq_start_succ]
      exact h2

theorem row_covered (R W : Nat) (hW : 1 ≤ W) (r : Nat) (h1 : 1 ≤ r) (h2 : r ≤ R) :
    ∃ i, i < W ∧ start_row R W i ≤ r ∧ r < end_row R W i := by
  apply row_covered_below R W W r h1
  rw [start_row_workers R W hW]
  omega

theorem bands_disjoint (R W : Nat) {i j r : Nat} (hi : start_row R W i ≤ r ∧ r < end_row R W i)
    (hj : start_row R W j ≤ r ∧ r < end_row R W j) : i = j := by
  rcases Nat.lt_trichotomy i j with h | h | h
  · have := end_le_start_of_lt R W h
    omega
  · exact h
  · have := end_le_start_of_lt R W h
    omega

theorem band_length (R W i : Nat) :
    end_row R W i - start_row R W i = R / W + (if i < R % W then 1 else 0) := by
  unfold end_row rows_per_thread extra_rows
  generalize R / W = q
  generalize R % W = e
  split_ifs <;> omega

/-- C1. For `R ≥ 1` interior rows and `1 ≤ W ≤ R` workers the bands
`[start_row i, end_row i)` are non-empty, consecutive (`end_row i = start_row (i+1)`),
pairwise disjoint, start at row 1 and end at row `R + 1`, cover every interior
row `1..R` exactly once, and any two band lengths differ by at most 1. -/
theorem C1_partition (R W : Nat) (hR : 1 ≤ R) (hW : 1 ≤ W) (hWR : W ≤ R) :
    (∀ i, i < W → start_row R W i < end_row R W i) ∧
    (∀ i, i + 1 < W → end_row R W i = start_row R W (i + 1)) ∧
    (∀ i j, i < W → j < W → i ≠ j → ∀ r,
        ¬ ((start_row R W i ≤ r ∧ r < end_row R W i) ∧
           (start_row R W j ≤ r ∧ r < end_row R W j))) ∧
    start_row R W 0 = 1 ∧
    end_row R W (W - 1) = R + 1 ∧
    (∀ r, 1 ≤ r → r ≤ R → ∃! i, i < W ∧ start_row R W i ≤ r ∧ r < end_row R W i) ∧
    (∀ i, i < W → 1 ≤ start_row R W i ∧ end_row R W i ≤ R + 1) ∧
    (∀ i j, i < W → j < W →
        end_row R W i - start_row R W i ≤ end_row R W j - start_row R W j + 1) := by
  have hq : 1 ≤ R / W := (Nat.one_le_div_iff (by omega)).2 hWR
  have _ := hR
  refine ⟨?_, ?_, ?_, ?_, ?_, ?_, ?_, ?_⟩
  · intro i _
    have := band_length R W i
    have := start_le_end R W i
    split_ifs at * <;> omega
  · intro i _
    exact end_row_eq_start_succ R W i
  · intro i j _ _ hij r h
    exact hij (bands_disjoint R W h.1 h.2)
  · exact start_row_zero R W
  · rw [end_row_eq_start_succ]
    have : W - 1 + 1 = W := by omega
    rw [this]
    exact start_row_workers R W hW
  · intro r h1 h2
    obtain ⟨i, hi, hs, he⟩ := row_covered R W hW r h1 h2
    refine ⟨i, ⟨hi, hs, he⟩, ?_⟩
    intro j hj
    exact bands_disjoint R W ⟨hj.2.1, hj.2.2⟩ ⟨hs, he⟩
  · intro i hi
    exact ⟨one_le_start_row R W i, end_row_le R W i hW hi⟩
  · intro i j _ _
    rw [band_length, band_length]
    split_ifs <;> omega

/-- Witness for C1 at `R = 7`, `W = 3`. -/
theorem C1_partition_witness :
    (∀ i, i < 3 → start_row 7 3 i < end_row 7 3 i) ∧
    (∀ i, i + 1 < 3 → end_row 7 3 i = start_row 7 3 (i + 1)) ∧
    (∀ i j, i < 3 → j < 3 → i ≠ j → ∀ r,
        ¬ ((start_row 7 3 i ≤ r ∧ r < end_row 7 3 i) ∧
           (start_row 7 3 j ≤ r ∧ r < end_row 7 3 j))) ∧
    start_row 7 3 0 = 1 ∧
    end_row 7 3 (3 - 1) = 7 + 1 ∧
    (∀ r, 1 ≤ r → r ≤ 7 → ∃! i, i < 3 ∧ start_row 7 3 i ≤ r ∧ r < end_row 7 3 i) ∧
    (∀ i, i < 3 → 1 ≤ start_row 7 3 i ∧ end_row 7 3 i ≤ 7 + 1) ∧
    (∀ i j, i < 3 → j < 3 →
        end_row 7 3 i - start_row 7 3 i ≤ end_row 7 3 j - start_row 7 3 j + 1) :=
  C1_partition 7 3 (by decide) (by decide) (by decide)

/-! ## Case analysis of the steps -/

theorem one_le_num_comp_threads (cfg : Config) : 1 ≤ num_comp_threads cfg := by
  unfold num_comp_threads
  simp only
  split_ifs <;> omega

/-- Case analysis of a step of computation thread `w`. -/
theorem worker_step_cases {cfg : Config} {s s1 : State} {w : Nat}
    (hs : worker_step cfg s w = some s1) :
    w < num_comp_threads cfg ∧
    (((s.workers w).pc = WorkerPc.check ∧ loop_test cfg s (s.workers w).t = true ∧
        s1 = set_worker s w { s.workers w with pc := WorkerPc.wait }) ∨
     ((s.workers w).pc = WorkerPc.check ∧ loop_test cfg s (s.workers w).t = false ∧
        s1 = set_worker s w { s.workers w with pc := WorkerPc.done }) ∨
     ((s.workers w).pc = WorkerPc.wait ∧ s.ready_to_compute = true ∧
        s.current_iteration = (s.workers w).t ∧
        s1 = set_worker s w { s.workers w with pc := WorkerPc.compute }) ∨
     ((s.workers w).pc = WorkerPc.compute ∧ s1 = after_compute cfg s w) ∨
     ((s.workers w).pc = WorkerPc.commit ∧ s1 = after_commit cfg s w)) := by
  unfold worker_step at hs
  split at hs
  · rename_i hw
    refine ⟨hw, ?_⟩
    simp only at hs
    split at hs
    · exact absurd hs (by simp)
    · rename_i hpc
      split at hs
      · rename_i hl
        exact Or.inl ⟨hpc, hl, (Option.some.inj hs).symm⟩
      · rename_i hl
        exact Or.inr (Or.inl ⟨hpc, by simpa using hl, (Option.some.inj hs).symm⟩)
    · rename_i hpc
      split at hs
      · rename_i hg
        exact Or.inr (Or.inr (Or.inl ⟨hpc, hg.1, hg.2, (Option.some.inj hs).symm⟩))
      · exact absurd hs (by simp)
    · rename_i hpc
      exact Or.inr (Or.inr (Or.inr (Or.inl ⟨hpc, (Option.some.inj hs).symm⟩)))
    · rename_i hpc
      exact Or.inr (Or.inr (Or.inr (Or.inr ⟨hpc, (Option.some.inj hs).symm⟩)))
    · exact absurd hs (by simp)
  · exact absurd hs (by simp)

theorem plotter_step_frame {cfg : Config} {s s1 : State}
    (hs : plotter_step cfg s = some s1) : Frame s s1 ∧ s1.driver = s.driver := by
  unfold plotter_step at hs
  simp only at hs
  split at hs <;> (try split at hs) <;> (try split at hs) <;> cases hs <;>
    exact ⟨⟨rfl, rfl, rfl, rfl, rfl, rfl, rfl, rfl, rfl⟩, rfl⟩

/-- Case analysis of a step of the master thread: it either creates thread `i`
or leaves the shared variables and computation threads alone. -/
theorem driver_step_cases {cfg : Config} {s s1 : State}
    (hs : driver_step cfg s = some s1) :
    (∃ i, s.driver.pc = DriverPc.spawn i ∧ i < num_comp_threads cfg ∧
        s1 = { set_worker s i { pc := WorkerPc.check, t := 0, local_pop := 0 } with
               driver := { s.driver with pc := DriverPc.spawn (i + 1) } }) ∨
    (Frame s s1 ∧ ∀ i, s1.driver.pc ≠ DriverPc.spawn i) := by
  unfold driver_step at hs
  simp only at hs
  split at hs
  · rename_i i hpc
    split at hs
    · rename_i hi
      exact Or.inl ⟨i, hpc, hi, (Option.some.inj hs).symm⟩
    · cases Option.some.inj hs
      exact Or.inr ⟨⟨rfl, rfl, rfl, rfl, rfl, rfl, rfl, rfl, rfl⟩, by intro i; simp⟩
  all_goals
    refine Or.inr ?_
    (try split at hs) <;> (try split at hs) <;> cases hs <;>
      exact ⟨⟨rfl, rfl, rfl, rfl, rfl, rfl, rfl, rfl, rfl⟩, by intro i; simp⟩

/-! ## Control invariant of the barrier -/

theorem contributors_congr {cfg : Config} {s s1 : State}
    (ht : ∀ v, (s1.workers v).t = (s.workers v).t)
    (hc : s1.current_iteration = s.current_iteration) :
    contributors cfg s1 = contributors cfg s := by
  unfold contributors
  apply Finset.filter_congr
  intro v _
  rw [ht, hc]

theorem Inv_init (cfg : Config) (c n : World) (p : Int) : Inv cfg (init_state c n p) := by
  refine ⟨?_, ?_, ?_, ?_, ?_, ?_, ?_⟩
  · intro w _; exact Or.inl rfl
  · intro w _ _; rfl
  · intro w _; rfl
  · simp [contributors, init_state]
  · exact one_le_num_comp_threads cfg
  · rfl
  · intro i _ w _; rfl

/-- A step that changes only the control point and `local_pop` of thread `w`. -/
theorem Inv_local {cfg : Config} {s s1 : State} {w : Nat} {x : Worker} (h : Inv cfg s)
    (hborn : (s.workers w).pc ≠ WorkerPc.unborn)
    (hw : s1.workers = fun k => if k = w then x else s.workers k)
    (hxt : x.t = (s.workers w).t)
    (hx1 : x.pc ≠ WorkerPc.unborn)
    (hx2 : (x.pc = WorkerPc.compute ∨ x.pc = WorkerPc.commit) → x.t = s.current_iteration)
    (hcc : s1.computation_complete = s.computation_complete)
    (hci : s1.current_iteration = s.current_iteration)
    (hsw : s1.swaps = s.swaps)
    (hdr : s1.driver = s.driver) : Inv cfg s1 := by
  have ht : ∀ v, (s1.workers v).t = (s.workers v).t := by
    intro v
    rw [hw]
    by_cases hv : v = w
    · simp [hv, hxt]
    · simp [hv]
  have hpc : ∀ v, v ≠ w → (s1.workers v).pc = (s.workers v).pc := by
    intro v hv
    rw [hw]
    simp [hv]
  have hpcw : (s1.workers w).pc = x.pc := by rw [hw]; simp
  refine ⟨?_, ?_, ?_, ?_, ?_, ?_, ?_⟩
  · intro v hv
    rw [ht, hci]
    exact h.t_range v hv
  · intro v hv hp
    rw [ht, hci]
    by_cases hvw : v = w
    · subst hvw
      rw [hpcw] at hp
      rcases hp with hp | hp | hp
      · exact absurd hp hx1
      · rw [← hxt]; exact hx2 (Or.inl hp)
      · rw [← hxt]; exact hx2 (Or.inr hp)
    · rw [hpc v hvw] at hp
      exact h.t_now v hv hp
  · intro v hp
    rw [ht]
    by_cases hvw : v = w
    · subst hvw
      rw [hpcw] at hp
      exact absurd hp hx1
    · rw [hpc v hvw] at hp
      exact h.unborn_zero v hp
  · rw [hcc, contributors_congr ht hci]
    exact h.count
  · rw [hcc]; exact h.lt
  · rw [hsw, hci]; exact h.swaps_eq
  · intro i hi v hv
    rw [hdr] at hi
    by_cases hvw : v = w
    · subst hvw
      exact absurd (h.spawn i hi v hv) hborn
    · rw [hpc v hvw]
      exact h.spawn i hi v hv

theorem Inv_frame {cfg : Config} {s s1 : State} (h : Inv cfg s) (hf : Frame s s1)
    (hsp : ∀ i, s1.driver.pc = DriverPc.spawn i → ∀ w, i ≤ w → (s.workers w).pc = WorkerPc.unborn) :
    Inv cfg s1 := by
  obtain ⟨_, _, _, _, _, hcc, hci, hw, hsw⟩ := hf
  have ht : ∀ v, (s1.workers v).t = (s.workers v).t := by intro v; rw [hw]
  refine ⟨?_, ?_, ?_, ?_, ?_, ?_, ?_⟩
  · rw [hw, hci]; exact h.t_range
  · rw [hw, hci]; exact h.t_now
  · rw [hw]; exact h.unborn_zero
  · rw [hcc, contributors_congr ht hci]; exact h.count
  · rw [hcc]; exact h.lt
  · rw [hsw, hci]; exact h.swaps_eq
  · rw [hw]; exact hsp

theorem mem_contributors {cfg : Config} {s : State} {v : Nat} :
    v ∈ contributors cfg s ↔
      v < num_comp_threads cfg ∧ (s.workers v).t = s.current_iteration + 1 := by
  simp [contributors]

theorem contributors_full {cfg : Config} {s : State} {w : Nat}
    (hw : w < num_comp_threads cfg) (htw : (s.workers w).t = s.current_iteration)
    (hc : (contributors cfg s).card + 1 = num_comp_threads cfg) :
    contributors cfg s = (Finset.range (num_comp_threads cfg)).erase w := by
  apply Finset.eq_of_subset_of_card_le
  · intro v hv
    rw [mem_contributors] at hv
    rw [Finset.mem_erase, Finset.mem_range]
    refine ⟨?_, hv.1⟩
    intro hvw
    subst hvw
    omega
  · rw [Finset.card_erase_of_mem (Finset.mem_range.2 hw), Finset.card_range]
    omega

/-- The locked section when the thread is the last of its round. -/
theorem after_commit_last {cfg : Config} {s : State} {w : Nat}
    (h : s.computation_complete + 1 = num_comp_threads cfg) :
    after_commit cfg s w =
      { s with
        currWorld := s.nextWorld
        nextWorld := s.currWorld
        w_update := s.w_plot
        w_plot := s.w_update
        population := fun k => if k = s.w_plot then 0 else
          (if k = s.w_update then s.population k + (s.workers w).local_pop else s.population k)
        computation_complete := 0
        current_iteration := (s.workers w).t + 1
        ready_to_compute := if s.has_plotting_thread then false else true
        swaps := s.swaps + 1
        workers := fun k => if k = w then
          { s.workers w with pc := WorkerPc.check, t := (s.workers w).t + 1 } else s.workers k } := by
  simp [after_commit, commit_swap, commit_add, set_worker, h]

/-- The locked section when other threads of the round are still missing. -/
theorem after_commit_not_last {cfg : Config} {s : State} {w : Nat}
    (h : s.computation_complete + 1 ≠ num_comp_threads cfg) :
    after_commit cfg s w =
      { s with
        population := fun k =>
          if k = s.w_update then s.population k + (s.workers w).local_pop else s.population k
        computation_complete := s.computation_complete + 1
        workers := fun k => if k = w then
          { s.workers w with pc := WorkerPc.check, t := (s.workers w).t + 1 } else s.workers k } := by
  simp [after_commit, commit_swap, commit_add, set_worker, h]

theorem Inv_commit {cfg : Config} {s : State} {w : Nat} (h : Inv cfg s)
    (hw : w < num_comp_threads cfg) (hpc : (s.workers w).pc = WorkerPc.commit) :
    Inv cfg (after_commit cfg s w) := by
  have htw : (s.workers w).t = s.current_iteration := h.t_now w hw (Or.inr (Or.inr hpc))
  by_cases hl : s.computation_complete + 1 = num_comp_threads cfg
  · rw [after_commit_last hl]
    have hfull := contributors_full hw htw (by rw [← h.count]; exact hl)
    have hall : ∀ v, v < num_comp_threads cfg → v ≠ w →
        (s.workers v).t = s.current_iteration + 1 := by
      intro v hv hvw
      have : v ∈ contributors cfg s := by
        rw [hfull, Finset.mem_erase, Finset.mem_range]
        exact ⟨hvw, hv⟩
      exact (mem_contributors.1 this).2
    refine ⟨?_, ?_, ?_, ?_, ?_, ?_, ?_⟩
    · intro v hv
      left
      by_cases hvw : v = w
      · simp [hvw]
      · simp [hvw, hall v hv hvw, htw]
    · intro v hv _
      by_cases hvw : v = w
      · simp [hvw]
      · simp [hvw, hall v hv hvw, htw]
    · intro v hp
      by_cases hvw : v = w
      · simp [hvw] at hp
      · simp only [hvw, if_false] at hp ⊢
        exact h.unborn_zero v hp
    · symm
      rw [Finset.card_eq_zero, Finset.eq_empty_iff_forall_not_mem]
      intro v hv
      rw [mem_contributors] at hv
      obtain ⟨hv1, hv2⟩ := hv
      by_cases hvw : v = w
      · simp [hvw] at hv2
      · simp only [hvw, if_false] at hv2
        have := hall v hv1 hvw
        omega
    · exact one_le_num_comp_threads cfg
    · simp only
      rw [h.swaps_eq, htw]
    · intro i hi v hv
      simp only at hi
      by_cases hvw : v = w
      · subst hvw
        have := h.spawn i hi v hv
        rw [hpc] at this
        exact absurd this (by decide)
      · simp only [hvw, if_false]
        exact h.spawn i hi v hv
  · rw [after_commit_not_last hl]
    have hnot : w ∉ contributors cfg s := by
      rw [mem_contributors]
      omega
    refine ⟨?_, ?_, ?_, ?_, ?_, ?_, ?_⟩
    · intro v hv
      by_cases hvw : v = w
      · right; simp [hvw, htw]
      · simp only [hvw, if_false]
        exact h.t_range v hv
    · intro v hv hp
      by_cases hvw : v = w
      · simp [hvw] at hp
      · simp only [hvw, if_false] at hp ⊢
        exact h.t_now v hv hp
    · intro v hp
      by_cases hvw : v = w
      · simp [hvw] at hp
      · simp only [hvw, if_false] at hp ⊢
        exact h.unborn_zero v hp
    · have : contributors cfg
          { s with
            population := fun k =>
              if k = s.w_update then s.population k + (s.workers w).local_pop else s.population k
            computation_complete := s.computation_complete + 1
            workers := fun k => if k = w then
              { s.workers w with pc := WorkerPc.check, t := (s.workers w).t + 1 }
              else s.workers k } = insert w (contributors cfg s) := by
        ext v
        rw [Finset.mem_insert, mem_contributors, mem_contributors]
        by_cases hvw : v = w
        · simp [hvw, htw, hw]
        · simp [hvw]
      rw [this, Finset.card_insert_of_not_mem hnot, ← h.count]
    · have := h.lt
      simp only
      omega
    · exact h.swaps_eq
    · intro i hi v hv
      simp only at hi
      by_cases hvw : v = w
      · subst hvw
        have := h.spawn i hi v hv
        rw [hpc] at this
        exact absurd this (by decide)
      · simp only [hvw, if_false]
        exact h.spawn i hi v hv

theorem Inv_step {cfg : Config} {s s1 : State} (a : Actor) (h : Inv cfg s)
    (hs : step cfg s a = some s1) : Inv cfg s1 := by
  cases a with
  | worker w =>
    obtain ⟨hw, hc⟩ := worker_step_cases hs
    rcases hc with ⟨hpc, _, rfl⟩ | ⟨hpc, _, rfl⟩ | ⟨hpc, _, hcur, rfl⟩ | ⟨hpc, rfl⟩ | ⟨hpc, rfl⟩
    · exact Inv_local h (by rw [hpc]; decide) rfl rfl (by simp) (by simp) rfl rfl rfl rfl
    · exact Inv_local h (by rw [hpc]; decide) rfl rfl (by simp) (by simp) rfl rfl rfl rfl
    · exact Inv_local h (by rw [hpc]; decide) rfl rfl (by simp) (fun _ => hcur.symm)
        rfl rfl rfl rfl
    · exact Inv_local h (by rw [hpc]; decide) rfl rfl (by simp)
        (fun _ => h.t_now w hw (Or.inr (Or.inl hpc))) rfl rfl rfl rfl
    · exact Inv_commit h hw hpc
  | plotter =>
    obtain ⟨hf, hd⟩ := plotter_step_frame hs
    exact Inv_frame h hf (by rw [hd]; exact h.spawn)
  | driver =>
    rcases driver_step_cases hs with ⟨i, hpc, _, rfl⟩ | ⟨hf, hns⟩
    · have hi := h.spawn i hpc i (Nat.le_refl i)
      have ht := h.unborn_zero i hi
      have hv : ∀ v, v ≠ i → (if v = i then
          ({ pc := WorkerPc.check, t := 0, local_pop := 0 } : Worker) else s.workers v) =
          s.workers v := by
        intro v hv; simp [hv]
      refine ⟨?_, ?_, ?_, ?_, ?_, ?_, ?_⟩
      · intro v hv1
        have := h.t_range v hv1
        by_cases hvi : v = i
        · subst hvi
          simp only [set_worker, if_true]
          rw [ht] at this
          exact this
        · simp only [set_worker, hv v hvi]
          exact this
      · intro v hv1 hp
        by_cases hvi : v = i
        · subst hvi
          simp [set_worker] at hp
        · simp only [set_worker, hv v hvi] at hp ⊢
          exact h.t_now v hv1 hp
      · intro v hp
        by_cases hvi : v = i
        · subst hvi
          simp [set_worker] at hp
        · simp only [set_worker, hv v hvi] at hp ⊢
          exact h.unborn_zero v hp
      · have hc : contributors cfg
            { set_worker s i { pc := WorkerPc.check, t := 0, local_pop := 0 } with
              driver := { s.driver with pc := DriverPc.spawn (i + 1) } } = contributors cfg s := by
          apply contributors_congr
          · intro v
            by_cases hvi : v = i
            · subst hvi
              simp [set_worker, ht]
            · simp [set_worker, hvi]
          · rfl
        rw [hc]
        exact h.count
      · exact h.lt
      · exact h.swaps_eq
      · intro k hk v hv1
        simp only [DriverPc.spawn.injEq] at hk
        have hvi : v ≠ i := by omega
        simp only [set_worker, hv v hvi]
        exact h.spawn i hpc v (by omega)
    · exact Inv_frame h hf (fun i hi => absurd hi (hns i))

theorem Inv_reachable {cfg : Config} {c n : World} {p : Int} {s : State}
    (hr : Reachable cfg (init_state c n p) s) : Inv cfg s := by
  induction hr with
  | init => exact Inv_init cfg c n p
  | step a _ hs ih => exact Inv_step a ih hs

/-! ## Barrier safety and the completion counter -/

theorem reachable_run {cfg : Config} {s0 : State} (sched : List Actor) :
    ∀ {s s1 : State}, Reachable cfg s0 s → run cfg s sched = some s1 → Reachable cfg s0 s1 := by
  induction sched with
  | nil =>
    intro s s1 hr h
    simp only [run, Option.some.injEq] at h
    subst h
    exact hr
  | cons a rest ih =>
    intro s s1 hr h
    simp only [run] at h
    split at h
    · rename_i s2 h2
      exact ih (Reachable.step a hr h2) h
    · exact absurd h (by simp)

theorem reachable_run_from (cfg : Config) (s0 : State) (sched : List Actor) :
    Reachable cfg s0 (run_from cfg s0 sched) := by
  unfold run_from
  cases h : run cfg s0 sched with
  | none => exact Reachable.init
  | some s1 => exact reachable_run sched Reachable.init h

/-- C2. Barrier safety. In every reachable state: (1) a computation thread in its
compute phase for round `t+1` sees `current_iteration = t+1` and exactly `t+1`
swaps have been committed; (2) if the swap of round `t` has been committed
(`current_iteration ≥ t+1`) then every computation thread has already finished
its locked increment of round `t` (its loop counter is past `t`); (3) a step that
swaps the buffers is the locked section of a thread whose increment is the
`W`-th of the round, taken when all other threads have incremented for this
round and no thread is in its compute phase. -/
theorem C2_barrier_safety (cfg : Config) (curr0 next0 : World) (pop0 : Int) (s : State)
    (hr : Reachable cfg (init_state curr0 next0 pop0) s) :
    (∀ w t, w < num_comp_threads cfg → (s.workers w).pc = WorkerPc.compute →
        (s.workers w).t = t + 1 → s.current_iteration = t + 1 ∧ s.swaps = t + 1) ∧
    (∀ t v, t + 1 ≤ s.current_iteration → v < num_comp_threads cfg →
        t + 1 ≤ (s.workers v).t) ∧
    (∀ a s1, step cfg s a = some s1 → s1.swaps ≠ s.swaps →
        ∃ w, a = Actor.worker w ∧ w < num_comp_threads cfg ∧
          (s.workers w).pc = WorkerPc.commit ∧
          s.computation_complete + 1 = num_comp_threads cfg ∧
          s1.swaps = s.swaps + 1 ∧ s1.current_iteration = s.current_iteration + 1 ∧
          (∀ v, v < num_comp_threads cfg → v ≠ w →
            (s.workers v).t = s.current_iteration + 1) ∧
          (∀ v, v < num_comp_threads cfg → (s.workers v).pc ≠ WorkerPc.compute)) := by
  have h := Inv_reachable hr
  refine ⟨?_, ?_, ?_⟩
  · intro w t hw hpc ht
    have h1 := h.t_now w hw (Or.inr (Or.inl hpc))
    have h2 := h.swaps_eq
    omega
  · intro t v ht hv
    have := h.t_range v hv
    omega
  · intro a s1 hs hne
    cases a with
    | worker w =>
      obtain ⟨hw, hc⟩ := worker_step_cases hs
      rcases hc with ⟨_, _, rfl⟩ | ⟨_, _, rfl⟩ | ⟨_, _, _, rfl⟩ | ⟨_, rfl⟩ | ⟨hpc, rfl⟩
      · exact absurd rfl hne
      · exact absurd rfl hne
      · exact absurd rfl hne
      · exact absurd rfl hne
      · have htw : (s.workers w).t = s.current_iteration := h.t_now w hw (Or.inr (Or.inr hpc))
        by_cases hl : s.computation_complete + 1 = num_comp_threads cfg
        · have hfull := contributors_full hw htw (by rw [← h.count]; exact hl)
          have hall : ∀ v, v < num_comp_threads cfg → v ≠ w →
              (s.workers v).t = s.current_iteration + 1 := by
            intro v hv hvw
            have : v ∈ contributors cfg s := by
              rw [hfull, Finset.mem_erase, Finset.mem_range]
              exact ⟨hvw, hv⟩
            exact (mem_contributors.1 this).2
          refine ⟨w, rfl, hw, hpc, hl, ?_, ?_, hall, ?_⟩
          · rw [after_commit_last hl]
          · rw [after_commit_last hl]
            simp only
            rw [htw]
          · intro v hv hp
            by_cases hvw : v = w
            · subst hvw
              rw [hpc] at hp
              exact absurd hp (by decide)
            · have h1 := h.t_now v hv (Or.inr (Or.inl hp))
              have h2 := hall v hv hvw
              omega
        · rw [after_commit_not_last hl] at hne
          exact absurd rfl hne
    | plotter =>
      obtain ⟨hf, _⟩ := plotter_step_frame hs
      exact absurd hf.2.2.2.2.2.2.2.2 hne
    | driver =>
      rcases driver_step_cases hs with ⟨i, _, _, rfl⟩ | ⟨hf, _⟩
      · exact absurd rfl hne
      · exact absurd hf.2.2.2.2.2.2.2.2 hne

/-- Witness for C2: after the schedule below the single computation thread is in
its compute phase for round 1, and the swap of round 0 has been committed. -/
theorem C2_barrier_safety_witness :
    Reachable cfg_one (init_state full2 dead_world 4)
      (run_from cfg_one (init_state full2 dead_world 4)
        [Actor.driver, Actor.worker 0, Actor.worker 0, Actor.worker 0, Actor.worker 0,
         Actor.worker 0, Actor.worker 0]) ∧
    (run_from cfg_one (init_state full2 dead_world 4)
        [Actor.driver, Actor.worker 0, Actor.worker 0, Actor.worker 0, Actor.worker 0,
         Actor.worker 0, Actor.worker 0]).current_iteration = 0 + 1 ∧
    (run_from cfg_one (init_state full2 dead_world 4)
        [Actor.driver, Actor.worker 0, Actor.worker 0, Actor.worker 0, Actor.worker 0,
         Actor.worker 0, Actor.worker 0]).swaps = 0 + 1 :=
  ⟨reachable_run_from _ _ _,
   (C2_barrier_safety cfg_one full2 dead_world 4 _ (reachable_run_from _ _ _)).1 0 0
     (by decide) (by decide) (by decide)⟩

/-- C7. In every reachable state `computation_complete ≤ W - 1` (these are the
states in which the lock is free). Inside the locked section of a thread about
to commit, the value after `computation_complete++` lies in `[1, W]`; if it is `W`
the same locked section resets it to 0; the value at the unlock is at most `W - 1`. -/
theorem C7_completed_count_bounds (cfg : Config) (curr0 next0 : World) (pop0 : Int) (s : State)
    (hr : Reachable cfg (init_state curr0 next0 pop0) s) :
    s.computation_complete ≤ num_comp_threads cfg - 1 ∧
    (∀ w, w < num_comp_threads cfg → (s.workers w).pc = WorkerPc.commit →
      1 ≤ (commit_add s (s.workers w).local_pop).computation_complete ∧
      (commit_add s (s.workers w).local_pop).computation_complete ≤ num_comp_threads cfg ∧
      ((commit_add s (s.workers w).local_pop).computation_complete = num_comp_threads cfg →
        (commit_swap cfg (commit_add s (s.workers w).local_pop)
          (s.workers w).t).computation_complete = 0) ∧
      (commit_swap cfg (commit_add s (s.workers w).local_pop)
          (s.workers w).t).computation_complete ≤ num_comp_threads cfg - 1 ∧
      (after_commit cfg s w).computation_complete ≤ num_comp_threads cfg - 1) := by
  have h := Inv_reachable hr
  have hlt := h.lt
  refine ⟨by omega, ?_⟩
  intro w hw hpc
  have h1 := (Inv_commit h hw hpc).lt
  refine ⟨?_, ?_, ?_, ?_, ?_⟩
  · simp [commit_add]
  · simp only [commit_add]
    omega
  · intro hW
    simp only [commit_add] at hW
    simp [commit_swap, commit_add, hW]
  · by_cases hc : s.computation_complete + 1 = num_comp_threads cfg
    · simp [commit_swap, commit_add, hc]
    · simp only [commit_swap, commit_add, hc, if_false]
      omega
  · omega

/-- Witness for C7: a reachable state in which the single computation thread is
about to enter its locked section; the incremented value is `W = 1` and is reset to 0. -/
theorem C7_completed_count_bounds_witness :
    Reachable cfg_one (init_state full2 dead_world 4)
      (run_from cfg_one (init_state full2 dead_world 4)
        [Actor.driver, Actor.worker 0, Actor.worker 0, Actor.worker 0]) ∧
    (run_from cfg_one (init_state full2 dead_world 4)
        [Actor.driver, Actor.worker 0, Actor.worker 0, Actor.worker 0]).computation_complete
      ≤ num_comp_threads cfg_one - 1 :=
  ⟨reachable_run_from _ _ _,
   (C7_completed_count_bounds cfg_one full2 dead_world 4 _ (reachable_run_from _ _ _)).1⟩

/-! ## The loops of the band update -/

theorem forLoop_empty {σ : Type} {lo hi : Nat} (body : Nat → σ → σ) (s : σ) (h : hi ≤ lo) :
    forLoop lo hi body s = s := by
  unfold forLoop
  have : hi - lo = 0 := by omega
  rw [this]
  rfl

theorem forLoop_succ {σ : Type} {lo hi : Nat} (body : Nat → σ → σ) (s : σ) (h : lo ≤ hi) :
    forLoop lo (hi + 1) body s = body hi (forLoop lo hi body s) := by
  unfold forLoop
  have : hi + 1 - lo = (hi - lo) + 1 := by omega
  rw [this, List.range'_concat, List.foldl_append]
  simp only [List.foldl_cons, List.foldl_nil, Nat.one_mul]
  have : lo + (hi - lo) = hi := by omega
  rw [this]

theorem cell_body_fst (curr : World) (i j : Nat) (st : World × Int) (a b : Nat) :
    (cell_body curr i j st).1 a b =
      if a = i ∧ b = j then next_cell curr i j else st.1 a b := by
  simp [cell_body, World.set]

theorem cell_body_snd (curr : World) (i j : Nat) (st : World × Int) :
    (cell_body curr i j st).2 = st.2 + next_cell curr i j := by
  simp [cell_body, World.set]

/-- Result of the inner loop over the columns `1 ≤ j < hi` of row `i`. -/
theorem col_loop_spec (curr : World) (i : Nat) (st : World × Int) (hi : Nat) :
    (∀ a b, (forLoop 1 hi (fun j st1 => cell_body curr i j st1) st).1 a b =
        if a = i ∧ 1 ≤ b ∧ b < hi then next_cell curr i b else st.1 a b) ∧
    (forLoop 1 hi (fun j st1 => cell_body curr i j st1) st).2 =
        st.2 + ∑ j in Finset.Ico 1 hi, next_cell curr i j := by
  induction hi with
  | zero =>
    rw [forLoop_empty _ _ (by omega)]
    simp
  | succ k ih =>
    rcases Nat.lt_or_ge k 1 with hk | hk
    · rw [forLoop_empty _ _ (by omega)]
      have : k = 0 := by omega
      subst this
      constructor
      · intro a b
        rw [if_neg]
        omega
      · simp
    · rw [forLoop_succ _ _ hk]
      obtain ⟨ih1, ih2⟩ := ih
      constructor
      · intro a b
        rw [cell_body_fst]
        by_cases hab : a = i ∧ b = k
        · obtain ⟨rfl, rfl⟩ := hab
          simp [hk]
        · rw [if_neg hab, ih1]
          by_cases h1 : a = i ∧ 1 ≤ b ∧ b < k
          · rw [if_pos h1, if_pos ⟨h1.1, h1.2.1, by omega⟩]
          · rw [if_neg h1, if_neg]
            intro h2
            apply h1
            refine ⟨h2.1, h2.2.1, ?_⟩
            have : b ≠ k := fun hb => hab ⟨h2.1, hb⟩
            omega
      · rw [cell_body_snd, ih2, Finset.sum_Ico_succ_top hk]
        ring

/-- Result of the band update: the rows `start ≤ i < stop` of `nextWorld` hold
the new cells in the interior columns, every other cell is unchanged, and
`local_pop` is the sum of the new cells of the band. -/
theorem compute_band_spec (ny : Nat) (curr next : World) (start stop : Nat) :
    (∀ a b, (compute_band ny curr next start stop).1 a b =
        if start ≤ a ∧ a < stop ∧ 1 ≤ b ∧ b < ny - 1 then next_cell curr a b else next a b) ∧
    (compute_band ny curr next start stop).2 = band_sum ny (next_cell curr) start stop := by
  unfold compute_band band_sum
  induction stop with
  | zero =>
    rw [forLoop_empty _ _ (by omega)]
    simp
  | succ k ih =>
    rcases Nat.lt_or_ge k start with hk | hk
    · rw [forLoop_empty _ _ (by omega)]
      constructor
      · intro a b
        rw [if_neg]
        omega
      · rw [Finset.Ico_eq_empty (by omega)]
        simp
    · rw [forLoop_succ _ _ hk]
      obtain ⟨ih1, ih2⟩ := ih
      obtain ⟨c1, c2⟩ := col_loop_spec curr k
        (forLoop start k
          (fun i st => forLoop 1 (ny - 1) (fun j st1 => cell_body curr i j st1) st) (next, 0))
        (ny - 1)
      constructor
      · intro a b
        rw [c1, ih1]
        by_cases h1 : a = k ∧ 1 ≤ b ∧ b < ny - 1
        · rw [if_pos h1, if_pos ⟨by omega, by omega, h1.2.1, h1.2.2⟩, h1.1]
        · rw [if_neg h1]
          by_cases h2 : start ≤ a ∧ a < k ∧ 1 ≤ b ∧ b < ny - 1
          · rw [if_pos h2, if_pos ⟨h2.1, by omega, h2.2.2⟩]
          · rw [if_neg h2, if_neg]
            intro h3
            by_cases hak : a = k
            · exact h1 ⟨hak, h3.2.2⟩
            · exact h2 ⟨h3.1, by omega, h3.2.2⟩
      · rw [c2, ih2, Finset.sum_Ico_succ_top hk]

/-! ## Invariant of the buffers and population counters -/

theorem next_cell_01 (g : World) (i j : Nat) : next_cell g i j = 0 ∨ next_cell g i j = 1 := by
  unfold next_cell
  split_ifs <;> simp

theorem band_sum_consecutive (ny : Nat) (g : World) {a b c : Nat} (hab : a ≤ b) (hbc : b ≤ c) :
    band_sum ny g a b + band_sum ny g b c = band_sum ny g a c := by
  unfold band_sum
  exact Finset.sum_Ico_consecutive _ hab hbc

/-- The bands of the first `k` threads add up to the rows below `start_row k`. -/
theorem sum_bands (cfg : Config) (g : World) (k : Nat) :
    ∑ v in Finset.range k, worker_band_sum cfg g v =
      band_sum cfg.ny g 1 (start_row cfg.n (num_comp_threads cfg) k) := by
  induction k with
  | zero =>
    rw [start_row_zero]
    simp [band_sum]
  | succ k ih =>
    rw [Finset.sum_range_succ, ih]
    unfold worker_band_sum
    rw [end_row_eq_start_succ]
    apply band_sum_consecutive
    · exact one_le_start_row _ _ _
    · have := start_le_end cfg.n (num_comp_threads cfg) k
      rw [end_row_eq_start_succ] at this
      exact this

/-- The bands of all threads add up to the whole interior. -/
theorem sum_all_bands (cfg : Config) (g : World) :
    ∑ v in Finset.range (num_comp_threads cfg), worker_band_sum cfg g v =
      band_sum cfg.ny g 1 (cfg.nx - 1) := by
  rw [sum_bands, start_row_workers _ _ (one_le_num_comp_threads cfg)]
  rfl

theorem live_count_eq_band_sum (cfg : Config) (g h : World)
    (hg : ∀ i j, 1 ≤ i → i < cfg.nx - 1 → 1 ≤ j → j < cfg.ny - 1 → h i j = next_cell g i j) :
    live_count cfg.nx cfg.ny h = band_sum cfg.ny (next_cell g) 1 (cfg.nx - 1) := by
  unfold live_count band_sum
  apply Finset.sum_congr rfl
  intro i hi
  apply Finset.sum_congr rfl
  intro j hj
  rw [Finset.mem_Ico] at hi hj
  rw [hg i j hi.1 hi.2 hj.1 hj.2]
  rcases next_cell_01 g i j with h0 | h1
  · rw [h0]; simp
  · rw [h1]; simp

theorem DataInv_init (cfg : Config) (c n : World) (p : Int) :
    DataInv cfg (init_state c n p) := by
  refine ⟨Or.inl ⟨rfl, rfl⟩, ?_, ?_, ?_, ?_⟩
  · intro w _ h
    rcases h with h | h
    · simp [init_state] at h
    · simp [init_state] at h
  · intro w _ h
    simp [init_state] at h
  · have : contributors cfg (init_state c n p) = ∅ := by
      simp [contributors, init_state]
    rw [this]
    simp [init_state]
  · intro h
    simp [init_state] at h

/-- A step that changes only the local state of thread `w`, keeping its loop
counter and not entering the locked section. -/
theorem DataInv_local {cfg : Config} {s s1 : State} {w : Nat} {x : Worker} (h : DataInv cfg s)
    (hw : s1.workers = fun k => if k = w then x else s.workers k)
    (hxt : x.t = (s.workers w).t) (hx : x.pc ≠ WorkerPc.commit)
    (hc : s1.currWorld = s.currWorld) (hn : s1.nextWorld = s.nextWorld)
    (hp : s1.population = s.population) (hu : s1.w_update = s.w_update)
    (hpl : s1.w_plot = s.w_plot) (hci : s1.current_iteration = s.current_iteration) :
    DataInv cfg s1 := by
  have ht : ∀ v, (s1.workers v).t = (s.workers v).t := by
    intro v
    rw [hw]
    by_cases hv : v = w
    · simp [hv, hxt]
    · simp [hv]
  have hpc : ∀ v, (s1.workers v).pc = WorkerPc.commit →
      (s.workers v).pc = WorkerPc.commit ∧ s1.workers v = s.workers v := by
    intro v hv
    rw [hw] at hv ⊢
    by_cases hvw : v = w
    · simp [hvw] at hv
      exact absurd hv hx
    · simp only [hvw, if_false] at hv ⊢
      exact ⟨hv, trivial⟩
  refine ⟨?_, ?_, ?_, ?_, ?_⟩
  · rw [hu, hpl]; exact h.idx
  · intro v hv hcond
    have : band_ok cfg s v := by
      apply h.band v hv
      rcases hcond with h1 | h1
      · left; rw [← ht, h1, hci]
      · right; exact (hpc v h1).1
    unfold band_ok at this ⊢
    rw [hc, hn]
    exact this
  · intro v hv hcond
    obtain ⟨h1, h2⟩ := hpc v hcond
    rw [h2, hc]
    exact h.lp v hv h1
  · rw [hp, hu, hc, contributors_congr ht hci]
    exact h.pop
  · rw [hp, hpl, hc, hci]
    exact h.plot

theorem DataInv_frame {cfg : Config} {s s1 : State} (h : DataInv cfg s) (hf : Frame s s1) :
    DataInv cfg s1 := by
  obtain ⟨hc, hn, hp, hu, hpl, _, hci, hw, _⟩ := hf
  have ht : ∀ v, (s1.workers v).t = (s.workers v).t := by intro v; rw [hw]
  refine ⟨?_, ?_, ?_, ?_, ?_⟩
  · rw [hu, hpl]; exact h.idx
  · intro v hv hcond
    rw [hw, hci] at hcond
    have := h.band v hv hcond
    unfold band_ok at this ⊢
    rw [hc, hn]
    exact this
  · rw [hw, hc]; exact h.lp
  · rw [hp, hu, hc, contributors_congr ht hci]
    exact h.pop
  · rw [hp, hpl, hc, hci]
    exact h.plot

theorem DataInv_compute {cfg : Config} {s : State} {w : Nat} (h : DataInv cfg s)
    (hw : w < num_comp_threads cfg) :
    DataInv cfg (after_compute cfg s w) := by
  obtain ⟨c1, c2⟩ := compute_band_spec cfg.ny s.currWorld s.nextWorld
    (start_row cfg.n (num_comp_threads cfg) w) (end_row cfg.n (num_comp_threads cfg) w)
  have ht : ∀ v, ((after_compute cfg s w).workers v).t = (s.workers v).t := by
    intro v
    by_cases hv : v = w
    · simp [after_compute, set_worker, hv]
    · simp [after_compute, set_worker, hv]
  have hci : (after_compute cfg s w).current_iteration = s.current_iteration := rfl
  have hother : ∀ v, v ≠ w → (after_compute cfg s w).workers v = s.workers v := by
    intro v hv
    simp [after_compute, set_worker, hv]
  refine ⟨h.idx, ?_, ?_, ?_, h.plot⟩
  · intro v hv hcond i j hi1 hi2 hj1 hj2
    show (compute_band cfg.ny s.currWorld s.nextWorld
      (start_row cfg.n (num_comp_threads cfg) w) (end_row cfg.n (num_comp_threads cfg) w)).1 i j =
        next_cell s.currWorld i j
    rw [c1]
    by_cases hvw : v = w
    · subst hvw
      rw [if_pos ⟨hi1, hi2, hj1, hj2⟩]
    · rw [if_neg]
      · apply h.band v hv _ i j hi1 hi2 hj1 hj2
        rw [ht, hci, hother v hvw] at hcond
        exact hcond
      · intro hin
        exact hvw (bands_disjoint cfg.n (num_comp_threads cfg) ⟨hi1, hi2⟩ ⟨hin.1, hin.2.1⟩)
  · intro v hv hcond
    by_cases hvw : v = w
    · subst hvw
      have : ((after_compute cfg s v).workers v).local_pop =
          (compute_band cfg.ny s.currWorld s.nextWorld
            (start_row cfg.n (num_comp_threads cfg) v)
            (end_row cfg.n (num_comp_threads cfg) v)).2 := by
        simp [after_compute, set_worker]
      rw [this, c2]
      rfl
    · rw [hother v hvw] at hcond ⊢
      exact h.lp v hv hcond
  · have := h.pop
    rw [← contributors_congr ht hci] at this
    exact this

theorem DataInv_commit {cfg : Config} {s : State} {w : Nat} (h : DataInv cfg s)
    (hI : Inv cfg s) (hw : w < num_comp_threads cfg)
    (hpc : (s.workers w).pc = WorkerPc.commit) :
    DataInv cfg (after_commit cfg s w) := by
  have htw : (s.workers w).t = s.current_iteration := hI.t_now w hw (Or.inr (Or.inr hpc))
  have hne : s.w_update ≠ s.w_plot := by
    rcases h.idx with ⟨h1, h2⟩ | ⟨h1, h2⟩ <;> omega
  by_cases hl : s.computation_complete + 1 = num_comp_threads cfg
  · have hfull := contributors_full hw htw (by rw [← hI.count]; exact hl)
    have hall : ∀ v, v < num_comp_threads cfg → band_ok cfg s v := by
      intro v hv
      apply h.band v hv
      by_cases hvw : v = w
      · right; rw [hvw]; exact hpc
      · left
        have : v ∈ contributors cfg s := by
          rw [hfull, Finset.mem_erase, Finset.mem_range]
          exact ⟨hvw, hv⟩
        exact (mem_contributors.1 this).2
    have hcells : ∀ i j, 1 ≤ i → i < cfg.nx - 1 → 1 ≤ j → j < cfg.ny - 1 →
        s.nextWorld i j = next_cell s.currWorld i j := by
      intro i j hi1 hi2 hj1 hj2
      obtain ⟨v, hv, hs, he⟩ := row_covered cfg.n (num_comp_threads cfg)
        (one_le_num_comp_threads cfg) i hi1 (by unfold Config.nx at hi2; omega)
      exact hall v hv i j hs he hj1 hj2
    have hothers : ∀ v, v < num_comp_threads cfg → v ≠ w →
        (s.workers v).t = s.current_iteration + 1 := by
      intro v hv hvw
      have : v ∈ contributors cfg s := by
        rw [hfull, Finset.mem_erase, Finset.mem_range]
        exact ⟨hvw, hv⟩
      exact (mem_contributors.1 this).2
    rw [after_commit_last hl]
    refine ⟨?_, ?_, ?_, ?_, ?_⟩
    · rcases h.idx with ⟨h1, h2⟩ | ⟨h1, h2⟩
      · right; exact ⟨h2, h1⟩
      · left; exact ⟨h2, h1⟩
    · intro v hv hcond
      exfalso
      by_cases hvw : v = w
      · simp [hvw] at hcond
      · simp only [hvw, if_false] at hcond
        have h1 := hothers v hv hvw
        rcases hcond with h2 | h2
        · omega
        · have := hI.t_now v hv (Or.inr (Or.inr h2))
          omega
    · intro v hv hcond
      exfalso
      by_cases hvw : v = w
      · simp [hvw] at hcond
      · simp only [hvw, if_false] at hcond
        have h1 := hothers v hv hvw
        have := hI.t_now v hv (Or.inr (Or.inr hcond))
        omega
    · have hemp : contributors cfg
          { s with
            currWorld := s.nextWorld
            nextWorld := s.currWorld
            w_update := s.w_plot
            w_plot := s.w_update
            population := fun k => if k = s.w_plot then 0 else
              (if k = s.w_update then s.population k + (s.workers w).local_pop
               else s.population k)
            computation_complete := 0
            current_iteration := (s.workers w).t + 1
            ready_to_compute := if s.has_plotting_thread then false else true
            swaps := s.swaps + 1
            workers := fun k => if k = w then
              { s.workers w with pc := WorkerPc.check, t := (s.workers w).t + 1 }
              else s.workers k } = ∅ := by
        rw [Finset.eq_empty_iff_forall_not_mem]
        intro v hv
        rw [mem_contributors] at hv
        obtain ⟨hv1, hv2⟩ := hv
        by_cases hvw : v = w
        · simp [hvw] at hv2
        · simp only [hvw, if_false] at hv2
          have := hothers v hv1 hvw
          omega
      rw [hemp]
      simp
    · intro _
      show (if s.w_update = s.w_plot then 0 else
          (if s.w_update = s.w_update then s.population s.w_update + (s.workers w).local_pop
           else s.population s.w_update)) = live_count cfg.nx cfg.ny s.nextWorld
      rw [if_neg hne, if_pos rfl, h.pop, h.lp w hw hpc, hfull,
        Finset.sum_erase_add _ _ (Finset.mem_range.2 hw), sum_all_bands,
        live_count_eq_band_sum cfg s.currWorld s.nextWorld hcells]
  · rw [after_commit_not_last hl]
    have hnot : w ∉ contributors cfg s := by
      rw [mem_contributors]
      omega
    refine ⟨h.idx, ?_, ?_, ?_, ?_⟩
    · intro v hv hcond
      apply h.band v hv
      by_cases hvw : v = w
      · right; rw [hvw]; exact hpc
      · simp only [hvw, if_false] at hcond
        exact hcond
    · intro v hv hcond
      by_cases hvw : v = w
      · simp [hvw] at hcond
      · simp only [hvw, if_false] at hcond ⊢
        exact h.lp v hv hcond
    · have hins : contributors cfg
          { s with
            population := fun k =>
              if k = s.w_update then s.population k + (s.workers w).local_pop else s.population k
            computation_complete := s.computation_complete + 1
            workers := fun k => if k = w then
              { s.workers w with pc := WorkerPc.check, t := (s.workers w).t + 1 }
              else s.workers k } = insert w (contributors cfg s) := by
        ext v
        rw [Finset.mem_insert, mem_contributors, mem_contributors]
        by_cases hvw : v = w
        · simp [hvw, htw, hw]
        · simp [hvw]
      rw [hins, Finset.sum_insert hnot]
      show (if s.w_update = s.w_update then s.population s.w_update + (s.workers w).local_pop
          else s.population s.w_update) = _
      rw [if_pos rfl, h.pop, h.lp w hw hpc]
      ring
    · intro hc
      show (if s.w_plot = s.w_update then s.population s.w_plot + (s.workers w).local_pop
          else s.population s.w_plot) = _
      rw [if_neg (Ne.symm hne)]
      exact h.plot hc

theorem DataInv_step {cfg : Config} {s s1 : State} (a : Actor) (h : DataInv cfg s)
    (hI : Inv cfg s) (hs : step cfg s a = some s1) : DataInv cfg s1 := by
  cases a with
  | worker w =>
    obtain ⟨hw, hc⟩ := worker_step_cases hs
    rcases hc with ⟨hpc, _, rfl⟩ | ⟨hpc, _, rfl⟩ | ⟨hpc, _, hcur, rfl⟩ | ⟨hpc, rfl⟩ | ⟨hpc, rfl⟩
    · exact DataInv_local h rfl rfl (by simp) rfl rfl rfl rfl rfl rfl
    · exact DataInv_local h rfl rfl (by simp) rfl rfl rfl rfl rfl rfl
    · exact DataInv_local h rfl rfl (by simp) rfl rfl rfl rfl rfl rfl
    · exact DataInv_compute h hw
    · exact DataInv_commit h hI hw hpc
  | plotter =>
    exact DataInv_frame h (plotter_step_frame hs).1
  | driver =>
    rcases driver_step_cases hs with ⟨i, hpc, _, rfl⟩ | ⟨hf, _⟩
    · have hi := hI.spawn i hpc i (Nat.le_refl i)
      have ht := hI.unborn_zero i hi
      exact DataInv_local h rfl ht.symm (by simp) rfl rfl rfl rfl rfl rfl
    · exact DataInv_frame h hf

theorem DataInv_reachable {cfg : Config} {c n : World} {p : Int} {s : State}
    (hr : Reachable cfg (init_state c n p) s) : DataInv cfg s := by
  induction hr with
  | init => exact DataInv_init cfg c n p
  | step a hr1 hs ih => exact DataInv_step a ih (Inv_reachable hr1) hs

/-! ## Buffer contents: population, border and generations -/

/-- When the last thread of a round is about to commit, every interior cell of
`nextWorld` holds the new cell computed from `currWorld`. -/
theorem next_complete_at_last {cfg : Config} {s : State} {w : Nat} (h : DataInv cfg s)
    (hI : Inv cfg s) (hw : w < num_comp_threads cfg)
    (hpc : (s.workers w).pc = WorkerPc.commit)
    (hl : s.computation_complete + 1 = num_comp_threads cfg) :
    ∀ i j, 1 ≤ i → i < cfg.nx - 1 → 1 ≤ j → j < cfg.ny - 1 →
      s.nextWorld i j = next_cell s.currWorld i j := by
  have htw : (s.workers w).t = s.current_iteration := hI.t_now w hw (Or.inr (Or.inr hpc))
  have hfull := contributors_full hw htw (by rw [← hI.count]; exact hl)
  intro i j hi1 hi2 hj1 hj2
  obtain ⟨v, hv, hs, he⟩ := row_covered cfg.n (num_comp_threads cfg)
    (one_le_num_comp_threads cfg) i hi1 (by unfold Config.nx at hi2; omega)
  refine h.band v hv ?_ i j hs he hj1 hj2
  by_cases hvw : v = w
  · right; rw [hvw]; exact hpc
  · left
    have : v ∈ contributors cfg s := by
      rw [hfull, Finset.mem_erase, Finset.mem_range]
      exact ⟨hvw, hv⟩
    exact (mem_contributors.1 this).2

theorem neighbours_congr {nx ny : Nat} {g h : World}
    (hgh : ∀ a b, a < nx → b < ny → g a b = h a b) {i j : Nat}
    (hi2 : i < nx - 1) (hj2 : j < ny - 1) :
    neighbours g i j = neighbours h i j := by
  unfold neighbours
  rw [hgh (i + 1) j (by omega) (by omega), hgh (i - 1) j (by omega) (by omega),
    hgh i (j + 1) (by omega) (by omega), hgh i (j - 1) (by omega) (by omega),
    hgh (i + 1) (j + 1) (by omega) (by omega), hgh (i - 1) (j - 1) (by omega) (by omega),
    hgh (i - 1) (j + 1) (by omega) (by omega), hgh (i + 1) (j - 1) (by omega) (by omega)]

theorem next_cell_congr {nx ny : Nat} {g h : World}
    (hgh : ∀ a b, a < nx → b < ny → g a b = h a b) {i j : Nat}
    (hi2 : i < nx - 1) (hj2 : j < ny - 1) :
    next_cell g i j = next_cell h i j := by
  unfold next_cell
  rw [neighbours_congr hgh hi2 hj2, hgh i j (by omega) (by omega)]

theorem GridInv_init (cfg : Config) (c n : World) (p : Int)
    (hc : border_zero cfg.nx cfg.ny c) (hn : border_zero cfg.nx cfg.ny n) :
    GridInv cfg c (init_state c n p) :=
  ⟨hc, hn, fun _ _ _ _ => rfl⟩

theorem GridInv_same {cfg : Config} {curr0 : World} {s s1 : State} (h : GridInv cfg curr0 s)
    (hc : s1.currWorld = s.currWorld) (hn : s1.nextWorld = s.nextWorld)
    (hci : s1.current_iteration = s.current_iteration) : GridInv cfg curr0 s1 := by
  refine ⟨?_, ?_, ?_⟩
  · rw [hc]; exact h.border_curr
  · rw [hn]; exact h.border_next
  · rw [hc, hci]; exact h.hist

theorem GridInv_compute {cfg : Config} {curr0 : World} {s : State} {w : Nat}
    (h : GridInv cfg curr0 s) (hw : w < num_comp_threads cfg) :
    GridInv cfg curr0 (after_compute cfg s w) := by
  obtain ⟨c1, _⟩ := compute_band_spec cfg.ny s.currWorld s.nextWorld
    (start_row cfg.n (num_comp_threads cfg) w) (end_row cfg.n (num_comp_threads cfg) w)
  refine ⟨h.border_curr, ?_, h.hist⟩
  intro i j hi hj hb
  show (compute_band cfg.ny s.currWorld s.nextWorld
    (start_row cfg.n (num_comp_threads cfg) w) (end_row cfg.n (num_comp_threads cfg) w)).1 i j = 0
  rw [c1, if_neg]
  · exact h.border_next i j hi hj hb
  · intro hin
    have h1 := one_le_start_row cfg.n (num_comp_threads cfg) w
    have h2 := end_row_le cfg.n (num_comp_threads cfg) w (one_le_num_comp_threads cfg) hw
    have h3 : cfg.nx = cfg.n + 2 := rfl
    omega

theorem GridInv_commit {cfg : Config} {curr0 : World} {s : State} {w : Nat}
    (h : GridInv cfg curr0 s) (hD : DataInv cfg s) (hI : Inv cfg s)
    (hw : w < num_comp_threads cfg) (hpc : (s.workers w).pc = WorkerPc.commit) :
    GridInv cfg curr0 (after_commit cfg s w) := by
  have htw : (s.workers w).t = s.current_iteration := hI.t_now w hw (Or.inr (Or.inr hpc))
  by_cases hl : s.computation_complete + 1 = num_comp_threads cfg
  · have hcells := next_complete_at_last hD hI hw hpc hl
    rw [after_commit_last hl]
    refine ⟨h.border_next, h.border_curr, ?_⟩
    intro i j hi hj
    show s.nextWorld i j = ((life_step cfg.nx cfg.ny)^[(s.workers w).t + 1] curr0) i j
    rw [htw, Function.iterate_succ_apply']
    by_cases hint : 1 ≤ i ∧ i < cfg.nx - 1 ∧ 1 ≤ j ∧ j < cfg.ny - 1
    · rw [hcells i j hint.1 hint.2.1 hint.2.2.1 hint.2.2.2]
      simp only [life_step, if_pos hint]
      exact next_cell_congr h.hist hint.2.1 hint.2.2.2
    · simp only [life_step, if_neg hint]
      apply h.border_next i j hi hj
      omega
  · rw [after_commit_not_last hl]
    exact ⟨h.border_curr, h.border_next, h.hist⟩

theorem GridInv_step {cfg : Config} {curr0 : World} {s s1 : State} (a : Actor)
    (h : GridInv cfg curr0 s) (hD : DataInv cfg s) (hI : Inv cfg s)
    (hs : step cfg s a = some s1) : GridInv cfg curr0 s1 := by
  cases a with
  | worker w =>
    obtain ⟨hw, hc⟩ := worker_step_cases hs
    rcases hc with ⟨_, _, rfl⟩ | ⟨_, _, rfl⟩ | ⟨_, _, _, rfl⟩ | ⟨_, rfl⟩ | ⟨hpc, rfl⟩
    · exact GridInv_same h rfl rfl rfl
    · exact GridInv_same h rfl rfl rfl
    · exact GridInv_same h rfl rfl rfl
    · exact GridInv_compute h hw
    · exact GridInv_commit h hD hI hw hpc
  | plotter =>
    obtain ⟨hc, hn, _, _, _, _, hci, _, _⟩ := (plotter_step_frame hs).1
    exact GridInv_same h hc hn hci
  | driver =>
    rcases driver_step_cases hs with ⟨i, _, _, rfl⟩ | ⟨hf, _⟩
    · exact GridInv_same h rfl rfl rfl
    · obtain ⟨hc, hn, _, _, _, _, hci, _, _⟩ := hf
      exact GridInv_same h hc hn hci

theorem GridInv_reachable {cfg : Config} {c n : World} {p : Int} {s : State}
    (hc : border_zero cfg.nx cfg.ny c) (hn : border_zero cfg.nx cfg.ny n)
    (hr : Reachable cfg (init_state c n p) s) : GridInv cfg c s := by
  induction hr with
  | init => exact GridInv_init cfg c n p hc hn
  | step a hr1 hs ih => exact GridInv_step a ih (DataInv_reachable hr1) (Inv_reachable hr1) hs

/-- C3. In every reachable state in which no thread has committed in the current
round, `population[w_update]` is 0 (the situation at the start of a round); every step that
commits a round (swaps the buffers and `w_plot`/`w_update`) leaves `population[w_plot]`
equal to the number of live cells of the interior of the new current buffer;
the equality persists in every reachable state with `current_iteration ≥ 1`. -/
theorem C3_population_after_commit (cfg : Config) (curr0 next0 : World) (pop0 : Int)
    (s : State) (hr : Reachable cfg (init_state curr0 next0 pop0) s) :
    (s.computation_complete = 0 → s.population s.w_update = 0) ∧
    (∀ a s1, step cfg s a = some s1 → s1.swaps = s.swaps + 1 →
        s1.population s1.w_plot = live_count cfg.nx cfg.ny s1.currWorld) ∧
    (1 ≤ s.current_iteration →
        s.population s.w_plot = live_count cfg.nx cfg.ny s.currWorld) := by
  have hD := DataInv_reachable hr
  have hI := Inv_reachable hr
  refine ⟨?_, ?_, hD.plot⟩
  · intro h0
    have : contributors cfg s = ∅ := by
      rw [← Finset.card_eq_zero, ← hI.count]
      exact h0
    rw [hD.pop, this]
    simp
  · intro a s1 hs hsw
    have hr1 : Reachable cfg (init_state curr0 next0 pop0) s1 := Reachable.step a hr hs
    have hI1 := Inv_reachable hr1
    apply (DataInv_reachable hr1).plot
    have h1 := hI.swaps_eq
    have h2 := hI1.swaps_eq
    omega

/-- Witness for C3: after one round of the single computation thread on the
full 2x2 interior the reported population is the live count of the new buffer. -/
theorem C3_population_after_commit_witness :
    Reachable cfg_one (init_state full2 dead_world 4)
      (run_from cfg_one (init_state full2 dead_world 4)
        [Actor.driver, Actor.worker 0, Actor.worker 0, Actor.worker 0, Actor.worker 0]) ∧
    1 ≤ (run_from cfg_one (init_state full2 dead_world 4)
        [Actor.driver, Actor.worker 0, Actor.worker 0, Actor.worker 0,
         Actor.worker 0]).current_iteration ∧
    (run_from cfg_one (init_state full2 dead_world 4)
        [Actor.driver, Actor.worker 0, Actor.worker 0, Actor.worker 0,
         Actor.worker 0]).population
      (run_from cfg_one (init_state full2 dead_world 4)
        [Actor.driver, Actor.worker 0, Actor.worker 0, Actor.worker 0,
         Actor.worker 0]).w_plot =
      live_count cfg_one.nx cfg_one.ny
        (run_from cfg_one (init_state full2 dead_world 4)
          [Actor.driver, Actor.worker 0, Actor.worker 0, Actor.worker 0,
           Actor.worker 0]).currWorld :=
  ⟨reachable_run_from _ _ _, by decide,
   (C3_population_after_commit cfg_one full2 dead_world 4 _ (reachable_run_from _ _ _)).2.2
     (by decide)⟩

/-- C4. If the border cells of both buffers are 0 when the threads are started,
then in every reachable state (in particular after every swap of every round,
for any interior contents and any number of threads) the border cells of both
buffers are 0. -/
theorem C4_border_stays_zero (cfg : Config) (curr0 next0 : World) (pop0 : Int) (s : State)
    (hc : border_zero cfg.nx cfg.ny curr0) (hn : border_zero cfg.nx cfg.ny next0)
    (hr : Reachable cfg (init_state curr0 next0 pop0) s) :
    border_zero cfg.nx cfg.ny s.currWorld ∧ border_zero cfg.nx cfg.ny s.nextWorld :=
  ⟨(GridInv_reachable hc hn hr).border_curr, (GridInv_reachable hc hn hr).border_next⟩

theorem full2_border : border_zero cfg_one.nx cfg_one.ny full2 := by
  intro i j hi hj hb
  have h1 : cfg_one.nx = 4 := rfl
  have h2 : cfg_one.ny = 4 := rfl
  unfold full2
  rw [if_neg]
  omega

theorem dead_world_border (nx ny : Nat) : border_zero nx ny dead_world :=
  fun _ _ _ _ _ => rfl

/-- Witness for C4: one round of the single computation thread on the full 2x2 interior. -/
theorem C4_border_stays_zero_witness :
    border_zero cfg_one.nx cfg_one.ny full2 ∧
    border_zero cfg_one.nx cfg_one.ny dead_world ∧
    Reachable cfg_one (init_state full2 dead_world 4)
      (run_from cfg_one (init_state full2 dead_world 4)
        [Actor.driver, Actor.worker 0, Actor.worker 0, Actor.worker 0, Actor.worker 0]) ∧
    border_zero cfg_one.nx cfg_one.ny
      (run_from cfg_one (init_state full2 dead_world 4)
        [Actor.driver, Actor.worker 0, Actor.worker 0, Actor.worker 0,
         Actor.worker 0]).currWorld ∧
    border_zero cfg_one.nx cfg_one.ny
      (run_from cfg_one (init_state full2 dead_world 4)
        [Actor.driver, Actor.worker 0, Actor.worker 0, Actor.worker 0,
         Actor.worker 0]).nextWorld :=
  ⟨full2_border, dead_world_border _ _, reachable_run_from _ _ _,
   C4_border_stays_zero cfg_one full2 dead_world 4 _ full2_border (dead_world_border _ _)
     (reachable_run_from _ _ _)⟩

/-! ## World generation -/

theorem world_set_apply (g : World) (i j : Nat) (v : Int) (a b : Nat) :
    (g.set i j v) a b = if a = i ∧ b = j then v else g a b := rfl

theorem ite_or_same {α : Type} (A B : Prop) [Decidable A] [Decidable B] (x y : α) :
    (if A then x else if B then x else y) = if A ∨ B then x else y := by
  by_cases hA : A
  · simp [hA]
  · simp [hA]

theorem clear_rows_spec (ny : Nat) (g : World) (k a b : Nat) :
    (forLoop 0 k (fun i h => (h.set i 0 0).set i (ny - 1) 0) g) a b =
      if a < k ∧ (b = 0 ∨ b = ny - 1) then 0 else g a b := by
  induction k with
  | zero => rw [forLoop_empty _ _ (by omega)]; simp
  | succ k ih =>
    rw [forLoop_succ _ _ (by omega), world_set_apply, world_set_apply, ih, ite_or_same,
      ite_or_same]
    apply if_congr _ rfl rfl
    omega

theorem clear_cols_spec (nx : Nat) (g : World) (k a b : Nat) :
    (forLoop 0 k (fun i h => (h.set 0 i 0).set (nx - 1) i 0) g) a b =
      if b < k ∧ (a = 0 ∨ a = nx - 1) then 0 else g a b := by
  induction k with
  | zero => rw [forLoop_empty _ _ (by omega)]; simp
  | succ k ih =>
    rw [forLoop_succ _ _ (by omega), world_set_apply, world_set_apply, ih, ite_or_same,
      ite_or_same]
    apply if_congr _ rfl rfl
    omega

/-- Effect of lines 245-258 on one buffer. -/
theorem clear_border_spec (nx ny : Nat) (g : World) (a b : Nat) :
    clear_border nx ny g a b =
      if (b < ny ∧ (a = 0 ∨ a = nx - 1)) ∨ (a < nx ∧ (b = 0 ∨ b = ny - 1)) then 0
      else g a b := by
  unfold clear_border
  rw [clear_cols_spec, clear_rows_spec, ite_or_same]

theorem clear_border_zero (nx ny : Nat) (g : World) :
    border_zero nx ny (clear_border nx ny g) := by
  intro i j hi hj hb
  rw [clear_border_spec, if_pos]
  omega

/-! ## Patterns and generations -/

theorem next_cell_far (g : World) (i j : Nat)
    (h : ∀ a b, i ≤ a + 1 → a ≤ i + 1 → j ≤ b + 1 → b ≤ j + 1 → g a b = 0) :
    next_cell g i j = 0 := by
  unfold next_cell neighbours
  rw [h i j (by omega) (by omega) (by omega) (by omega),
    h (i + 1) j (by omega) (by omega) (by omega) (by omega),
    h (i - 1) j (by omega) (by omega) (by omega) (by omega),
    h i (j + 1) (by omega) (by omega) (by omega) (by omega),
    h i (j - 1) (by omega) (by omega) (by omega) (by omega),
    h (i + 1) (j + 1) (by omega) (by omega) (by omega) (by omega),
    h (i - 1) (j - 1) (by omega) (by omega) (by omega) (by omega),
    h (i - 1) (j + 1) (by omega) (by omega) (by omega) (by omega),
    h (i + 1) (j - 1) (by omega) (by omega) (by omega) (by omega)]
  simp

theorem shift_apply (p q : Nat) (g : World) (a b : Nat) (ha : p ≤ a) (hb : q ≤ b) :
    shift p q g a b = g (a - p) (b - q) := by
  unfold shift
  rw [if_pos ⟨ha, hb⟩]

/-- The rule commutes with moving the buffer, away from the moved origin. -/
theorem next_cell_shift (p q : Nat) (g : World) (i j : Nat) (hi : p + 1 ≤ i) (hj : q + 1 ≤ j) :
    next_cell (shift p q g) i j = next_cell g (i - p) (j - q) := by
  have e1 : i + 1 - p = i - p + 1 := by omega
  have e2 : i - 1 - p = i - p - 1 := by omega
  have e3 : j + 1 - q = j - q + 1 := by omega
  have e4 : j - 1 - q = j - q - 1 := by omega
  unfold next_cell neighbours
  rw [shift_apply p q g i j (by omega) (by omega),
    shift_apply p q g (i + 1) j (by omega) (by omega),
    shift_apply p q g (i - 1) j (by omega) (by omega),
    shift_apply p q g i (j + 1) (by omega) (by omega),
    shift_apply p q g i (j - 1) (by omega) (by omega),
    shift_apply p q g (i + 1) (j + 1) (by omega) (by omega),
    shift_apply p q g (i - 1) (j - 1) (by omega) (by omega),
    shift_apply p q g (i - 1) (j + 1) (by omega) (by omega),
    shift_apply p q g (i + 1) (j - 1) (by omega) (by omega), e1, e2, e3, e4]

theorem shift_cells_zero {m : Nat} {G : List (Nat × Nat)} (hG : within m G) (p q a b : Nat)
    (hab : a < p + 2 ∨ p + m < a ∨ b < q + 2 ∨ q + m < b) :
    shift p q (cells_of G) a b = 0 := by
  unfold shift
  split_ifs with h
  · unfold cells_of
    rw [if_neg]
    intro hmem
    have := hG (a - p, b - q) hmem
    simp only at this
    omega
  · rfl

/-- A generation step between two patterns given by position lists with
coordinates in `2..m`, checked cell by cell on the window and trivial outside. -/
theorem pattern_step {m : Nat} {G G1 : List (Nat × Nat)} (hG : within m G) (hG1 : within m G1)
    (hwin : ∀ a, a ≤ m + 1 → ∀ b, b ≤ m + 1 → next_cell (cells_of G) a b = cells_of G1 a b)
    (p q i j : Nat) :
    next_cell (shift p q (cells_of G)) i j = shift p q (cells_of G1) i j := by
  by_cases hin : p + 1 ≤ i ∧ i ≤ p + (m + 1) ∧ q + 1 ≤ j ∧ j ≤ q + (m + 1)
  · rw [next_cell_shift p q _ i j hin.1 hin.2.2.1, shift_apply p q _ i j (by omega) (by omega)]
    exact hwin (i - p) (by omega) (j - q) (by omega)
  · rw [shift_cells_zero hG1 p q i j (by omega)]
    apply next_cell_far
    intro a b h1 h2 h3 h4
    exact shift_cells_zero hG p q a b (by omega)

theorem life_step_congr {nx ny : Nat} {g h : World}
    (hgh : ∀ a b, a < nx → b < ny → g a b = h a b) :
    life_step nx ny g = life_step nx ny h := by
  funext i j
  unfold life_step
  split_ifs with hint
  · exact next_cell_congr hgh hint.2.1 hint.2.2.2
  · rfl

/-- One generation of a whole buffer carries a pattern lying inside the interior
to the next pattern. -/
theorem life_step_pattern {m : Nat} {G G1 : List (Nat × Nat)} (hG : within m G)
    (hG1 : within m G1)
    (hwin : ∀ a, a ≤ m + 1 → ∀ b, b ≤ m + 1 → next_cell (cells_of G) a b = cells_of G1 a b)
    (nx ny p q : Nat) (hp : p + m < nx - 1) (hq : q + m < ny - 1) :
    life_step nx ny (shift p q (cells_of G)) = shift p q (cells_of G1) := by
  funext i j
  unfold life_step
  split_ifs with hint
  · exact pattern_step hG hG1 hwin p q i j
  · rw [shift_cells_zero hG1 p q i j (by omega)]

theorem block_base_within : within 3 block_base := by
  intro x hx
  simp only [block_base, List.mem_cons, List.mem_singleton, List.mem_nil_iff, or_false] at hx
  rcases hx with rfl | rfl | rfl | rfl <;> simp

theorem block_base_step :
    ∀ a, a ≤ 3 + 1 → ∀ b, b ≤ 3 + 1 →
      next_cell (cells_of block_base) a b = cells_of block_base a b := by
  decide

/-- When the initial buffer agrees on the grid with a pattern fixed by one
generation, so does every later generation. -/
theorem iterate_fixed_on_grid {nx ny : Nat} {curr0 B : World}
    (h0 : ∀ a b, a < nx → b < ny → curr0 a b = B a b)
    (hB : life_step nx ny B = B) (k : Nat) :
    ∀ a b, a < nx → b < ny → ((life_step nx ny)^[k] curr0) a b = B a b := by
  induction k with
  | zero => exact h0
  | succ k ih =>
    intro a b ha hb
    rw [Function.iterate_succ_apply', life_step_congr ih, hB]

/-! ## Live counts of patterns -/

theorem live_count_congr {nx ny : Nat} {g h : World}
    (hgh : ∀ a b, a < nx → b < ny → g a b = h a b) :
    live_count nx ny g = live_count nx ny h := by
  unfold live_count
  apply Finset.sum_congr rfl
  intro i hi
  apply Finset.sum_congr rfl
  intro j hj
  rw [Finset.mem_Ico] at hi hj
  rw [hgh i j (by omega) (by omega)]

theorem sum_point (nx ny a b : Nat) (ha : 1 ≤ a ∧ a < nx - 1) (hb : 1 ≤ b ∧ b < ny - 1) :
    ∑ i in Finset.Ico 1 (nx - 1), ∑ j in Finset.Ico 1 (ny - 1),
      (if i = a ∧ j = b then (1 : Int) else 0) = 1 := by
  rw [Finset.sum_eq_single a]
  · rw [Finset.sum_eq_single b]
    · simp
    · intro j _ hj
      simp [hj]
    · intro hnot
      exact absurd (Finset.mem_Ico.2 hb) hnot
  · intro i _ hi
    apply Finset.sum_eq_zero
    intro j _
    simp [hi]
  · intro hnot
    exact absurd (Finset.mem_Ico.2 ha) hnot

/-- A pattern of distinct interior positions has as many live cells as positions. -/
theorem live_count_cells_of (nx ny : Nat) (G : List (Nat × Nat)) (hnd : G.Nodup)
    (hin : ∀ x ∈ G, (1 ≤ x.1 ∧ x.1 < nx - 1) ∧ (1 ≤ x.2 ∧ x.2 < ny - 1)) :
    live_count nx ny (cells_of G) = G.length := by
  induction G with
  | nil => simp [live_count, cells_of]
  | cons x G ih =>
    have hx : x ∉ G := (List.nodup_cons.1 hnd).1
    have ih1 := ih (List.nodup_cons.1 hnd).2 (fun y hy => hin y (List.mem_cons_of_mem _ hy))
    have hsplit : ∀ i j, (if cells_of (x :: G) i j ≠ 0 then (1 : Int) else 0) =
        (if i = x.1 ∧ j = x.2 then 1 else 0) + (if cells_of G i j ≠ 0 then 1 else 0) := by
      intro i j
      unfold cells_of
      by_cases h1 : (i, j) = x
      · have h2 : (i, j) ∉ G := by rw [h1]; exact hx
        have h3 : i = x.1 ∧ j = x.2 := by rw [← h1]; exact ⟨rfl, rfl⟩
        simp [h1, h3, hx]
      · have h3 : ¬ (i = x.1 ∧ j = x.2) := by
          intro h
          apply h1
          exact Prod.ext h.1 h.2
        by_cases h2 : (i, j) ∈ G
        · simp [h1, h2, h3]
        · simp [h1, h2, h3]
    unfold live_count at ih1 ⊢
    simp only [hsplit, Finset.sum_add_distrib]
    rw [ih1, sum_point nx ny x.1 x.2 (hin x (List.mem_cons_self _ _)).1
      (hin x (List.mem_cons_self _ _)).2]
    simp
    ring

/-- While no round has been committed, `population[w_plot]` is the initial population. -/
theorem plot_pop_initial {cfg : Config} {c n : World} {p : Int} {s : State}
    (hr : Reachable cfg (init_state c n p) s) :
    s.current_iteration = 0 → s.population s.w_plot = p := by
  induction hr with
  | init => intro _; rfl
  | step a hr1 hs ih =>
    rename_i s2 s3
    have hI := Inv_reachable hr1
    have hD := DataInv_reachable hr1
    cases a with
    | worker w =>
      obtain ⟨hw, hc⟩ := worker_step_cases hs
      rcases hc with ⟨_, _, rfl⟩ | ⟨_, _, rfl⟩ | ⟨_, _, _, rfl⟩ | ⟨_, rfl⟩ | ⟨hpc, rfl⟩
      · exact ih
      · exact ih
      · exact ih
      · exact ih
      · by_cases hl : s2.computation_complete + 1 = num_comp_threads cfg
        · rw [after_commit_last hl]
          intro h0
          simp at h0
        · rw [after_commit_not_last hl]
          intro h0
          have hne : s2.w_update ≠ s2.w_plot := by
            rcases hD.idx with ⟨h1, h2⟩ | ⟨h1, h2⟩ <;> omega
          show (if s2.w_plot = s2.w_update then _ else s2.population s2.w_plot) = p
          rw [if_neg (Ne.symm hne)]
          exact ih h0
    | plotter =>
      obtain ⟨_, _, hp, _, hpl, _, hci, _, _⟩ := (plotter_step_frame hs).1
      rw [hp, hpl, hci]
      exact ih
    | driver =>
      rcases driver_step_cases hs with ⟨i, _, _, rfl⟩ | ⟨hf, _⟩
      · exact ih
      · obtain ⟨_, _, hp, _, hpl, _, hci, _, _⟩ := hf
        rw [hp, hpl, hci]
        exact ih

/-! ## Still life -/

/-- Moving a pattern moves its positions. -/
theorem shift_cells_of_map (p q : Nat) (G : List (Nat × Nat)) :
    shift p q (cells_of G) = cells_of (G.map (fun x => (x.1 + p, x.2 + q))) := by
  funext i j
  unfold shift cells_of
  by_cases h : p ≤ i ∧ q ≤ j
  · rw [if_pos h]
    have hiff : (i - p, j - q) ∈ G ↔ (i, j) ∈ G.map (fun x => (x.1 + p, x.2 + q)) := by
      rw [List.mem_map]
      constructor
      · intro hmem
        refine ⟨(i - p, j - q), hmem, ?_⟩
        simp only [Prod.mk.injEq]
        omega
      · rintro ⟨x, hx, hxe⟩
        simp only [Prod.mk.injEq] at hxe
        have : (i - p, j - q) = x := by
          apply Prod.ext
          · simp only; omega
          · simp only; omega
        rw [this]
        exact hx
    simp only [hiff]
  · rw [if_neg h, if_neg]
    rw [List.mem_map]
    rintro ⟨x, _, hxe⟩
    simp only [Prod.mk.injEq] at hxe
    omega

/-- A moved pattern of distinct positions inside the interior has as many live
cells as positions. -/
theorem live_count_shift {m : Nat} {G : List (Nat × Nat)} (hG : within m G) (hnd : G.Nodup)
    (nx ny p q : Nat) (hp : p + m < nx - 1) (hq : q + m < ny - 1) :
    live_count nx ny (shift p q (cells_of G)) = G.length := by
  rw [shift_cells_of_map, live_count_cells_of, List.length_map]
  · apply List.Nodup.map _ hnd
    intro x y hxy
    simp only [Prod.mk.injEq] at hxy
    apply Prod.ext <;> omega
  · intro x hx
    rw [List.mem_map] at hx
    obtain ⟨y, hy, rfl⟩ := hx
    have := hG y hy
    simp only
    omega

theorem clear_border_on_grid (nx ny : Nat) (m0 : World)
    (hm : ∀ a b, 1 ≤ a → a < nx - 1 → 1 ≤ b → b < ny - 1 → m0 a b = 0) (a b : Nat)
    (ha : a < nx) (hb : b < ny) : clear_border nx ny m0 a b = 0 := by
  rw [clear_border_spec]
  split_ifs with h
  · rfl
  · exact hm a b (by omega) (by omega) (by omega) (by omega)

theorem block_world_apply (nx ny : Nat) (g : World) (a b : Nat) :
    block_world nx ny g a b =
      if (a = nx / 2 + 1 ∧ b = ny / 2 + 1) ∨ (a = nx / 2 ∧ b = ny / 2 + 1) ∨
         (a = nx / 2 + 1 ∧ b = ny / 2) ∨ (a = nx / 2 ∧ b = ny / 2) then 1 else g a b := by
  unfold block_world
  simp only [world_set_apply, ite_or_same]

theorem shift_block_explicit (p q i j : Nat) :
    shift p q (cells_of block_base) i j =
      if (i = 3 + p ∧ j = 3 + q) ∨ (i = 2 + p ∧ j = 3 + q) ∨
         (i = 3 + p ∧ j = 2 + q) ∨ (i = 2 + p ∧ j = 2 + q) then 1 else 0 := by
  rw [shift_cells_of_map]
  simp only [cells_of, block_base, List.map, List.mem_cons, Prod.mk.injEq, List.mem_singleton,
    List.mem_nil_iff, or_false]

/-- The buffer produced by pattern selector 1 on an allocation whose interior is 0. -/
theorem block_world_on_grid (nx ny : Nat) (hnx : 5 ≤ nx) (hny : 5 ≤ ny) (m0 : World)
    (hm : ∀ a b, 1 ≤ a → a < nx - 1 → 1 ≤ b → b < ny - 1 → m0 a b = 0) (a b : Nat)
    (ha : a < nx) (hb : b < ny) :
    block_world nx ny (clear_border nx ny m0) a b =
      shift (nx / 2 - 2) (ny / 2 - 2) (cells_of block_base) a b := by
  have e1 : 3 + (nx / 2 - 2) = nx / 2 + 1 := by omega
  have e2 : 2 + (nx / 2 - 2) = nx / 2 := by omega
  have e3 : 3 + (ny / 2 - 2) = ny / 2 + 1 := by omega
  have e4 : 2 + (ny / 2 - 2) = ny / 2 := by omega
  rw [shift_block_explicit, block_world_apply, clear_border_on_grid nx ny m0 hm a b ha hb,
    e1, e2, e3, e4]

/-- Still life on a zero-filled allocation. For every interior side length `n ≥ 3`, every thread count,
iteration bound and display setting, when the threads are started on the 2x2
block of pattern selector 1 (placed by `main` on an allocation whose interior
is 0), every reachable state (after any number of rounds) has a current buffer
whose live cells are exactly the four cells at rows `nx/2`, `nx/2+1` and columns
`ny/2`, `ny/2+1`, and `population[w_plot]` is 4. -/
theorem block_still_life_clean (cfg : Config) (hn : 3 ≤ cfg.n) (rand : Nat → Nat → Bool)
    (m0 m1 : World)
    (hm : ∀ a b, 1 ≤ a → a < cfg.nx - 1 → 1 ≤ b → b < cfg.ny - 1 → m0 a b = 0)
    (s0 s : State) (h0 : main_init cfg 1 rand m0 m1 = some s0) (hr : Reachable cfg s0 s) :
    (∀ i j, i < cfg.nx → j < cfg.ny →
      s.currWorld i j =
        if (i = cfg.nx / 2 ∨ i = cfg.nx / 2 + 1) ∧ (j = cfg.ny / 2 ∨ j = cfg.ny / 2 + 1)
        then 1 else 0) ∧
    s.population s.w_plot = 4 := by
  have hnx : cfg.nx = cfg.n + 2 := rfl
  have hny : cfg.ny = cfg.n + 2 := rfl
  have hs0 : s0 = init_state (block_world cfg.nx cfg.ny (clear_border cfg.nx cfg.ny m0))
      (clear_border cfg.nx cfg.ny m1) 4 := by
    simpa [main_init] using h0.symm
  subst hs0
  have hgrid := block_world_on_grid cfg.nx cfg.ny (by omega) (by omega) m0 hm
  have hfix : life_step cfg.nx cfg.ny
      (shift (cfg.nx / 2 - 2) (cfg.ny / 2 - 2) (cells_of block_base)) =
      shift (cfg.nx / 2 - 2) (cfg.ny / 2 - 2) (cells_of block_base) :=
    life_step_pattern block_base_within block_base_within block_base_step cfg.nx cfg.ny _ _
      (by omega) (by omega)
  have hbc : border_zero cfg.nx cfg.ny (block_world cfg.nx cfg.ny (clear_border cfg.nx cfg.ny m0)) := by
    intro i j hi hj hb
    rw [hgrid i j hi hj]
    exact shift_cells_zero block_base_within _ _ i j (by omega)
  have hG := GridInv_reachable hbc (clear_border_zero cfg.nx cfg.ny m1) hr
  have hcur : ∀ i j, i < cfg.nx → j < cfg.ny → s.currWorld i j =
      shift (cfg.nx / 2 - 2) (cfg.ny / 2 - 2) (cells_of block_base) i j := by
    intro i j hi hj
    rw [hG.hist i j hi hj]
    exact iterate_fixed_on_grid hgrid hfix _ i j hi hj
  constructor
  · intro i j hi hj
    have e1 : 3 + (cfg.nx / 2 - 2) = cfg.nx / 2 + 1 := by omega
    have e2 : 2 + (cfg.nx / 2 - 2) = cfg.nx / 2 := by omega
    have e3 : 3 + (cfg.ny / 2 - 2) = cfg.ny / 2 + 1 := by omega
    have e4 : 2 + (cfg.ny / 2 - 2) = cfg.ny / 2 := by omega
    rw [hcur i j hi hj, shift_block_explicit, e1, e2, e3, e4]
    apply if_congr _ rfl rfl
    tauto
  · rcases Nat.eq_zero_or_pos s.current_iteration with hz | hpos
    · exact plot_pop_initial hr hz
    · rw [(DataInv_reachable hr).plot hpos, live_count_congr hcur,
        live_count_shift block_base_within (by decide) cfg.nx cfg.ny _ _ (by omega) (by omega)]
      rfl

/-- Example for the still life: two computation threads complete one round on the block. -/
theorem block_still_life_clean_example :
    3 ≤ cfg_two.n ∧
    main_init cfg_two 1 (fun _ _ => false) dead_world dead_world = some block_start ∧
    Reachable cfg_two block_start
      (run_from cfg_two block_start
        [Actor.driver, Actor.driver, Actor.worker 0, Actor.worker 0, Actor.worker 0,
         Actor.worker 0, Actor.worker 1, Actor.worker 1, Actor.worker 1, Actor.worker 1]) ∧
    ((∀ i j, i < cfg_two.nx → j < cfg_two.ny →
      (run_from cfg_two block_start
        [Actor.driver, Actor.driver, Actor.worker 0, Actor.worker 0, Actor.worker 0,
         Actor.worker 0, Actor.worker 1, Actor.worker 1, Actor.worker 1,
         Actor.worker 1]).currWorld i j =
        if (i = cfg_two.nx / 2 ∨ i = cfg_two.nx / 2 + 1) ∧
           (j = cfg_two.ny / 2 ∨ j = cfg_two.ny / 2 + 1)
        then 1 else 0) ∧
    (run_from cfg_two block_start
        [Actor.driver, Actor.driver, Actor.worker 0, Actor.worker 0, Actor.worker 0,
         Actor.worker 0, Actor.worker 1, Actor.worker 1, Actor.worker 1,
         Actor.worker 1]).population
      (run_from cfg_two block_start
        [Actor.driver, Actor.driver, Actor.worker 0, Actor.worker 0, Actor.worker 0,
         Actor.worker 0, Actor.worker 1, Actor.worker 1, Actor.worker 1,
         Actor.worker 1]).w_plot = 4) :=
  ⟨by decide, rfl, reachable_run_from _ _ _,
   block_still_life_clean cfg_two (by decide) (fun _ _ => false) dead_world dead_world
     (fun _ _ _ _ _ _ => rfl) block_start _ rfl (reachable_run_from _ _ _)⟩

/-! ## Glider -/

theorem glider_base_within (k : Nat) : within 5 (glider_base k) := by
  intro x hx
  match k with
  | 0 | 1 | 2 | 3 =>
    simp only [glider_base, List.mem_cons, List.mem_singleton, List.mem_nil_iff, or_false] at hx
    rcases hx with rfl | rfl | rfl | rfl | rfl <;> simp
  | k + 4 =>
    simp only [glider_base, List.mem_cons, List.mem_singleton, List.mem_nil_iff, or_false] at hx
    rcases hx with rfl | rfl | rfl | rfl | rfl <;> simp

theorem glider_base_step0 : ∀ a, a ≤ 5 + 1 → ∀ b, b ≤ 5 + 1 →
    next_cell (cells_of (glider_base 0)) a b = cells_of (glider_base 1) a b := by
  decide

theorem glider_base_step1 : ∀ a, a ≤ 5 + 1 → ∀ b, b ≤ 5 + 1 →
    next_cell (cells_of (glider_base 1)) a b = cells_of (glider_base 2) a b := by
  decide

theorem glider_base_step2 : ∀ a, a ≤ 5 + 1 → ∀ b, b ≤ 5 + 1 →
    next_cell (cells_of (glider_base 2)) a b = cells_of (glider_base 3) a b := by
  decide

theorem glider_base_step3 : ∀ a, a ≤ 5 + 1 → ∀ b, b ≤ 5 + 1 →
    next_cell (cells_of (glider_base 3)) a b = cells_of (glider_base 4) a b := by
  decide

theorem glider_base_step (k : Nat) (hk : k < 4) : ∀ a, a ≤ 5 + 1 → ∀ b, b ≤ 5 + 1 →
    next_cell (cells_of (glider_base k)) a b = cells_of (glider_base (k + 1)) a b := by
  interval_cases k
  · exact glider_base_step0
  · exact glider_base_step1
  · exact glider_base_step2
  · exact glider_base_step3

theorem glider_base_nodup (k : Nat) : (glider_base k).Nodup := by
  match k with
  | 0 => decide
  | 1 => decide
  | 2 => decide
  | 3 => decide
  | k + 4 => simp only [glider_base]; decide

theorem glider_base_length (k : Nat) : (glider_base k).length = 5 := by
  match k with
  | 0 | 1 | 2 | 3 => rfl
  | k + 4 => rfl

theorem glider_world_apply (nx ny : Nat) (g : World) (a b : Nat) :
    glider_world nx ny g a b =
      if (a = nx / 2 + 2 ∧ b = ny / 2 + 1) ∨ (a = nx / 2 + 2 ∧ b = ny / 2) ∨
         (a = nx / 2 + 2 ∧ b = ny / 2 - 1) ∨ (a = nx / 2 + 1 ∧ b = ny / 2 + 1) ∨
         (a = nx / 2 ∧ b = ny / 2) then 1 else g a b := by
  unfold glider_world
  simp only [world_set_apply, ite_or_same]

theorem shift_glider_explicit (p q i j : Nat) :
    shift p q (cells_of (glider_base 0)) i j =
      if (i = 4 + p ∧ j = 4 + q) ∨ (i = 4 + p ∧ j = 3 + q) ∨ (i = 4 + p ∧ j = 2 + q) ∨
         (i = 3 + p ∧ j = 4 + q) ∨ (i = 2 + p ∧ j = 3 + q) then 1 else 0 := by
  rw [shift_cells_of_map]
  simp only [cells_of, glider_base, List.map, List.mem_cons, Prod.mk.injEq, List.mem_singleton,
    List.mem_nil_iff, or_false]

theorem shift_glider_explicit4 (p q i j : Nat) :
    shift p q (cells_of (glider_base 4)) i j =
      if (i = 3 + p ∧ j = 4 + q) ∨ (i = 4 + p ∧ j = 5 + q) ∨ (i = 5 + p ∧ j = 3 + q) ∨
         (i = 5 + p ∧ j = 4 + q) ∨ (i = 5 + p ∧ j = 5 + q) then 1 else 0 := by
  rw [shift_cells_of_map]
  simp only [cells_of, glider_base, List.map, List.mem_cons, Prod.mk.injEq, List.mem_singleton,
    List.mem_nil_iff, or_false]

/-- The buffer produced by pattern selector 2 on an allocation whose interior is 0. -/
theorem glider_world_on_grid (nx ny : Nat) (hnx : 6 ≤ nx) (hny : 6 ≤ ny) (m0 : World)
    (hm : ∀ a b, 1 ≤ a → a < nx - 1 → 1 ≤ b → b < ny - 1 → m0 a b = 0) (a b : Nat)
    (ha : a < nx) (hb : b < ny) :
    glider_world nx ny (clear_border nx ny m0) a b =
      shift (nx / 2 - 2) (ny / 2 - 3) (cells_of (glider_base 0)) a b := by
  have e1 : 4 + (nx / 2 - 2) = nx / 2 + 2 := by omega
  have e2 : 3 + (nx / 2 - 2) = nx / 2 + 1 := by omega
  have e3 : 2 + (nx / 2 - 2) = nx / 2 := by omega
  have e4 : 4 + (ny / 2 - 3) = ny / 2 + 1 := by omega
  have e5 : 3 + (ny / 2 - 3) = ny / 2 := by omega
  have e6 : 2 + (ny / 2 - 3) = ny / 2 - 1 := by omega
  rw [shift_glider_explicit, glider_world_apply, clear_border_on_grid nx ny m0 hm a b ha hb,
    e1, e2, e3, e4, e5, e6]

/-- Generation `k ≤ 4` of the glider placed by pattern selector 2. -/
theorem glider_iterate (nx ny : Nat) (hnx : 10 ≤ nx) (hny : 10 ≤ ny) (curr0 : World)
    (h0 : ∀ a b, a < nx → b < ny →
      curr0 a b = shift (nx / 2 - 2) (ny / 2 - 3) (cells_of (glider_base 0)) a b)
    (k : Nat) (hk : k ≤ 4) :
    ∀ a b, a < nx → b < ny → ((life_step nx ny)^[k] curr0) a b =
      shift (nx / 2 - 2) (ny / 2 - 3) (cells_of (glider_base k)) a b := by
  induction k with
  | zero => exact h0
  | succ k ih =>
    intro a b _ _
    rw [Function.iterate_succ_apply', life_step_congr (ih (by omega)),
      life_step_pattern (glider_base_within k) (glider_base_within (k + 1))
        (glider_base_step k (by omega)) nx ny _ _ (by omega) (by omega)]

/-- During the first four rounds on the glider the current buffer is the
corresponding generation and the population is 5. -/
theorem glider_phase (cfg : Config) (hn : 8 ≤ cfg.n) (m0 m1 : World)
    (hm : ∀ a b, 1 ≤ a → a < cfg.nx - 1 → 1 ≤ b → b < cfg.ny - 1 → m0 a b = 0)
    (s : State)
    (hr : Reachable cfg
      (init_state (glider_world cfg.nx cfg.ny (clear_border cfg.nx cfg.ny m0))
        (clear_border cfg.nx cfg.ny m1) 5) s)
    (hk : s.current_iteration ≤ 4) :
    (∀ i j, i < cfg.nx → j < cfg.ny → s.currWorld i j =
      shift (cfg.nx / 2 - 2) (cfg.ny / 2 - 3)
        (cells_of (glider_base s.current_iteration)) i j) ∧
    s.population s.w_plot = 5 := by
  have hnx : cfg.nx = cfg.n + 2 := rfl
  have hny : cfg.ny = cfg.n + 2 := rfl
  have hgrid := glider_world_on_grid cfg.nx cfg.ny (by omega) (by omega) m0 hm
  have hbc : border_zero cfg.nx cfg.ny
      (glider_world cfg.nx cfg.ny (clear_border cfg.nx cfg.ny m0)) := by
    intro i j hi hj hb
    rw [hgrid i j hi hj]
    exact shift_cells_zero (glider_base_within 0) _ _ i j (by omega)
  have hG := GridInv_reachable hbc (clear_border_zero cfg.nx cfg.ny m1) hr
  have hcur : ∀ i j, i < cfg.nx → j < cfg.ny → s.currWorld i j =
      shift (cfg.nx / 2 - 2) (cfg.ny / 2 - 3)
        (cells_of (glider_base s.current_iteration)) i j := by
    intro i j hi hj
    rw [hG.hist i j hi hj]
    exact glider_iterate cfg.nx cfg.ny (by omega) (by omega) _ hgrid _ hk i j hi hj
  refine ⟨hcur, ?_⟩
  rcases Nat.eq_zero_or_pos s.current_iteration with hz | hpos
  · exact plot_pop_initial hr hz
  · rw [(DataInv_reachable hr).plot hpos, live_count_congr hcur,
      live_count_shift (glider_base_within _) (glider_base_nodup _) cfg.nx cfg.ny _ _
        (by omega) (by omega), glider_base_length]
    rfl

/-- Glider on a zero-filled allocation. For every interior side length `n ≥ 8`, every thread count,
iteration bound and display setting, when the threads are started on the glider
of pattern selector 2 (cells `(r,c)`, `(r+1,c+1)`, `(r+2,c-1)`, `(r+2,c)`,
`(r+2,c+1)` with `r = nx/2`, `c = ny/2`, placed by `main` on an allocation whose
interior is 0), every reachable state in which exactly 4 rounds have been
committed has a current buffer whose live cells are exactly those five
positions moved by one row and one column, and `population[w_plot]` is 5. -/
theorem glider_four_rounds_clean (cfg : Config) (hn : 8 ≤ cfg.n) (rand : Nat → Nat → Bool)
    (m0 m1 : World)
    (hm : ∀ a b, 1 ≤ a → a < cfg.nx - 1 → 1 ≤ b → b < cfg.ny - 1 → m0 a b = 0)
    (s0 s : State) (h0 : main_init cfg 2 rand m0 m1 = some s0) (hr : Reachable cfg s0 s)
    (h4 : s.current_iteration = 4) :
    (∀ i j, i < cfg.nx → j < cfg.ny →
      s.currWorld i j =
        if (i = cfg.nx / 2 + 1 ∧ j = cfg.ny / 2 + 1) ∨
           (i = cfg.nx / 2 + 1 + 1 ∧ j = cfg.ny / 2 + 1 + 1) ∨
           (i = cfg.nx / 2 + 2 + 1 ∧ j = cfg.ny / 2 - 1 + 1) ∨
           (i = cfg.nx / 2 + 2 + 1 ∧ j = cfg.ny / 2 + 1) ∨
           (i = cfg.nx / 2 + 2 + 1 ∧ j = cfg.ny / 2 + 1 + 1)
        then 1 else 0) ∧
    s.population s.w_plot = 5 := by
  have hnx : cfg.nx = cfg.n + 2 := rfl
  have hny : cfg.ny = cfg.n + 2 := rfl
  have hs0 : s0 = init_state (glider_world cfg.nx cfg.ny (clear_border cfg.nx cfg.ny m0))
      (clear_border cfg.nx cfg.ny m1) 5 := by
    simpa [main_init] using h0.symm
  subst hs0
  obtain ⟨hcur, hpop⟩ := glider_phase cfg hn m0 m1 hm s hr (by omega)
  refine ⟨?_, hpop⟩
  intro i j hi hj
  have e1 : 3 + (cfg.nx / 2 - 2) = cfg.nx / 2 + 1 := by omega
  have e2 : 4 + (cfg.nx / 2 - 2) = cfg.nx / 2 + 1 + 1 := by omega
  have e3 : 5 + (cfg.nx / 2 - 2) = cfg.nx / 2 + 2 + 1 := by omega
  have e4 : 3 + (cfg.ny / 2 - 3) = cfg.ny / 2 - 1 + 1 := by omega
  have e5 : 4 + (cfg.ny / 2 - 3) = cfg.ny / 2 + 1 := by omega
  have e6 : 5 + (cfg.ny / 2 - 3) = cfg.ny / 2 + 1 + 1 := by omega
  rw [hcur i j hi hj, h4, shift_glider_explicit4, e1, e2, e3, e4, e5, e6]

/-! ## Witness run for the glider -/

theorem run_append (cfg : Config) (a b : List Actor) :
    ∀ s, run cfg s (a ++ b) = (run cfg s a).bind (fun s1 => run cfg s1 b) := by
  induction a with
  | nil => intro s; rfl
  | cons x rest ih =>
    intro s
    simp only [List.cons_append, run]
    cases step cfg s x with
    | none => rfl
    | some s1 => exact ih s1

theorem step_check_pass {cfg : Config} {s : State} {w : Nat} (hw : w < num_comp_threads cfg)
    (hpc : (s.workers w).pc = WorkerPc.check) (hl : loop_test cfg s (s.workers w).t = true) :
    step cfg s (Actor.worker w) =
      some (set_worker s w { s.workers w with pc := WorkerPc.wait }) := by
  simp [step, worker_step, hw, hpc, hl]

theorem step_wait_pass {cfg : Config} {s : State} {w : Nat} (hw : w < num_comp_threads cfg)
    (hpc : (s.workers w).pc = WorkerPc.wait) (hr : s.ready_to_compute = true)
    (hc : s.current_iteration = (s.workers w).t) :
    step cfg s (Actor.worker w) =
      some (set_worker s w { s.workers w with pc := WorkerPc.compute }) := by
  simp [step, worker_step, hw, hpc, hr, hc]

theorem step_compute {cfg : Config} {s : State} {w : Nat} (hw : w < num_comp_threads cfg)
    (hpc : (s.workers w).pc = WorkerPc.compute) :
    step cfg s (Actor.worker w) = some (after_compute cfg s w) := by
  simp [step, worker_step, hw, hpc, after_compute]

theorem step_commit {cfg : Config} {s : State} {w : Nat} (hw : w < num_comp_threads cfg)
    (hpc : (s.workers w).pc = WorkerPc.commit) :
    step cfg s (Actor.worker w) = some (after_commit cfg s w) := by
  simp [step, worker_step, hw, hpc, after_commit]

/-- A full round of a single computation thread without plotting thread. -/
theorem single_worker_round (cfg : Config) (hW : num_comp_threads cfg = 1) (s : State)
    (k : Nat) (hpc : (s.workers 0).pc = WorkerPc.check) (ht : (s.workers 0).t = k)
    (hcur : s.current_iteration = k) (hready : s.ready_to_compute = true)
    (hhas : s.has_plotting_thread = false) (hcc : s.computation_complete = 0)
    (hk : (k : Int) < cfg.maxiter) (hpop : s.population s.w_plot ≠ 0) :
    ∃ s1, run cfg s round0 = some s1 ∧
      (s1.workers 0).pc = WorkerPc.check ∧ (s1.workers 0).t = k + 1 ∧
      s1.current_iteration = k + 1 ∧ s1.ready_to_compute = true ∧
      s1.has_plotting_thread = false ∧ s1.computation_complete = 0 := by
  have hw : 0 < num_comp_threads cfg := by omega
  have h1 := step_check_pass hw hpc (by simp [loop_test, ht, hk, hpop])
  generalize hsa : set_worker s 0 { s.workers 0 with pc := WorkerPc.wait } = sa at h1
  have ea : (sa.workers 0).pc = WorkerPc.wait ∧ (sa.workers 0).t = k ∧
      sa.current_iteration = k ∧ sa.ready_to_compute = true ∧
      sa.has_plotting_thread = false ∧ sa.computation_complete = 0 := by
    subst hsa
    simp [set_worker, ht, hcur, hready, hhas, hcc]
  have h2 := step_wait_pass hw ea.1 ea.2.2.2.1 (by rw [ea.2.1, ea.2.2.1])
  generalize hsb : set_worker sa 0 { sa.workers 0 with pc := WorkerPc.compute } = sb at h2
  have eb : (sb.workers 0).pc = WorkerPc.compute ∧ (sb.workers 0).t = k ∧
      sb.current_iteration = k ∧ sb.ready_to_compute = true ∧
      sb.has_plotting_thread = false ∧ sb.computation_complete = 0 := by
    subst hsb
    simp [set_worker, ea]
  have h3 := step_compute hw eb.1
  generalize hsc : after_compute cfg sb 0 = sc at h3
  have ec : (sc.workers 0).pc = WorkerPc.commit ∧ (sc.workers 0).t = k ∧
      sc.current_iteration = k ∧ sc.ready_to_compute = true ∧
      sc.has_plotting_thread = false ∧ sc.computation_complete = 0 := by
    subst hsc
    simp [after_compute, set_worker, eb]
  have h4 := step_commit hw ec.1
  refine ⟨after_commit cfg sc 0, ?_, ?_⟩
  · simp only [round0, run, h1, h2, h3, h4]
  · have hl : sc.computation_complete + 1 = num_comp_threads cfg := by
      rw [hW, ec.2.2.2.2.2]
    rw [after_commit_last hl]
    simp [ec]

theorem run_cons_some {cfg : Config} {s s1 : State} {a : Actor} (rest : List Actor)
    (h : step cfg s a = some s1) : run cfg s (a :: rest) = run cfg s1 rest := by
  simp only [run, h]

/-- One more round of the single thread on the glider, while fewer than four
rounds have been committed. -/
theorem glider_next_round (s : State) (k : Nat) (hk : k < 4)
    (hr : Reachable cfg_glider glider_start s)
    (hc : (s.workers 0).pc = WorkerPc.check ∧ (s.workers 0).t = k ∧
      s.current_iteration = k ∧ s.ready_to_compute = true ∧
      s.has_plotting_thread = false ∧ s.computation_complete = 0) :
    ∃ s1, run cfg_glider s round0 = some s1 ∧ Reachable cfg_glider glider_start s1 ∧
      ((s1.workers 0).pc = WorkerPc.check ∧ (s1.workers 0).t = k + 1 ∧
      s1.current_iteration = k + 1 ∧ s1.ready_to_compute = true ∧
      s1.has_plotting_thread = false ∧ s1.computation_complete = 0) := by
  have hpop := (glider_phase cfg_glider (by decide) dead_world dead_world
    (fun _ _ _ _ _ _ => rfl) s hr (by omega)).2
  have hklt : (k : Int) < cfg_glider.maxiter := by
    show (k : Int) < 4
    omega
  obtain ⟨s1, h1, h2⟩ := single_worker_round cfg_glider rfl s k hc.1 hc.2.1 hc.2.2.1
    hc.2.2.2.1 hc.2.2.2.2.1 hc.2.2.2.2.2 hklt (by rw [hpop]; decide)
  exact ⟨s1, h1, reachable_run round0 hr h1, h2⟩

theorem glider_run_four :
    ∃ s4, run cfg_glider glider_start glider_sched = some s4 ∧ s4.current_iteration = 4 := by
  have hd : step cfg_glider glider_start Actor.driver =
      some (run_from cfg_glider glider_start [Actor.driver]) := rfl
  have hr0 : Reachable cfg_glider glider_start (run_from cfg_glider glider_start [Actor.driver]) :=
    reachable_run_from _ _ _
  obtain ⟨s1, e1, r1, c1⟩ := glider_next_round _ 0 (by omega) hr0
    ⟨rfl, rfl, rfl, rfl, rfl, rfl⟩
  obtain ⟨s2, e2, r2, c2⟩ := glider_next_round s1 1 (by omega) r1 c1
  obtain ⟨s3, e3, r3, c3⟩ := glider_next_round s2 2 (by omega) r2 c2
  obtain ⟨s4, e4, r4, c4⟩ := glider_next_round s3 3 (by omega) r3 c3
  refine ⟨s4, ?_, c4.2.2.1⟩
  unfold glider_sched
  rw [run_cons_some _ hd, run_append, e1, Option.some_bind, run_append, e2, Option.some_bind,
    run_append, e3, Option.some_bind, e4]

theorem glider_sched_iteration :
    (run_from cfg_glider glider_start glider_sched).current_iteration = 4 := by
  obtain ⟨s4, h1, h2⟩ := glider_run_four
  unfold run_from
  rw [h1]
  exact h2

/-- Example for the glider: a single computation thread runs four rounds on the glider
of an 8x8 interior. -/
theorem glider_four_rounds_clean_example :
    8 ≤ cfg_glider.n ∧
    main_init cfg_glider 2 (fun _ _ => false) dead_world dead_world = some glider_start ∧
    Reachable cfg_glider glider_start (run_from cfg_glider glider_start glider_sched) ∧
    (run_from cfg_glider glider_start glider_sched).current_iteration = 4 ∧
    ((∀ i j, i < cfg_glider.nx → j < cfg_glider.ny →
      (run_from cfg_glider glider_start glider_sched).currWorld i j =
        if (i = cfg_glider.nx / 2 + 1 ∧ j = cfg_glider.ny / 2 + 1) ∨
           (i = cfg_glider.nx / 2 + 1 + 1 ∧ j = cfg_glider.ny / 2 + 1 + 1) ∨
           (i = cfg_glider.nx / 2 + 2 + 1 ∧ j = cfg_glider.ny / 2 - 1 + 1) ∨
           (i = cfg_glider.nx / 2 + 2 + 1 ∧ j = cfg_glider.ny / 2 + 1) ∨
           (i = cfg_glider.nx / 2 + 2 + 1 ∧ j = cfg_glider.ny / 2 + 1 + 1)
        then 1 else 0) ∧
    (run_from cfg_glider glider_start glider_sched).population
      (run_from cfg_glider glider_start glider_sched).w_plot = 5) :=
  ⟨by decide, rfl, reachable_run_from _ _ _, glider_sched_iteration,
   glider_four_rounds_clean cfg_glider (by decide) (fun _ _ => false) dead_world dead_world
     (fun _ _ _ _ _ _ => rfl) glider_start _ rfl (reachable_run_from _ _ _)
     glider_sched_iteration⟩

/-! ## Case analysis of the plotting and master threads -/

/-- Case analysis of a step of the plotting thread. -/
theorem plotter_step_cases {cfg : Config} {s s1 : State} (hs : plotter_step cfg s = some s1) :
    (s.plotter.pc = PlotPc.check ∧ loop_test cfg s s.plotter.t = true ∧
      cfg.disable_display = false ∧
      s1 = { s with plotter := { s.plotter with pc := PlotPc.waitDone } }) ∨
    (s.plotter.pc = PlotPc.check ∧ loop_test cfg s s.plotter.t = true ∧
      cfg.disable_display = true ∧
      s1 = { s with plotter := { s.plotter with pc := PlotPc.release } }) ∨
    (s.plotter.pc = PlotPc.check ∧ loop_test cfg s s.plotter.t = false ∧
      s1 = { s with plotter := { s.plotter with pc := PlotPc.done } }) ∨
    (s.plotter.pc = PlotPc.waitDone ∧ s.plotter.t < s.current_iteration ∧
      s1 = { s with plotter := { s.plotter with pc := PlotPc.plot } }) ∨
    (s.plotter.pc = PlotPc.plot ∧
      s1 = { s with plotter := { s.plotter with pc := PlotPc.release } }) ∨
    (s.plotter.pc = PlotPc.release ∧
      s1 = { s with ready_to_compute := true,
                    plotter := { pc := PlotPc.check, t := s.plotter.t + 1 } }) := by
  unfold plotter_step at hs
  simp only at hs
  split at hs
  · exact absurd hs (by simp)
  · rename_i hpc
    split at hs
    · rename_i hl
      split at hs
      · rename_i hd
        exact Or.inl ⟨hpc, hl, hd, (Option.some.inj hs).symm⟩
      · rename_i hd
        exact Or.inr (Or.inl ⟨hpc, hl, by simpa using hd, (Option.some.inj hs).symm⟩)
    · rename_i hl
      exact Or.inr (Or.inr (Or.inl ⟨hpc, by simpa using hl, (Option.some.inj hs).symm⟩))
  · rename_i hpc
    split at hs
    · rename_i hl
      exact Or.inr (Or.inr (Or.inr (Or.inl ⟨hpc, hl, (Option.some.inj hs).symm⟩)))
    · exact absurd hs (by simp)
  · rename_i hpc
    exact Or.inr (Or.inr (Or.inr (Or.inr (Or.inl ⟨hpc, (Option.some.inj hs).symm⟩))))
  · rename_i hpc
    exact Or.inr (Or.inr (Or.inr (Or.inr (Or.inr ⟨hpc, (Option.some.inj hs).symm⟩))))
  · exact absurd hs (by simp)

/-- Case analysis of a step of the master thread after the creation loop. -/
theorem driver_step_late_cases {cfg : Config} {s s1 : State}
    (hs : driver_step cfg s = some s1) (hns : ∀ i, s.driver.pc ≠ DriverPc.spawn i) :
    (s.driver.pc = DriverPc.startPlot ∧ plotting_thread_wanted cfg = true ∧
      s1 = { s with has_plotting_thread := true
                    plotter := { pc := PlotPc.check, t := 0 }
                    driver := { s.driver with pc := DriverPc.join 0 } }) ∨
    (s.driver.pc = DriverPc.startPlot ∧ plotting_thread_wanted cfg = false ∧
      s1 = { s with has_plotting_thread := false
                    driver := { pc := DriverPc.check, t := 0 } }) ∨
    (s.driver.pc = DriverPc.check ∧ loop_test cfg s s.driver.t = true ∧
      s1 = { s with driver := { s.driver with pc := DriverPc.waitDone } }) ∨
    (s.driver.pc = DriverPc.check ∧ loop_test cfg s s.driver.t = false ∧
      s1 = { s with driver := { s.driver with pc := DriverPc.join 0 } }) ∨
    (s.driver.pc = DriverPc.waitDone ∧ s.driver.t < s.current_iteration ∧
      s1 = { s with driver := { s.driver with pc := DriverPc.plot } }) ∨
    (s.driver.pc = DriverPc.plot ∧
      s1 = { s with driver := { s.driver with pc := DriverPc.release } }) ∨
    (s.driver.pc = DriverPc.release ∧
      s1 = { s with ready_to_compute := true,
                    driver := { pc := DriverPc.check, t := s.driver.t + 1 } }) ∨
    (∃ i, s.driver.pc = DriverPc.join i ∧ i < num_comp_threads cfg ∧
      (s.workers i).pc = WorkerPc.done ∧
      s1 = { s with driver := { s.driver with pc := DriverPc.join (i + 1) } }) ∨
    (∃ i, s.driver.pc = DriverPc.join i ∧ ¬ i < num_comp_threads cfg ∧
      s1 = { s with driver := { s.driver with pc := DriverPc.joinPlot } }) ∨
    (s.driver.pc = DriverPc.joinPlot ∧
      (s.has_plotting_thread = true → s.plotter.pc = PlotPc.done) ∧
      s1 = { s with driver := { s.driver with pc := DriverPc.finished } }) := by
  unfold driver_step at hs
  simp only at hs
  split at hs
  · rename_i i hpc
    exact absurd hpc (hns i)
  · rename_i hpc
    split at hs
    · rename_i hw
      exact Or.inl ⟨hpc, hw, (Option.some.inj hs).symm⟩
    · rename_i hw
      exact Or.inr (Or.inl ⟨hpc, by simpa using hw, (Option.some.inj hs).symm⟩)
  · rename_i hpc
    split at hs
    · rename_i hl
      exact Or.inr (Or.inr (Or.inl ⟨hpc, hl, (Option.some.inj hs).symm⟩))
    · rename_i hl
      exact Or.inr (Or.inr (Or.inr (Or.inl ⟨hpc, by simpa using hl, (Option.some.inj hs).symm⟩)))
  · rename_i hpc
    split at hs
    · rename_i hl
      exact Or.inr (Or.inr (Or.inr (Or.inr (Or.inl ⟨hpc, hl, (Option.some.inj hs).symm⟩))))
    · exact absurd hs (by simp)
  · rename_i hpc
    exact Or.inr (Or.inr (Or.inr (Or.inr (Or.inr (Or.inl ⟨hpc, (Option.some.inj hs).symm⟩)))))
  · rename_i hpc
    exact Or.inr (Or.inr (Or.inr (Or.inr (Or.inr (Or.inr (Or.inl
      ⟨hpc, (Option.some.inj hs).symm⟩))))))
  · rename_i i hpc
    split at hs
    · rename_i hi
      split at hs
      · rename_i hd
        exact Or.inr (Or.inr (Or.inr (Or.inr (Or.inr (Or.inr (Or.inr (Or.inl
          ⟨i, hpc, hi, hd, (Option.some.inj hs).symm⟩)))))))
      · exact absurd hs (by simp)
    · rename_i hi
      exact Or.inr (Or.inr (Or.inr (Or.inr (Or.inr (Or.inr (Or.inr (Or.inr (Or.inl
        ⟨i, hpc, hi, (Option.some.inj hs).symm⟩))))))))
  · rename_i hpc
    split at hs
    · rename_i hh
      split at hs
      · rename_i hd
        exact Or.inr (Or.inr (Or.inr (Or.inr (Or.inr (Or.inr (Or.inr (Or.inr (Or.inr
          ⟨hpc, fun _ => hd, (Option.some.inj hs).symm⟩))))))))
      · exact absurd hs (by simp)
    · rename_i hh
      exact Or.inr (Or.inr (Or.inr (Or.inr (Or.inr (Or.inr (Or.inr (Or.inr (Or.inr
        ⟨hpc, fun h => absurd h hh, (Option.some.inj hs).symm⟩))))))))
  · exact absurd hs (by simp)

/-! ## Empty grid, deadlock and start-up race -/

theorem loop_test_empty {cfg : Config} {s : State} (h : s.population s.w_plot = 0) (t : Nat) :
    loop_test cfg s t = false := by
  simp [loop_test, h]

theorem EmptyInv_init (c n : World) : EmptyInv (init_state c n 0) := by
  refine ⟨rfl, rfl, rfl, ?_, ?_, ?_⟩
  · intro w; exact ⟨Or.inl rfl, rfl⟩
  · exact ⟨Or.inl rfl, rfl⟩
  · simp [init_state]

/-- Case analysis of a step of the master thread inside the creation loop. -/
theorem driver_step_spawn_cases {cfg : Config} {s s1 : State} {i : Nat}
    (hpc : s.driver.pc = DriverPc.spawn i) (hs : driver_step cfg s = some s1) :
    (i < num_comp_threads cfg ∧
      s1 = { set_worker s i { pc := WorkerPc.check, t := 0, local_pop := 0 } with
             driver := { s.driver with pc := DriverPc.spawn (i + 1) } }) ∨
    (¬ i < num_comp_threads cfg ∧
      s1 = { s with driver := { s.driver with pc := DriverPc.startPlot } }) := by
  unfold driver_step at hs
  simp only [hpc] at hs
  split at hs
  · rename_i hi
    exact Or.inl ⟨hi, (Option.some.inj hs).symm⟩
  · rename_i hi
    exact Or.inr ⟨hi, (Option.some.inj hs).symm⟩

theorem EmptyInv_step {cfg : Config} {s s1 : State} (a : Actor) (h : EmptyInv s)
    (hs : step cfg s a = some s1) : EmptyInv s1 := by
  cases a with
  | worker w =>
    obtain ⟨_, hc⟩ := worker_step_cases hs
    have hw := h.workers w
    rcases hc with ⟨_, hl, _⟩ | ⟨hpc, _, rfl⟩ | ⟨hpc, _, _, _⟩ | ⟨hpc, _⟩ | ⟨hpc, _⟩
    · rw [loop_test_empty h.pop] at hl
      exact absurd hl (by decide)
    · refine ⟨h.pop, h.cur, h.swaps, ?_, h.plotter, h.driver⟩
      intro v
      by_cases hv : v = w
      · subst hv
        simp [set_worker, hw.2]
      · simp only [set_worker, hv, if_false]
        exact h.workers v
    · rw [hpc] at hw
      exact absurd hw.1 (by decide)
    · rw [hpc] at hw
      exact absurd hw.1 (by decide)
    · rw [hpc] at hw
      exact absurd hw.1 (by decide)
  | plotter =>
    have hp := h.plotter
    rcases plotter_step_cases hs with ⟨_, hl, _, _⟩ | ⟨_, hl, _, _⟩ | ⟨_, _, rfl⟩ |
      ⟨hpc, _, _⟩ | ⟨hpc, _⟩ | ⟨hpc, _⟩
    · rw [loop_test_empty h.pop] at hl
      exact absurd hl (by decide)
    · rw [loop_test_empty h.pop] at hl
      exact absurd hl (by decide)
    · exact ⟨h.pop, h.cur, h.swaps, h.workers, ⟨Or.inr (Or.inr rfl), hp.2⟩, h.driver⟩
    · rw [hpc] at hp
      exact absurd hp.1 (by decide)
    · rw [hpc] at hp
      exact absurd hp.1 (by decide)
    · rw [hpc] at hp
      exact absurd hp.1 (by decide)
  | driver =>
    have hd := h.driver
    by_cases hsp : ∃ i, s.driver.pc = DriverPc.spawn i
    · obtain ⟨i, hi⟩ := hsp
      rcases driver_step_spawn_cases hi hs with ⟨_, rfl⟩ | ⟨_, rfl⟩
      · refine ⟨h.pop, h.cur, h.swaps, ?_, h.plotter, ?_⟩
        · intro v
          by_cases hv : v = i
          · subst hv
            simp [set_worker]
          · simp only [set_worker, hv, if_false]
            exact h.workers v
        · simp [hd.2.2.2]
      · refine ⟨h.pop, h.cur, h.swaps, h.workers, h.plotter, ?_⟩
        simp [hd.2.2.2]
    · have hns : ∀ i, s.driver.pc ≠ DriverPc.spawn i := fun i hi => hsp ⟨i, hi⟩
      rcases driver_step_late_cases hs hns with ⟨_, _, rfl⟩ | ⟨_, _, rfl⟩ | ⟨_, hl, _⟩ |
        ⟨_, _, rfl⟩ | ⟨hpc, _, _⟩ | ⟨hpc, _⟩ | ⟨hpc, _⟩ | ⟨i, _, _, _, rfl⟩ | ⟨i, _, _, rfl⟩ |
        ⟨_, _, rfl⟩
      · exact ⟨h.pop, h.cur, h.swaps, h.workers, ⟨Or.inr (Or.inl rfl), rfl⟩, by simp [hd.2.2.2]⟩
      · exact ⟨h.pop, h.cur, h.swaps, h.workers, h.plotter, by simp⟩
      · rw [loop_test_empty h.pop] at hl
        exact absurd hl (by decide)
      · exact ⟨h.pop, h.cur, h.swaps, h.workers, h.plotter, by simp [hd.2.2.2]⟩
      · exact absurd hpc hd.1
      · exact absurd hpc hd.2.1
      · exact absurd hpc hd.2.2.1
      · exact ⟨h.pop, h.cur, h.swaps, h.workers, h.plotter, by simp [hd.2.2.2]⟩
      · exact ⟨h.pop, h.cur, h.swaps, h.workers, h.plotter, by simp [hd.2.2.2]⟩
      · exact ⟨h.pop, h.cur, h.swaps, h.workers, h.plotter, by simp [hd.2.2.2]⟩

/-! ## Thread creation -/

theorem BornInv_init (cfg : Config) (c n : World) (p : Int) : BornInv cfg (init_state c n p) := by
  refine ⟨?_, ?_, ?_, ?_, ?_⟩
  · intro i hi
    simp only [init_state, DriverPc.spawn.injEq] at hi
    subst hi
    exact ⟨Nat.zero_le _, fun w hw => absurd hw (Nat.not_lt_zero w), rfl, rfl⟩
  · intro h
    exact absurd rfl (h 0)
  · intro h
    simp [init_state] at h
  · intro h
    simp [init_state] at h
  · intro h
    simp [init_state] at h

theorem BornInv_step {cfg : Config} {s s1 : State} (a : Actor) (h : BornInv cfg s)
    (hs : step cfg s a = some s1) : BornInv cfg s1 := by
  cases a with
  | worker w =>
    obtain ⟨hw, hc⟩ := worker_step_cases hs
    have key : ∀ x : Worker, x.pc ≠ WorkerPc.unborn →
        ∀ s2 : State, s2.driver = s.driver → s2.plotter = s.plotter →
        s2.has_plotting_thread = s.has_plotting_thread →
        s2.workers = (fun k => if k = w then x else s.workers k) → BornInv cfg s2 := by
      intro x hx s2 hd hp hh hwk
      have hb : ∀ v, (s.workers v).pc ≠ WorkerPc.unborn → (s2.workers v).pc ≠ WorkerPc.unborn := by
        intro v hv
        rw [hwk]
        by_cases hvw : v = w
        · simp [hvw, hx]
        · simp [hvw, hv]
      refine ⟨?_, ?_, ?_, ?_, ?_⟩
      · intro i hi
        rw [hd] at hi
        obtain ⟨h1, h2, h3, h4⟩ := h.spawning i hi
        exact ⟨h1, fun v hv => hb v (h2 v hv), by rw [hp]; exact h3, by rw [hh]; exact h4⟩
      · intro hns v hv
        rw [hd] at hns
        exact hb v (h.spawned hns v hv)
      · rw [hd, hp, hh]; exact h.before_plot
      · rw [hd, hp, hh]; exact h.inline
      · rw [hp, hh]; exact h.plot_born
    rcases hc with ⟨_, _, rfl⟩ | ⟨_, _, rfl⟩ | ⟨_, _, _, rfl⟩ | ⟨_, rfl⟩ | ⟨_, rfl⟩
    · exact key _ (by simp) _ rfl rfl rfl rfl
    · exact key _ (by simp) _ rfl rfl rfl rfl
    · exact key _ (by simp) _ rfl rfl rfl rfl
    · exact key { s.workers w with pc := WorkerPc.commit, local_pop := _ } (by simp) _
        rfl rfl rfl rfl
    · by_cases hl : s.computation_complete + 1 = num_comp_threads cfg
      · rw [after_commit_last hl]
        exact key { s.workers w with pc := WorkerPc.check, t := (s.workers w).t + 1 } (by simp) _
          rfl rfl rfl rfl
      · rw [after_commit_not_last hl]
        exact key { s.workers w with pc := WorkerPc.check, t := (s.workers w).t + 1 } (by simp) _
          rfl rfl rfl rfl
  | plotter =>
    obtain ⟨hf, hd⟩ := plotter_step_frame hs
    have hw : s1.workers = s.workers := hf.2.2.2.2.2.2.2.1
    have hborn : s.plotter.pc ≠ PlotPc.unborn ∧ s1.plotter.pc ≠ PlotPc.unborn ∧
        s1.has_plotting_thread = s.has_plotting_thread := by
      rcases plotter_step_cases hs with ⟨hpc, _, _, rfl⟩ | ⟨hpc, _, _, rfl⟩ | ⟨hpc, _, rfl⟩ |
        ⟨hpc, _, rfl⟩ | ⟨hpc, rfl⟩ | ⟨hpc, rfl⟩ <;> simp [hpc]
    obtain ⟨hb0, hb1, hh⟩ := hborn
    refine ⟨?_, ?_, ?_, ?_, ?_⟩
    · intro i hi
      rw [hd] at hi
      exact absurd (h.spawning i hi).2.2.1 hb0
    · intro hns v hv
      rw [hd] at hns
      rw [hw]
      exact h.spawned hns v hv
    · intro hpc
      rw [hd] at hpc
      exact absurd (h.before_plot hpc).1 hb0
    · intro hpc
      rw [hd] at hpc
      exact absurd (h.inline hpc).1 hb0
    · intro _
      exact hb1
  | driver =>
    by_cases hsp : ∃ i, s.driver.pc = DriverPc.spawn i
    · obtain ⟨i, hi⟩ := hsp
      obtain ⟨h1, h2, h3, h4⟩ := h.spawning i hi
      rcases driver_step_spawn_cases hi hs with ⟨hlt, rfl⟩ | ⟨hge, rfl⟩
      · refine ⟨?_, ?_, ?_, ?_, ?_⟩
        · intro k hk
          simp only [DriverPc.spawn.injEq] at hk
          subst hk
          refine ⟨hlt, ?_, h3, h4⟩
          intro v hv
          by_cases hvi : v = i
          · simp [set_worker, hvi]
          · simp only [set_worker, hvi, if_false]
            exact h2 v (by omega)
        · intro hns
          exact absurd rfl (hns (i + 1))
        · intro hpc
          simp at hpc
        · intro hpc
          simp at hpc
        · intro hh
          rw [show ({ set_worker s i { pc := WorkerPc.check, t := 0, local_pop := 0 } with
              driver := { s.driver with pc := DriverPc.spawn (i + 1) } } : State).has_plotting_thread
              = s.has_plotting_thread from rfl, h4] at hh
          exact absurd hh (by decide)
      · refine ⟨?_, ?_, ?_, ?_, ?_⟩
        · intro k hk
          simp at hk
        · intro _ v hv
          exact h2 v (by omega)
        · intro _
          exact ⟨h3, h4⟩
        · intro hpc
          simp at hpc
        · intro hh
          rw [show ({ s with driver := { s.driver with pc := DriverPc.startPlot } } :
              State).has_plotting_thread = s.has_plotting_thread from rfl, h4] at hh
          exact absurd hh (by decide)
    · have hns : ∀ i, s.driver.pc ≠ DriverPc.spawn i := fun i hi => hsp ⟨i, hi⟩
      have hall := h.spawned hns
      rcases driver_step_late_cases hs hns with ⟨_, _, rfl⟩ | ⟨hpc, _, rfl⟩ | ⟨hpc, _, rfl⟩ |
        ⟨hpc, _, rfl⟩ | ⟨hpc, _, rfl⟩ | ⟨hpc, rfl⟩ | ⟨hpc, rfl⟩ | ⟨i, _, _, _, rfl⟩ |
        ⟨i, _, _, rfl⟩ | ⟨_, _, rfl⟩
      · exact ⟨fun k hk => by simp at hk, fun _ => hall, fun hp => by simp at hp,
          fun hp => by simp at hp, fun _ => by simp⟩
      · exact ⟨fun k hk => by simp at hk, fun _ => hall, fun hp => by simp at hp,
          fun _ => ⟨(h.before_plot hpc).1, rfl⟩, fun hh => by simp at hh⟩
      · exact ⟨fun k hk => by simp at hk, fun _ => hall, fun hp => by simp at hp,
          fun _ => h.inline (Or.inl hpc), h.plot_born⟩
      · exact ⟨fun k hk => by simp at hk, fun _ => hall, fun hp => by simp at hp,
          fun hp => by simp at hp, h.plot_born⟩
      · exact ⟨fun k hk => by simp at hk, fun _ => hall, fun hp => by simp at hp,
          fun _ => h.inline (Or.inr (Or.inl hpc)), h.plot_born⟩
      · exact ⟨fun k hk => by simp at hk, fun _ => hall, fun hp => by simp at hp,
          fun _ => h.inline (Or.inr (Or.inr (Or.inl hpc))), h.plot_born⟩
      · exact ⟨fun k hk => by simp at hk, fun _ => hall, fun hp => by simp at hp,
          fun _ => h.inline (Or.inr (Or.inr (Or.inr hpc))), h.plot_born⟩
      · exact ⟨fun k hk => by simp at hk, fun _ => hall, fun hp => by simp at hp,
          fun hp => by simp at hp, h.plot_born⟩
      · exact ⟨fun k hk => by simp at hk, fun _ => hall, fun hp => by simp at hp,
          fun hp => by simp at hp, h.plot_born⟩
      · exact ⟨fun k hk => by simp at hk, fun _ => hall, fun hp => by simp at hp,
          fun hp => by simp at hp, h.plot_born⟩

theorem BornInv_reachable {cfg : Config} {c n : World} {p : Int} {s : State}
    (hr : Reachable cfg (init_state c n p) s) : BornInv cfg s := by
  induction hr with
  | init => exact BornInv_init cfg c n p
  | step a _ hs ih => exact BornInv_step a ih hs

/-- On the empty grid some thread can always move until the master thread has finished. -/
theorem empty_grid_progress {cfg : Config} {s : State} (hE : EmptyInv s) (hB : BornInv cfg s)
    (hfin : s.driver.pc ≠ DriverPc.finished) : ∃ a, (step cfg s a).isSome = true := by
  have hlt : ∀ t, loop_test cfg s t = false := loop_test_empty hE.pop
  cases hpc : s.driver.pc with
  | spawn i =>
    refine ⟨Actor.driver, ?_⟩
    simp only [step, driver_step, hpc]
    split <;> rfl
  | startPlot =>
    refine ⟨Actor.driver, ?_⟩
    simp only [step, driver_step, hpc]
    split <;> rfl
  | check =>
    refine ⟨Actor.driver, ?_⟩
    simp only [step, driver_step, hpc]
    split <;> rfl
  | waitDone => exact absurd hpc hE.driver.1
  | plot => exact absurd hpc hE.driver.2.1
  | release => exact absurd hpc hE.driver.2.2.1
  | join i =>
    have hns : ∀ k, s.driver.pc ≠ DriverPc.spawn k := by
      intro k hk
      rw [hpc] at hk
      exact absurd hk (by simp)
    by_cases hi : i < num_comp_threads cfg
    · rcases (hE.workers i).1 with hu | hc | hd
      · exact absurd hu (hB.spawned hns i hi)
      · refine ⟨Actor.worker i, ?_⟩
        simp only [step, worker_step, hi, if_true, hc]
        split <;> rfl
      · refine ⟨Actor.driver, ?_⟩
        simp only [step, driver_step, hpc, hi, if_true, hd]
        rfl
    · refine ⟨Actor.driver, ?_⟩
      simp only [step, driver_step, hpc, hi, if_false]
      rfl
  | joinPlot =>
    by_cases hh : s.has_plotting_thread = true
    · rcases hE.plotter.1 with hu | hc | hd
      · exact absurd hu (hB.plot_born hh)
      · refine ⟨Actor.plotter, ?_⟩
        simp only [step, plotter_step, hc]
        split
        · split <;> rfl
        · rfl
      · refine ⟨Actor.driver, ?_⟩
        simp only [step, driver_step, hpc, hh, if_true, hd]
        rfl
    · refine ⟨Actor.driver, ?_⟩
      simp only [step, driver_step, hpc, hh]
      rfl
  | finished => exact absurd hpc hfin

/-- C9. Empty grid. If `population[w_plot]` is 0 when the threads are started,
then for every thread count, iteration bound and display setting, in every
reachable state: no swap has been performed, `current_iteration` is 0, every
computation thread, the plotting thread and the master loop are before their
first loop test or have left their loop with loop counter 0 (zero iterations),
and no thread is at or past a condition wait; moreover the run cannot get
stuck: as long as the master thread has not finished, some thread can move. -/
theorem C9_empty_grid (cfg : Config) (curr0 next0 : World) (s : State)
    (hr : Reachable cfg (init_state curr0 next0 0) s) :
    s.swaps = 0 ∧ s.current_iteration = 0 ∧ s.population s.w_plot = 0 ∧
    (∀ w, ((s.workers w).pc = WorkerPc.unborn ∨ (s.workers w).pc = WorkerPc.check ∨
        (s.workers w).pc = WorkerPc.done) ∧ (s.workers w).t = 0) ∧
    ((s.plotter.pc = PlotPc.unborn ∨ s.plotter.pc = PlotPc.check ∨
        s.plotter.pc = PlotPc.done) ∧ s.plotter.t = 0) ∧
    (s.driver.pc ≠ DriverPc.waitDone ∧ s.driver.pc ≠ DriverPc.plot ∧
        s.driver.pc ≠ DriverPc.release ∧ s.driver.t = 0) ∧
    (s.driver.pc ≠ DriverPc.finished → ∃ a, (step cfg s a).isSome = true) := by
  have h : EmptyInv s := by
    induction hr with
    | init => exact EmptyInv_init curr0 next0
    | step a _ hs ih => exact EmptyInv_step a ih hs
  exact ⟨h.swaps, h.cur, h.pop, h.workers, h.plotter, h.driver,
    empty_grid_progress h (BornInv_reachable hr)⟩

/-- Witness for C9: the single computation thread leaves its loop at the first test. -/
theorem C9_empty_grid_witness :
    Reachable cfg_one (init_state dead_world dead_world 0)
      (run_from cfg_one (init_state dead_world dead_world 0) [Actor.driver, Actor.worker 0]) ∧
    (run_from cfg_one (init_state dead_world dead_world 0)
      [Actor.driver, Actor.worker 0]).swaps = 0 ∧
    (run_from cfg_one (init_state dead_world dead_world 0)
      [Actor.driver, Actor.worker 0]).current_iteration = 0 :=
  ⟨reachable_run_from _ _ _,
   (C9_empty_grid cfg_one dead_world dead_world _ (reachable_run_from _ _ _)).1,
   (C9_empty_grid cfg_one dead_world dead_world _ (reachable_run_from _ _ _)).2.1⟩

/-- C10 (failing input). With two computation threads, the plotting thread,
`maxiter = 2` and a start grid with one live cell, the schedule `dead_sched` is
executable and ends in a state in which no thread can take a step: thread 0 is
blocked at its start-of-round wait for round 1 with `ready_to_compute = 0`,
thread 1 and the plotting thread have returned, and the master thread is blocked
in `pthread_join` of thread 0. -/
theorem C10_deadlock_reachable :
    main_init cfg_dead 0 rand_one dead_world dead_world = some dead_start ∧
    dead_start.population dead_start.w_plot = 1 ∧
    (run cfg_dead dead_start dead_sched).isSome = true ∧
    Reachable cfg_dead dead_start (run_from cfg_dead dead_start dead_sched) ∧
    ((run_from cfg_dead dead_start dead_sched).workers 0).pc = WorkerPc.wait ∧
    ((run_from cfg_dead dead_start dead_sched).workers 0).t = 1 ∧
    (run_from cfg_dead dead_start dead_sched).current_iteration = 1 ∧
    (run_from cfg_dead dead_start dead_sched).ready_to_compute = false ∧
    ((run_from cfg_dead dead_start dead_sched).workers 1).pc = WorkerPc.done ∧
    (run_from cfg_dead dead_start dead_sched).plotter.pc = PlotPc.done ∧
    (run_from cfg_dead dead_start dead_sched).driver.pc = DriverPc.join 0 ∧
    (∀ a, (step cfg_dead (run_from cfg_dead dead_start dead_sched) a).isSome = false) := by
  refine ⟨rfl, by decide, by decide, reachable_run_from _ _ _, by decide, by decide, by decide,
    by decide, by decide, by decide, by decide, ?_⟩
  intro a
  cases a with
  | worker w =>
    by_cases hw : w < 2
    · interval_cases w
      · decide
      · decide
    · have : worker_step cfg_dead (run_from cfg_dead dead_start dead_sched) w = none := by
        unfold worker_step
        rw [if_neg]
        exact hw
      simp only [step, this]
      rfl
  | plotter => decide
  | driver => decide

/-- C8 (failing input). With one computation thread and the plotting thread
configured, the schedule `race_sched` is executable: the commit of round 0 runs
while `has_plotting_thread` is still 0 and leaves `ready_to_compute = 1`; in the
final state `has_plotting_thread = 1`, the plotting thread is still at its first
loop test (it has not taken a step, so it never set `ready_to_compute`), and the
computation thread has passed its wait for round 1 and is in its compute phase. -/
theorem C8_worker_ahead_of_consumer :
    main_init cfg_race 0 (fun _ _ => true) dead_world dead_world = some race_start ∧
    plotting_thread_wanted cfg_race = true ∧
    (run cfg_race race_start race_sched).isSome = true ∧
    Reachable cfg_race race_start (run_from cfg_race race_start race_sched) ∧
    (run_from cfg_race race_start
      [Actor.driver, Actor.worker 0, Actor.worker 0, Actor.worker 0,
       Actor.worker 0]).has_plotting_thread = false ∧
    (run_from cfg_race race_start
      [Actor.driver, Actor.worker 0, Actor.worker 0, Actor.worker 0,
       Actor.worker 0]).current_iteration = 1 ∧
    (run_from cfg_race race_start
      [Actor.driver, Actor.worker 0, Actor.worker 0, Actor.worker 0,
       Actor.worker 0]).ready_to_compute = true ∧
    (run_from cfg_race race_start race_sched).has_plotting_thread = true ∧
    (run_from cfg_race race_start race_sched).plotter.pc = PlotPc.check ∧
    (run_from cfg_race race_start race_sched).plotter.t = 0 ∧
    (run_from cfg_race race_start race_sched).current_iteration = 1 ∧
    ((run_from cfg_race race_start race_sched).workers 0).pc = WorkerPc.compute ∧
    ((run_from cfg_race race_start race_sched).workers 0).t = 1 := by
  refine ⟨rfl, by decide, by decide, reachable_run_from _ _ _, by decide, by decide, by decide,
    by decide, by decide, by decide, by decide, by decide, by decide⟩

/-! ## Band lengths and more workers than rows -/

/-- C11. For `R ≥ 1` interior rows and `W ≥ 1` workers, worker `i < W` receives a
band of length `R / W + 1` if `i < R % W` and of length `R / W` otherwise; so the
workers with the longer band are exactly the first `R % W` ones (and `R % W < W`). -/
theorem C11_remainder_to_first_workers (R W i : Nat) (hR : 1 ≤ R) (hW : 1 ≤ W) (hi : i < W) :
    start_row R W i ≤ end_row R W i ∧
    (i < R % W → end_row R W i - start_row R W i = R / W + 1) ∧
    (R % W ≤ i → end_row R W i - start_row R W i = R / W) ∧
    (end_row R W i - start_row R W i = R / W + 1 ↔ i < R % W) ∧
    R % W < W := by
  have _ := hR
  have _ := hi
  have hlen := band_length R W i
  refine ⟨start_le_end R W i, ?_, ?_, ?_, Nat.mod_lt _ (by omega)⟩
  · intro h
    rw [hlen, if_pos h]
  · intro h
    rw [hlen, if_neg (by omega)]
    rfl
  · rw [hlen]
    constructor
    · intro h
      by_contra hn
      rw [if_neg hn] at h
      omega
    · intro h
      rw [if_pos h]

/-- Witness for C11 at `R = 7`, `W = 3`, `i = 0`. -/
theorem C11_remainder_to_first_workers_witness :
    1 ≤ 7 ∧ 1 ≤ 3 ∧ 0 < 3 ∧
    (start_row 7 3 0 ≤ end_row 7 3 0 ∧
    (0 < 7 % 3 → end_row 7 3 0 - start_row 7 3 0 = 7 / 3 + 1) ∧
    (7 % 3 ≤ 0 → end_row 7 3 0 - start_row 7 3 0 = 7 / 3) ∧
    (end_row 7 3 0 - start_row 7 3 0 = 7 / 3 + 1 ↔ 0 < 7 % 3) ∧
    7 % 3 < 3) :=
  ⟨by decide, by decide, by decide,
   C11_remainder_to_first_workers 7 3 0 (by decide) (by decide) (by decide)⟩

theorem start_row_more_workers (R W i : Nat) (hWR : R < W) :
    start_row R W i = 1 + (if i < R then i else R) := by
  unfold start_row rows_per_thread extra_rows
  rw [Nat.div_eq_of_lt hWR, Nat.mod_eq_of_lt hWR]
  simp

theorem end_row_more_workers (R W i : Nat) (hWR : R < W) :
    end_row R W i = 1 + (if i < R then i else R) + (if i < R then 1 else 0) := by
  unfold end_row
  rw [start_row_more_workers R W i hWR]
  unfold rows_per_thread extra_rows
  rw [Nat.div_eq_of_lt hWR, Nat.mod_eq_of_lt hWR]
  simp

/-- C19. With more workers than rows (`W > R ≥ 1`): every band satisfies
`1 ≤ start_row ≤ end_row ≤ R + 1`, worker `i < R` receives exactly row `i + 1`,
the workers `R ≤ i < W` receive the empty band `[R+1, R+1)`, and every row
`1..R` lies in the band of exactly one worker. -/
theorem C19_more_workers_than_rows (R W : Nat) (hR : 1 ≤ R) (hWR : R < W) :
    (∀ i, i < W → 1 ≤ start_row R W i ∧ start_row R W i ≤ end_row R W i ∧
        end_row R W i ≤ R + 1) ∧
    (∀ i, i < R → start_row R W i = i + 1 ∧ end_row R W i = i + 2) ∧
    (∀ i, R ≤ i → i < W → start_row R W i = R + 1 ∧ end_row R W i = R + 1) ∧
    (∀ r, 1 ≤ r → r ≤ R → ∃! i, i < W ∧ start_row R W i ≤ r ∧ r < end_row R W i) := by
  have hW : 1 ≤ W := by omega
  refine ⟨?_, ?_, ?_, ?_⟩
  · intro i hi
    exact ⟨one_le_start_row R W i, start_le_end R W i, end_row_le R W i hW hi⟩
  · intro i hi
    rw [start_row_more_workers R W i hWR, end_row_more_workers R W i hWR, if_pos hi, if_pos hi]
    omega
  · intro i hi _
    rw [start_row_more_workers R W i hWR, end_row_more_workers R W i hWR,
      if_neg (by omega), if_neg (by omega)]
    omega
  · intro r h1 h2
    obtain ⟨i, hi, hs, he⟩ := row_covered R W hW r h1 h2
    refine ⟨i, ⟨hi, hs, he⟩, ?_⟩
    intro j hj
    exact bands_disjoint R W ⟨hj.2.1, hj.2.2⟩ ⟨hs, he⟩

/-- Witness for C19 at `R = 2`, `W = 5`. -/
theorem C19_more_workers_than_rows_witness :
    1 ≤ 2 ∧ 2 < 5 ∧
    ((∀ i, i < 5 → 1 ≤ start_row 2 5 i ∧ start_row 2 5 i ≤ end_row 2 5 i ∧
        end_row 2 5 i ≤ 2 + 1) ∧
    (∀ i, i < 2 → start_row 2 5 i = i + 1 ∧ end_row 2 5 i = i + 2) ∧
    (∀ i, 2 ≤ i → i < 5 → start_row 2 5 i = 2 + 1 ∧ end_row 2 5 i = 2 + 1) ∧
    (∀ r, 1 ≤ r → r ≤ 2 → ∃! i, i < 5 ∧ start_row 2 5 i ≤ r ∧ r < end_row 2 5 i)) :=
  ⟨by decide, by decide, C19_more_workers_than_rows 2 5 (by decide) (by decide)⟩

/-! ## Protocol variant and thread split -/

/-- A step of a computation thread leaves the other threads and the variant flag alone. -/
theorem worker_step_frame {cfg : Config} {s s1 : State} {w : Nat}
    (hs : worker_step cfg s w = some s1) :
    s1.plotter = s.plotter ∧ s1.driver = s.driver ∧
    s1.has_plotting_thread = s.has_plotting_thread := by
  obtain ⟨_, hc⟩ := worker_step_cases hs
  rcases hc with ⟨_, _, rfl⟩ | ⟨_, _, rfl⟩ | ⟨_, _, _, rfl⟩ | ⟨_, rfl⟩ | ⟨_, rfl⟩
  · exact ⟨rfl, rfl, rfl⟩
  · exact ⟨rfl, rfl, rfl⟩
  · exact ⟨rfl, rfl, rfl⟩
  · exact ⟨rfl, rfl, rfl⟩
  · by_cases hl : s.computation_complete + 1 = num_comp_threads cfg
    · rw [after_commit_last hl]
      exact ⟨rfl, rfl, rfl⟩
    · rw [after_commit_not_last hl]
      exact ⟨rfl, rfl, rfl⟩

theorem VariantInv_init (cfg : Config) (c n : World) (p : Int) :
    VariantInv cfg (init_state c n p) := by
  refine ⟨?_, ?_, ?_, ?_⟩
  · intro h
    exact absurd rfl h
  · intro h
    simp [driver_in_loop, init_state] at h
  · intro h
    simp [init_state] at h
  · intro h
    exact absurd rfl (h.1 0)

theorem VariantInv_step {cfg : Config} {s s1 : State} (a : Actor) (h : VariantInv cfg s)
    (hB : BornInv cfg s) (hs : step cfg s a = some s1) : VariantInv cfg s1 := by
  cases a with
  | worker w =>
    obtain ⟨hp, hd, hh⟩ := worker_step_frame hs
    refine ⟨?_, ?_, ?_, ?_⟩
    · rw [hp]; exact h.plot_wanted
    · unfold driver_in_loop
      rw [hd]
      exact h.loop_unwanted
    · rw [hh]; exact h.flag_wanted
    · unfold driver_past_start
      rw [hd, hh, hp]
      exact h.past
  | plotter =>
    obtain ⟨_, hd⟩ := plotter_step_frame hs
    have hborn : s.plotter.pc ≠ PlotPc.unborn ∧ s1.plotter.pc ≠ PlotPc.unborn ∧
        s1.has_plotting_thread = s.has_plotting_thread := by
      rcases plotter_step_cases hs with ⟨hpc, _, _, rfl⟩ | ⟨hpc, _, _, rfl⟩ | ⟨hpc, _, rfl⟩ |
        ⟨hpc, _, rfl⟩ | ⟨hpc, rfl⟩ | ⟨hpc, rfl⟩ <;> simp [hpc]
    obtain ⟨hb0, hb1, hh⟩ := hborn
    have hw := h.plot_wanted hb0
    refine ⟨fun _ => hw, ?_, fun _ => hw, ?_⟩
    · unfold driver_in_loop
      rw [hd]
      exact h.loop_unwanted
    · unfold driver_past_start
      rw [hd, hh]
      intro hp
      exact ⟨(h.past hp).1, fun _ => hb1⟩
  | driver =>
    by_cases hsp : ∃ i, s.driver.pc = DriverPc.spawn i
    · obtain ⟨i, hi⟩ := hsp
      obtain ⟨_, _, h3, h4⟩ := hB.spawning i hi
      rcases driver_step_spawn_cases hi hs with ⟨_, rfl⟩ | ⟨_, rfl⟩
      · refine ⟨?_, ?_, ?_, ?_⟩
        · intro hp
          exact absurd h3 hp
        · intro hl
          simp [driver_in_loop] at hl
        · intro hh
          exact h.flag_wanted hh
        · intro hp
          exact absurd rfl (hp.1 (i + 1))
      · refine ⟨?_, ?_, ?_, ?_⟩
        · intro hp
          exact absurd h3 hp
        · intro hl
          simp [driver_in_loop] at hl
        · intro hh
          exact h.flag_wanted hh
        · intro hp
          exact absurd rfl hp.2
    · have hns : ∀ i, s.driver.pc ≠ DriverPc.spawn i := fun i hi => hsp ⟨i, hi⟩
      rcases driver_step_late_cases hs hns with ⟨_, hw, rfl⟩ | ⟨hpc, hw, rfl⟩ | ⟨hpc, _, rfl⟩ |
        ⟨hpc, _, rfl⟩ | ⟨hpc, _, rfl⟩ | ⟨hpc, rfl⟩ | ⟨hpc, rfl⟩ | ⟨i, hpc, _, _, rfl⟩ |
        ⟨i, hpc, _, rfl⟩ | ⟨hpc, _, rfl⟩
      · refine ⟨fun _ => hw, ?_, fun _ => hw, fun _ => ⟨hw.symm, fun _ => by simp⟩⟩
        intro hl
        simp [driver_in_loop] at hl
      · refine ⟨?_, fun _ => hw, ?_, fun _ => ⟨hw.symm, ?_⟩⟩
        · intro hp
          exact absurd (hB.before_plot hpc).1 hp
        · intro hh
          simp at hh
        · intro hh
          rw [hw] at hh
          exact absurd hh (by decide)
      · have hl := h.loop_unwanted (Or.inl hpc)
        have hin := hB.inline (Or.inl hpc)
        refine ⟨h.plot_wanted, fun _ => hl, h.flag_wanted, fun _ => ⟨?_, ?_⟩⟩
        · show s.has_plotting_thread = plotting_thread_wanted cfg
          rw [hin.2, hl]
        · intro hh
          rw [hl] at hh
          exact absurd hh (by decide)
      · have hl := h.loop_unwanted (Or.inl hpc)
        have hin := hB.inline (Or.inl hpc)
        refine ⟨h.plot_wanted, ?_, h.flag_wanted, fun _ => ⟨?_, ?_⟩⟩
        · intro hl2
          simp [driver_in_loop] at hl2
        · show s.has_plotting_thread = plotting_thread_wanted cfg
          rw [hin.2, hl]
        · intro hh
          rw [hl] at hh
          exact absurd hh (by decide)
      · have hl := h.loop_unwanted (Or.inr (Or.inl hpc))
        have hin := hB.inline (Or.inr (Or.inl hpc))
        refine ⟨h.plot_wanted, fun _ => hl, h.flag_wanted, fun _ => ⟨?_, ?_⟩⟩
        · show s.has_plotting_thread = plotting_thread_wanted cfg
          rw [hin.2, hl]
        · intro hh
          rw [hl] at hh
          exact absurd hh (by decide)
      · have hl := h.loop_unwanted (Or.inr (Or.inr (Or.inl hpc)))
        have hin := hB.inline (Or.inr (Or.inr (Or.inl hpc)))
        refine ⟨h.plot_wanted, fun _ => hl, h.flag_wanted, fun _ => ⟨?_, ?_⟩⟩
        · show s.has_plotting_thread = plotting_thread_wanted cfg
          rw [hin.2, hl]
        · intro hh
          rw [hl] at hh
          exact absurd hh (by decide)
      · have hl := h.loop_unwanted (Or.inr (Or.inr (Or.inr hpc)))
        have hin := hB.inline (Or.inr (Or.inr (Or.inr hpc)))
        refine ⟨h.plot_wanted, fun _ => hl, h.flag_wanted, fun _ => ⟨?_, ?_⟩⟩
        · show s.has_plotting_thread = plotting_thread_wanted cfg
          rw [hin.2, hl]
        · intro hh
          rw [hl] at hh
          exact absurd hh (by decide)
      · have hp : driver_past_start s := ⟨hns, by rw [hpc]; simp⟩
        refine ⟨h.plot_wanted, ?_, h.flag_wanted, fun _ => h.past hp⟩
        intro hl
        simp [driver_in_loop] at hl
      · have hp : driver_past_start s := ⟨hns, by rw [hpc]; simp⟩
        refine ⟨h.plot_wanted, ?_, h.flag_wanted, fun _ => h.past hp⟩
        intro hl
        simp [driver_in_loop] at hl
      · have hp : driver_past_start s := ⟨hns, by rw [hpc]; simp⟩
        refine ⟨h.plot_wanted, ?_, h.flag_wanted, fun _ => h.past hp⟩
        intro hl
        simp [driver_in_loop] at hl

theorem VariantInv_reachable {cfg : Config} {c n : World} {p : Int} {s : State}
    (hr : Reachable cfg (init_state c n p) s) : VariantInv cfg s := by
  induction hr with
  | init => exact VariantInv_init cfg c n p
  | step a hr1 hs ih => exact VariantInv_step a ih (BornInv_reachable hr1) hs

/-! ## Thread split -/

theorem plotting_thread_wanted_iff (cfg : Config) :
    plotting_thread_wanted cfg = true ↔ (cfg.disable_display = false ∧ cfg.numthreads > 1) := by
  unfold plotting_thread_wanted
  cases cfg.disable_display <;> simp

theorem num_comp_threads_wanted (cfg : Config) (h : plotting_thread_wanted cfg = true) :
    (num_comp_threads cfg : Int) = cfg.numthreads - 1 := by
  obtain ⟨hd, hn⟩ := (plotting_thread_wanted_iff cfg).1 h
  unfold num_comp_threads
  simp only [hd, and_true]
  rw [if_pos hn, if_neg (by omega)]
  exact Int.toNat_of_nonneg (by omega)

theorem num_comp_threads_unwanted (cfg : Config) (h : plotting_thread_wanted cfg = false) :
    (num_comp_threads cfg : Int) = max cfg.numthreads 1 := by
  have hn : ¬ (cfg.numthreads > 1 ∧ cfg.disable_display = false) := by
    intro hc
    have := (plotting_thread_wanted_iff cfg).2 ⟨hc.2, hc.1⟩
    rw [h] at this
    exact absurd this (by decide)
  unfold num_comp_threads
  simp only [if_neg hn]
  by_cases h1 : cfg.numthreads < 1
  · rw [if_pos h1, max_eq_right (by omega)]
    rfl
  · rw [if_neg h1, max_eq_left (by omega)]
    exact Int.toNat_of_nonneg (by omega)

/-- The master thread creates the computation threads one after the other without
blocking: `i ≤ W` steps from the start bring it to the creation of thread `i`. -/
theorem spawn_run (cfg : Config) (c n : World) (p : Int) (i : Nat)
    (hi : i ≤ num_comp_threads cfg) :
    ∃ s, run cfg (init_state c n p) (List.replicate i Actor.driver) = some s ∧
      s.driver.pc = DriverPc.spawn i := by
  induction i with
  | zero => exact ⟨_, rfl, rfl⟩
  | succ k ih =>
    obtain ⟨s, h1, h2⟩ := ih (by omega)
    have hk : k < num_comp_threads cfg := by omega
    obtain ⟨s1, hstep, hs1⟩ : ∃ s1, step cfg s Actor.driver = some s1 ∧
        s1.driver.pc = DriverPc.spawn (k + 1) :=
      ⟨{ set_worker s k { pc := WorkerPc.check, t := 0, local_pop := 0 } with
         driver := { s.driver with pc := DriverPc.spawn (k + 1) } },
       by simp [step, driver_step, h2, hk], rfl⟩
    refine ⟨s1, ?_, hs1⟩
    rw [List.replicate_succ', run_append, h1, Option.some_bind]
    simp only [run, hstep]

/-- After `W + 1` steps from the start the master thread is at line 324. -/
theorem start_plot_run (cfg : Config) (c n : World) (p : Int) :
    ∃ s, run cfg (init_state c n p)
        (List.replicate (num_comp_threads cfg + 1) Actor.driver) = some s ∧
      s.driver.pc = DriverPc.startPlot := by
  obtain ⟨s, h1, h2⟩ := spawn_run cfg c n p (num_comp_threads cfg) (le_refl _)
  obtain ⟨s1, hstep, hs1⟩ : ∃ s1, step cfg s Actor.driver = some s1 ∧
      s1.driver.pc = DriverPc.startPlot :=
    ⟨{ s with driver := { s.driver with pc := DriverPc.startPlot } },
     by simp [step, driver_step, h2], rfl⟩
  refine ⟨s1, ?_, hs1⟩
  rw [List.replicate_succ', run_append, h1, Option.some_bind]
  simp only [run, hstep]

/-- The step of the master thread through lines 324-337 starts exactly one of the
two variants: it creates the plotting thread and skips its own loop, or it
creates no plotting thread and enters its own loop. -/
theorem start_plot_step {cfg : Config} {s : State} (hB : BornInv cfg s)
    (hpc : s.driver.pc = DriverPc.startPlot) :
    ∃ s1, step cfg s Actor.driver = some s1 ∧ driver_past_start s1 ∧
      (plotting_thread_wanted cfg = true →
        s1.plotter.pc = PlotPc.check ∧ s1.has_plotting_thread = true ∧
        s1.driver.pc = DriverPc.join 0 ∧ ¬ driver_in_loop s1) ∧
      (plotting_thread_wanted cfg = false →
        s1.plotter.pc = PlotPc.unborn ∧ s1.has_plotting_thread = false ∧
        s1.driver.pc = DriverPc.check ∧ s1.driver.t = 0 ∧ driver_in_loop s1) := by
  have hu := (hB.before_plot hpc).1
  by_cases hw : plotting_thread_wanted cfg = true
  · refine ⟨{ s with has_plotting_thread := true
                     plotter := { pc := PlotPc.check, t := 0 }
                     driver := { s.driver with pc := DriverPc.join 0 } }, ?_, ?_, ?_, ?_⟩
    · simp [step, driver_step, hpc, hw]
    · exact ⟨by intro i; simp, by simp⟩
    · intro _
      exact ⟨rfl, rfl, rfl, by simp [driver_in_loop]⟩
    · intro h
      rw [hw] at h
      exact absurd h (by decide)
  · refine ⟨{ s with has_plotting_thread := false
                     driver := { pc := DriverPc.check, t := 0 } }, ?_, ?_, ?_, ?_⟩
    · simp [step, driver_step, hpc, hw]
    · exact ⟨by intro i; simp, by simp⟩
    · intro h
      exact absurd h hw
    · intro _
      exact ⟨hu, rfl, rfl, rfl, Or.inl rfl⟩

/-- C18. Thread split. For every `numthreads` and display flag:
`num_comp_threads ≥ 1`; the plotting thread is configured iff display is enabled
and `numthreads > 1`, and then `num_comp_threads = numthreads - 1`, otherwise
`num_comp_threads = max(numthreads, 1)`; for `numthreads ≥ 1` the computation
threads plus the plotting thread (if configured) are `numthreads` threads. In
every reachable state the plotting thread exists only if it is configured, the
master thread is in its own wait/plot/release loop only if it is not configured,
never both; and once the master thread has passed lines 324-328 the plotting
thread exists iff it is configured. The master thread is never blocked while it
creates the computation threads, and its step through lines 324-337 starts
exactly one of the two: if the plotting thread is configured it creates it and
skips its own loop, otherwise it creates no plotting thread and enters its own
loop at the loop test with `t = 0`. From the start state, `W + 2` steps of the
master thread reach this point. -/
theorem C18_thread_split (cfg : Config) (curr0 next0 : World) (pop0 : Int) (s : State)
    (hr : Reachable cfg (init_state curr0 next0 pop0) s) :
    1 ≤ num_comp_threads cfg ∧
    (plotting_thread_wanted cfg = true ↔
      (cfg.disable_display = false ∧ cfg.numthreads > 1)) ∧
    (plotting_thread_wanted cfg = true →
      (num_comp_threads cfg : Int) = cfg.numthreads - 1) ∧
    (plotting_thread_wanted cfg = false →
      (num_comp_threads cfg : Int) = max cfg.numthreads 1) ∧
    (1 ≤ cfg.numthreads →
      (num_comp_threads cfg : Int) + (if plotting_thread_wanted cfg = true then 1 else 0) =
        cfg.numthreads) ∧
    (s.plotter.pc ≠ PlotPc.unborn → plotting_thread_wanted cfg = true) ∧
    (driver_in_loop s → plotting_thread_wanted cfg = false) ∧
    ¬ (s.plotter.pc ≠ PlotPc.unborn ∧ driver_in_loop s) ∧
    (driver_past_start s →
      (s.plotter.pc ≠ PlotPc.unborn ↔ plotting_thread_wanted cfg = true)) ∧
    (∀ i, s.driver.pc = DriverPc.spawn i → (step cfg s Actor.driver).isSome = true) ∧
    (s.driver.pc = DriverPc.startPlot →
      ∃ s1, step cfg s Actor.driver = some s1 ∧ driver_past_start s1 ∧
        (plotting_thread_wanted cfg = true →
          s1.plotter.pc = PlotPc.check ∧ s1.has_plotting_thread = true ∧
          s1.driver.pc = DriverPc.join 0 ∧ ¬ driver_in_loop s1) ∧
        (plotting_thread_wanted cfg = false →
          s1.plotter.pc = PlotPc.unborn ∧ s1.has_plotting_thread = false ∧
          s1.driver.pc = DriverPc.check ∧ s1.driver.t = 0 ∧ driver_in_loop s1)) ∧
    (∃ s2, run cfg (init_state curr0 next0 pop0)
        (List.replicate (num_comp_threads cfg + 2) Actor.driver) = some s2 ∧
      driver_past_start s2 ∧
      (plotting_thread_wanted cfg = true →
        s2.plotter.pc = PlotPc.check ∧ ¬ driver_in_loop s2) ∧
      (plotting_thread_wanted cfg = false →
        s2.plotter.pc = PlotPc.unborn ∧ driver_in_loop s2)) := by
  have hV := VariantInv_reachable hr
  refine ⟨one_le_num_comp_threads cfg, plotting_thread_wanted_iff cfg,
    num_comp_threads_wanted cfg, num_comp_threads_unwanted cfg, ?_, hV.plot_wanted,
    hV.loop_unwanted, ?_, ?_, ?_, start_plot_step (BornInv_reachable hr), ?_⟩
  · intro h1
    by_cases hw : plotting_thread_wanted cfg = true
    · rw [if_pos hw, num_comp_threads_wanted cfg hw]
      omega
    · have hw2 : plotting_thread_wanted cfg = false := by simpa using hw
      rw [if_neg hw, num_comp_threads_unwanted cfg hw2, max_eq_left h1]
      omega
  · intro hb
    have h1 := hV.plot_wanted hb.1
    have h2 := hV.loop_unwanted hb.2
    rw [h1] at h2
    exact absurd h2 (by decide)
  · intro hp
    exact ⟨hV.plot_wanted, (hV.past hp).2⟩
  · intro i hpc
    simp only [step, driver_step, hpc]
    split <;> rfl
  · obtain ⟨s1, h1, h2⟩ := start_plot_run cfg curr0 next0 pop0
    obtain ⟨s2, e1, e2, e3, e4⟩ :=
      start_plot_step (BornInv_reachable (reachable_run _ Reachable.init h1)) h2
    refine ⟨s2, ?_, e2, fun h => ⟨(e3 h).1, (e3 h).2.2.2⟩, fun h => ⟨(e4 h).1, (e4 h).2.2.2.2⟩⟩
    rw [List.replicate_succ', run_append, h1, Option.some_bind]
    simp only [run, e1]

/-- Witness for C18: in the configuration with one computation thread and no
plotting thread, the step of the master thread at line 324 enters its own loop. -/
theorem C18_thread_split_witness :
    Reachable cfg_one (init_state full2 dead_world 4)
      (run_from cfg_one (init_state full2 dead_world 4) [Actor.driver, Actor.driver]) ∧
    (run_from cfg_one (init_state full2 dead_world 4)
      [Actor.driver, Actor.driver]).driver.pc = DriverPc.startPlot ∧
    ∃ s1, step cfg_one (run_from cfg_one (init_state full2 dead_world 4)
        [Actor.driver, Actor.driver]) Actor.driver = some s1 ∧ driver_past_start s1 ∧
      (plotting_thread_wanted cfg_one = true →
        s1.plotter.pc = PlotPc.check ∧ s1.has_plotting_thread = true ∧
        s1.driver.pc = DriverPc.join 0 ∧ ¬ driver_in_loop s1) ∧
      (plotting_thread_wanted cfg_one = false →
        s1.plotter.pc = PlotPc.unborn ∧ s1.has_plotting_thread = false ∧
        s1.driver.pc = DriverPc.check ∧ s1.driver.t = 0 ∧ driver_in_loop s1) :=
  ⟨reachable_run_from _ _ _, by decide,
   (C18_thread_split cfg_one full2 dead_world 4
      (run_from cfg_one (init_state full2 dead_world 4) [Actor.driver, Actor.driver])
      (reachable_run_from cfg_one (init_state full2 dead_world 4)
        [Actor.driver, Actor.driver])).2.2.2.2.2.2.2.2.2.2.1 (by decide)⟩

/-! ## One swap per round -/

/-- Every step either leaves `current_iteration`, the swap count and the current
buffer unchanged, or is the locked section of the thread whose increment is the
`W`-th of the round, which swaps the buffers and advances `current_iteration` by 1. -/
theorem step_swap_or_same {cfg : Config} {s s1 : State} (a : Actor) (h : Inv cfg s)
    (hs : step cfg s a = some s1) :
    (s1.current_iteration = s.current_iteration ∧ s1.swaps = s.swaps ∧
      s1.currWorld = s.currWorld) ∨
    (∃ w, a = Actor.worker w ∧ w < num_comp_threads cfg ∧
      (s.workers w).pc = WorkerPc.commit ∧
      s.computation_complete + 1 = num_comp_threads cfg ∧
      (s.workers w).t = s.current_iteration ∧
      s1.current_iteration = s.current_iteration + 1 ∧ s1.swaps = s.swaps + 1 ∧
      s1.currWorld = s.nextWorld ∧ s1.nextWorld = s.currWorld ∧
      s1.computation_complete = 0) := by
  cases a with
  | worker w =>
    obtain ⟨hw, hc⟩ := worker_step_cases hs
    rcases hc with ⟨_, _, rfl⟩ | ⟨_, _, rfl⟩ | ⟨_, _, _, rfl⟩ | ⟨_, rfl⟩ | ⟨hpc, rfl⟩
    · exact Or.inl ⟨rfl, rfl, rfl⟩
    · exact Or.inl ⟨rfl, rfl, rfl⟩
    · exact Or.inl ⟨rfl, rfl, rfl⟩
    · exact Or.inl ⟨rfl, rfl, rfl⟩
    · have htw : (s.workers w).t = s.current_iteration := h.t_now w hw (Or.inr (Or.inr hpc))
      by_cases hl : s.computation_complete + 1 = num_comp_threads cfg
      · right
        refine ⟨w, rfl, hw, hpc, hl, htw, ?_, ?_, ?_, ?_, ?_⟩
        · rw [after_commit_last hl]
          show (s.workers w).t + 1 = s.current_iteration + 1
          rw [htw]
        · rw [after_commit_last hl]
        · rw [after_commit_last hl]
        · rw [after_commit_last hl]
        · rw [after_commit_last hl]
      · left
        rw [after_commit_not_last hl]
        exact ⟨rfl, rfl, rfl⟩
  | plotter =>
    obtain ⟨hc, _, _, _, _, _, hci, _, hsw⟩ := (plotter_step_frame hs).1
    exact Or.inl ⟨hci, hsw, hc⟩
  | driver =>
    rcases driver_step_cases hs with ⟨i, _, _, rfl⟩ | ⟨hf, _⟩
    · exact Or.inl ⟨rfl, rfl, rfl⟩
    · obtain ⟨hc, _, _, _, _, _, hci, _, hsw⟩ := hf
      exact Or.inl ⟨hci, hsw, hc⟩

/-- Along every executable schedule `current_iteration` does not decrease. -/
theorem current_iteration_mono {cfg : Config} (sched : List Actor) :
    ∀ {s s2 : State}, Inv cfg s → run cfg s sched = some s2 →
      s.current_iteration ≤ s2.current_iteration := by
  induction sched with
  | nil =>
    intro s s2 _ h
    simp only [run, Option.some.injEq] at h
    subst h
    exact Nat.le_refl _
  | cons a rest ih =>
    intro s s2 hI h
    simp only [run] at h
    split at h
    · rename_i s1 h1
      have h2 := ih (Inv_step a hI h1) h
      rcases step_swap_or_same a hI h1 with ⟨h3, _, _⟩ | ⟨_, _, _, _, _, _, h3, _⟩
      · omega
      · omega
    · exact absurd h (by simp)

/-- C13. In every reachable state the number of swaps performed equals
`current_iteration` (one swap per committed round). Every step either leaves
`current_iteration`, the swap count and the current buffer unchanged, or it is
the locked section of the thread whose increment brings `computation_complete`
to `W`; that step swaps the buffers once and advances `current_iteration` from
the thread's round `t` to exactly `t + 1`. Along every schedule
`current_iteration` never decreases. -/
theorem C13_one_swap_per_round (cfg : Config) (curr0 next0 : World) (pop0 : Int) (s : State)
    (hr : Reachable cfg (init_state curr0 next0 pop0) s) :
    s.swaps = s.current_iteration ∧
    (∀ a s1, step cfg s a = some s1 →
      (s1.current_iteration = s.current_iteration ∧ s1.swaps = s.swaps ∧
        s1.currWorld = s.currWorld) ∨
      (∃ w, a = Actor.worker w ∧ w < num_comp_threads cfg ∧
        (s.workers w).pc = WorkerPc.commit ∧
        s.computation_complete + 1 = num_comp_threads cfg ∧
        (s.workers w).t = s.current_iteration ∧
        s1.current_iteration = s.current_iteration + 1 ∧ s1.swaps = s.swaps + 1 ∧
        s1.currWorld = s.nextWorld ∧ s1.nextWorld = s.currWorld ∧
        s1.computation_complete = 0)) ∧
    (∀ sched s2, run cfg s sched = some s2 →
      s.current_iteration ≤ s2.current_iteration ∧
      s2.swaps - s.swaps = s2.current_iteration - s.current_iteration) := by
  have hI := Inv_reachable hr
  refine ⟨hI.swaps_eq, fun a s1 hs => step_swap_or_same a hI hs, ?_⟩
  intro sched s2 h2
  have hI2 := Inv_reachable (reachable_run sched hr h2)
  refine ⟨current_iteration_mono sched hI h2, ?_⟩
  rw [hI.swaps_eq, hI2.swaps_eq]

/-- Witness for C13: the state before the commit of round 0 by the single thread. -/
theorem C13_one_swap_per_round_witness :
    Reachable cfg_one (init_state full2 dead_world 4)
      (run_from cfg_one (init_state full2 dead_world 4)
        [Actor.driver, Actor.worker 0, Actor.worker 0, Actor.worker 0]) ∧
    (run_from cfg_one (init_state full2 dead_world 4)
        [Actor.driver, Actor.worker 0, Actor.worker 0, Actor.worker 0]).swaps =
    (run_from cfg_one (init_state full2 dead_world 4)
        [Actor.driver, Actor.worker 0, Actor.worker 0, Actor.worker 0]).current_iteration :=
  ⟨reachable_run_from _ _ _,
   (C13_one_swap_per_round cfg_one full2 dead_world 4 _ (reachable_run_from _ _ _)).1⟩

/-! ## Iteration cap -/

theorem CapInv_init (cfg : Config) (c n : World) (p : Int) : CapInv cfg (init_state c n p) := by
  refine ⟨?_, ?_, ?_⟩
  · intro w h
    simp [init_state] at h
  · intro w
    exact le_max_right _ _
  · exact le_max_right _ _

/-- A step that replaces the local state of thread `w` and keeps `current_iteration`. -/
theorem CapInv_local {cfg : Config} {s s1 : State} {w : Nat} {x : Worker} (h : CapInv cfg s)
    (hw : s1.workers = fun k => if k = w then x else s.workers k)
    (hci : s1.current_iteration = s.current_iteration)
    (hx1 : (x.pc = WorkerPc.wait ∨ x.pc = WorkerPc.compute ∨ x.pc = WorkerPc.commit) →
      (x.t : Int) < cfg.maxiter)
    (hx2 : (x.t : Int) ≤ max cfg.maxiter 0) : CapInv cfg s1 := by
  refine ⟨?_, ?_, ?_⟩
  · intro v hv
    rw [hw] at hv ⊢
    by_cases hvw : v = w
    · simp only [hvw, if_true] at hv ⊢
      exact hx1 hv
    · simp only [hvw, if_false] at hv ⊢
      exact h.entered v hv
  · intro v
    rw [hw]
    by_cases hvw : v = w
    · simp only [hvw, if_true]
      exact hx2
    · simp only [hvw, if_false]
      exact h.counter v
  · rw [hci]
    exact h.cur

theorem CapInv_step {cfg : Config} {s s1 : State} (a : Actor) (h : CapInv cfg s)
    (hs : step cfg s a = some s1) : CapInv cfg s1 := by
  cases a with
  | worker w =>
    obtain ⟨_, hc⟩ := worker_step_cases hs
    rcases hc with ⟨_, hl, rfl⟩ | ⟨_, _, rfl⟩ | ⟨hpc, _, _, rfl⟩ | ⟨hpc, rfl⟩ | ⟨hpc, rfl⟩
    · have hlt : ((s.workers w).t : Int) < cfg.maxiter := by
        simp only [loop_test, Bool.and_eq_true, decide_eq_true_eq] at hl
        exact hl.1
      exact CapInv_local h rfl rfl (fun _ => hlt) (h.counter w)
    · exact CapInv_local h rfl rfl (fun hx => by simp at hx) (h.counter w)
    · exact CapInv_local h rfl rfl (fun _ => h.entered w (Or.inl hpc)) (h.counter w)
    · exact CapInv_local h rfl rfl (fun _ => h.entered w (Or.inr (Or.inl hpc))) (h.counter w)
    · have hlt := h.entered w (Or.inr (Or.inr hpc))
      have hle : (((s.workers w).t + 1 : Nat) : Int) ≤ max cfg.maxiter 0 := by
        have : (((s.workers w).t + 1 : Nat) : Int) ≤ cfg.maxiter := by
          push_cast
          omega
        exact le_trans this (le_max_left _ _)
      by_cases hl : s.computation_complete + 1 = num_comp_threads cfg
      · rw [after_commit_last hl]
        refine ⟨?_, ?_, hle⟩
        · intro v hv
          by_cases hvw : v = w
          · simp [hvw] at hv
          · simp only [hvw, if_false] at hv ⊢
            exact h.entered v hv
        · intro v
          by_cases hvw : v = w
          · simp only [hvw, if_true]
            exact hle
          · simp only [hvw, if_false]
            exact h.counter v
      · rw [after_commit_not_last hl]
        exact CapInv_local h rfl rfl (fun hx => by simp at hx) hle
  | plotter =>
    obtain ⟨_, _, _, _, _, _, hci, hw, _⟩ := (plotter_step_frame hs).1
    exact ⟨by rw [hw]; exact h.entered, by rw [hw]; exact h.counter, by rw [hci]; exact h.cur⟩
  | driver =>
    rcases driver_step_cases hs with ⟨i, _, _, rfl⟩ | ⟨hf, _⟩
    · exact CapInv_local h rfl rfl (fun hx => by simp at hx) (le_max_right _ _)
    · obtain ⟨_, _, _, _, _, _, hci, hw, _⟩ := hf
      exact ⟨by rw [hw]; exact h.entered, by rw [hw]; exact h.counter, by rw [hci]; exact h.cur⟩

theorem CapInv_reachable {cfg : Config} {c n : World} {p : Int} {s : State}
    (hr : Reachable cfg (init_state c n p) s) : CapInv cfg s := by
  induction hr with
  | init => exact CapInv_init cfg c n p
  | step a _ hs ih => exact CapInv_step a ih hs

/-- C16. Iteration cap. In every reachable state `current_iteration` and the
number of swaps performed are at most `max(maxiter, 0)`; a computation thread
that is at its start-of-round wait, in its compute phase or before its locked
section has a loop counter `t < maxiter`. The termination test is made only at
the loop test of line 71: a thread in its compute phase performs its whole band
update, and a thread before its locked section performs it, whatever the values
of `maxiter` and `population[w_plot]`; the outcome of the step at the loop test
is the only one that depends on them. -/
theorem C16_iteration_cap (cfg : Config) (curr0 next0 : World) (pop0 : Int) (s : State)
    (hr : Reachable cfg (init_state curr0 next0 pop0) s) :
    (s.current_iteration : Int) ≤ max cfg.maxiter 0 ∧
    (s.swaps : Int) ≤ max cfg.maxiter 0 ∧
    (∀ w, w < num_comp_threads cfg →
      ((s.workers w).pc = WorkerPc.wait ∨ (s.workers w).pc = WorkerPc.compute ∨
        (s.workers w).pc = WorkerPc.commit) → ((s.workers w).t : Int) < cfg.maxiter) ∧
    (∀ w, w < num_comp_threads cfg → (s.workers w).pc = WorkerPc.compute →
      step cfg s (Actor.worker w) = some (after_compute cfg s w)) ∧
    (∀ w, w < num_comp_threads cfg → (s.workers w).pc = WorkerPc.commit →
      step cfg s (Actor.worker w) = some (after_commit cfg s w)) ∧
    (∀ w, w < num_comp_threads cfg → (s.workers w).pc = WorkerPc.check →
      step cfg s (Actor.worker w) =
        some (set_worker s w { s.workers w with
          pc := if loop_test cfg s (s.workers w).t = true then WorkerPc.wait
                else WorkerPc.done })) := by
  have hC := CapInv_reachable hr
  have hI := Inv_reachable hr
  refine ⟨hC.cur, ?_, fun w _ => hC.entered w, fun w hw hpc => step_compute hw hpc,
    fun w hw hpc => step_commit hw hpc, ?_⟩
  · rw [hI.swaps_eq]
    exact hC.cur
  · intro w hw hpc
    by_cases hl : loop_test cfg s (s.workers w).t = true
    · rw [if_pos hl]
      exact step_check_pass hw hpc hl
    · rw [if_neg hl]
      simp [step, worker_step, hw, hpc, hl]

/-- Witness for C16: the single thread in its compute phase of round 1 (`maxiter = 3`). -/
theorem C16_iteration_cap_witness :
    Reachable cfg_one (init_state full2 dead_world 4)
      (run_from cfg_one (init_state full2 dead_world 4)
        [Actor.driver, Actor.worker 0, Actor.worker 0, Actor.worker 0, Actor.worker 0,
         Actor.worker 0, Actor.worker 0]) ∧
    ((run_from cfg_one (init_state full2 dead_world 4)
        [Actor.driver, Actor.worker 0, Actor.worker 0, Actor.worker 0, Actor.worker 0,
         Actor.worker 0, Actor.worker 0]).current_iteration : Int) ≤ max cfg_one.maxiter 0 :=
  ⟨reachable_run_from _ _ _,
   (C16_iteration_cap cfg_one full2 dead_world 4 _ (reachable_run_from _ _ _)).1⟩

/-! ## Protocol variant flag and the variant without plotting thread -/

/-- C14 (failing input). With one computation thread and the plotting thread
configured (`plotting_thread_wanted` is true), the computation thread created at
line 320 reaches its locked section of round 0 as the last thread of the round
while `has_plotting_thread` is still 0, so the test of line 118 reads 0 and the
commit leaves `ready_to_compute = 1`; afterwards the master thread executes
line 324 and `has_plotting_thread` becomes 1: the flag is assigned after the
creation of the computation threads and changes while they run. -/
theorem C14_flag_assigned_after_creation :
    main_init cfg_race 0 (fun _ _ => true) dead_world dead_world = some race_start ∧
    plotting_thread_wanted cfg_race = true ∧
    (run cfg_race race_start
      [Actor.driver, Actor.worker 0, Actor.worker 0, Actor.worker 0, Actor.worker 0,
       Actor.driver, Actor.driver]).isSome = true ∧
    Reachable cfg_race race_start
      (run_from cfg_race race_start
        [Actor.driver, Actor.worker 0, Actor.worker 0, Actor.worker 0]) ∧
    ((run_from cfg_race race_start
      [Actor.driver, Actor.worker 0, Actor.worker 0, Actor.worker 0]).workers 0).pc
        = WorkerPc.commit ∧
    (run_from cfg_race race_start
      [Actor.driver, Actor.worker 0, Actor.worker 0, Actor.worker 0]).computation_complete + 1
        = num_comp_threads cfg_race ∧
    (run_from cfg_race race_start
      [Actor.driver, Actor.worker 0, Actor.worker 0, Actor.worker 0]).has_plotting_thread
        = false ∧
    (run_from cfg_race race_start
      [Actor.driver, Actor.worker 0, Actor.worker 0, Actor.worker 0,
       Actor.worker 0]).ready_to_compute = true ∧
    (run_from cfg_race race_start
      [Actor.driver, Actor.worker 0, Actor.worker 0, Actor.worker 0, Actor.worker 0,
       Actor.driver, Actor.driver]).has_plotting_thread = true := by
  refine ⟨rfl, by decide, by decide, reachable_run_from _ _ _, by decide, by decide, by decide,
    by decide, by decide⟩

/-- C15. Without plotting thread the computation threads can run ahead of the
rendering by the master thread. For `-n 2 -i 3 -t 1` (one computation thread,
`maxiter = 3`, no plotting thread) started by `main` on the full 2x2 interior
(population 4 in every generation), the schedule `ahead_sched` is executable and
leads to a reachable state in which `has_plotting_thread = 0`, the computation
thread has passed its wait for round 1 and is in its compute phase
(`current_iteration = 1`, `population[w_plot] = 4`), while the master thread
is still at its wait for `comp_done` of round 0 and has not rendered that
generation; `ready_to_compute` is 1 right after the commit of round 0, with no
step of the master thread in between. In general, the commit of the last thread of a round with
`has_plotting_thread = 0` sets `ready_to_compute = 1` itself. -/
theorem C15_worker_ahead_of_driver_render :
    main_init cfg_one 0 (fun _ _ => true) dead_world dead_world = some one_start ∧
    plotting_thread_wanted cfg_one = false ∧
    1 ≤ num_comp_threads cfg_one ∧ 2 ≤ cfg_one.maxiter ∧
    (run cfg_one one_start ahead_sched).isSome = true ∧
    Reachable cfg_one one_start (run_from cfg_one one_start ahead_sched) ∧
    (run_from cfg_one one_start ahead_sched).has_plotting_thread = false ∧
    ((run_from cfg_one one_start ahead_sched).workers 0).pc = WorkerPc.compute ∧
    ((run_from cfg_one one_start ahead_sched).workers 0).t = 1 ∧
    (run_from cfg_one one_start ahead_sched).current_iteration = 1 ∧
    (run_from cfg_one one_start ahead_sched).population
      (run_from cfg_one one_start ahead_sched).w_plot = 4 ∧
    (run_from cfg_one one_start ahead_sched).driver.pc = DriverPc.waitDone ∧
    (run_from cfg_one one_start ahead_sched).driver.t = 0 ∧
    (run_from cfg_one one_start
      [Actor.driver, Actor.driver, Actor.driver, Actor.driver,
       Actor.worker 0, Actor.worker 0, Actor.worker 0, Actor.worker 0]).ready_to_compute
        = true ∧
    (∀ (cfg : Config) (s : State) (w : Nat),
      s.computation_complete + 1 = num_comp_threads cfg → s.has_plotting_thread = false →
      (after_commit cfg s w).ready_to_compute = true ∧
      (after_commit cfg s w).current_iteration = (s.workers w).t + 1) := by
  refine ⟨rfl, by decide, by decide, by decide, by decide, reachable_run_from _ _ _, by decide,
    by decide, by decide, by decide, by decide, by decide, by decide, by decide, ?_⟩
  intro cfg s w hl hf
  rw [after_commit_last hl]
  simp [hf]

/-! ## Refinement of the reference rule -/

theorem random_world_eq (nx ny : Nat) (rand : Nat → Nat → Bool) (g : World) :
    random_world nx ny rand g =
      forLoop 1 (nx - 1)
        (fun i st => forLoop 1 (ny - 1) (fun j st1 => random_cell rand i j st1) st) (g, 0) :=
  rfl

theorem random_cell_fst (rand : Nat → Nat → Bool) (i j : Nat) (st : World × Int) (a b : Nat) :
    (random_cell rand i j st).1 a b =
      if a = i ∧ b = j then (if rand i j then 1 else 0) else st.1 a b := by
  simp [random_cell, World.set]

theorem random_cell_snd (rand : Nat → Nat → Bool) (i j : Nat) (st : World × Int) :
    (random_cell rand i j st).2 = st.2 + (if rand i j then 1 else 0) := by
  simp [random_cell, World.set]

/-- Result of the inner loop of lines 263-266 over the columns `1 ≤ j < hi` of row `i`. -/
theorem random_cols_spec (rand : Nat → Nat → Bool) (i : Nat) (st : World × Int) (hi : Nat) :
    (∀ a b, (forLoop 1 hi (fun j st1 => random_cell rand i j st1) st).1 a b =
        if a = i ∧ 1 ≤ b ∧ b < hi then (if rand i b then 1 else 0) else st.1 a b) ∧
    (forLoop 1 hi (fun j st1 => random_cell rand i j st1) st).2 =
        st.2 + ∑ j in Finset.Ico 1 hi, (if rand i j then 1 else 0) := by
  induction hi with
  | zero =>
    rw [forLoop_empty _ _ (by omega)]
    simp
  | succ k ih =>
    rcases Nat.lt_or_ge k 1 with hk | hk
    · rw [forLoop_empty _ _ (by omega)]
      have : k = 0 := by omega
      subst this
      constructor
      · intro a b
        rw [if_neg]
        omega
      · simp
    · rw [forLoop_succ _ _ hk]
      obtain ⟨ih1, ih2⟩ := ih
      constructor
      · intro a b
        rw [random_cell_fst]
        by_cases hab : a = i ∧ b = k
        · obtain ⟨rfl, rfl⟩ := hab
          simp [hk]
        · rw [if_neg hab, ih1]
          by_cases h1 : a = i ∧ 1 ≤ b ∧ b < k
          · rw [if_pos h1,
              if_pos (show a = i ∧ 1 ≤ b ∧ b < k + 1 from ⟨h1.1, h1.2.1, by omega⟩)]
          · rw [if_neg h1, if_neg]
            intro h2
            apply h1
            refine ⟨h2.1, h2.2.1, ?_⟩
            have : b ≠ k := fun hb => hab ⟨h2.1, hb⟩
            omega
      · rw [random_cell_snd, ih2, Finset.sum_Ico_succ_top hk]
        ring

/-- Result of the random fill: the interior holds the outcomes, every other cell
is unchanged, and the counter is the number of live outcomes. -/
theorem random_world_spec (nx ny : Nat) (rand : Nat → Nat → Bool) (g : World) :
    (∀ a b, (random_world nx ny rand g).1 a b =
        if 1 ≤ a ∧ a < nx - 1 ∧ 1 ≤ b ∧ b < ny - 1 then (if rand a b then 1 else 0)
        else g a b) ∧
    (random_world nx ny rand g).2 =
      ∑ i in Finset.Ico 1 (nx - 1), ∑ j in Finset.Ico 1 (ny - 1), (if rand i j then 1 else 0) := by
  rw [random_world_eq]
  generalize nx - 1 = stop
  induction stop with
  | zero =>
    rw [forLoop_empty _ _ (by omega)]
    simp
  | succ k ih =>
    rcases Nat.lt_or_ge k 1 with hk | hk
    · rw [forLoop_empty _ _ (by omega)]
      constructor
      · intro a b
        rw [if_neg]
        omega
      · rw [Finset.Ico_eq_empty (by omega)]
        simp
    · rw [forLoop_succ _ _ hk]
      obtain ⟨ih1, ih2⟩ := ih
      obtain ⟨c1, c2⟩ := random_cols_spec rand k
        (forLoop 1 k
          (fun i st => forLoop 1 (ny - 1) (fun j st1 => random_cell rand i j st1) st) (g, 0))
        (ny - 1)
      constructor
      · intro a b
        rw [c1, ih1]
        by_cases h1 : a = k ∧ 1 ≤ b ∧ b < ny - 1
        · rw [if_pos h1, if_pos (show 1 ≤ a ∧ a < k + 1 ∧ 1 ≤ b ∧ b < ny - 1 from
            ⟨by omega, by omega, h1.2.1, h1.2.2⟩), h1.1]
        · rw [if_neg h1]
          by_cases h2 : 1 ≤ a ∧ a < k ∧ 1 ≤ b ∧ b < ny - 1
          · rw [if_pos h2, if_pos (show 1 ≤ a ∧ a < k + 1 ∧ 1 ≤ b ∧ b < ny - 1 from
              ⟨h2.1, by omega, h2.2.2⟩)]
          · rw [if_neg h2, if_neg]
            intro h3
            by_cases hak : a = k
            · exact h1 ⟨hak, h3.2.2⟩
            · exact h2 ⟨h3.1, by omega, h3.2.2⟩
      · rw [c2, ih2, Finset.sum_Ico_succ_top hk]

/-- The counter of the random fill is the live count of the filled buffer. -/
theorem random_world_count (nx ny : Nat) (rand : Nat → Nat → Bool) (g : World) :
    (random_world nx ny rand g).2 = live_count nx ny (random_world nx ny rand g).1 := by
  rw [(random_world_spec nx ny rand g).2]
  unfold live_count
  refine Finset.sum_congr rfl (fun i hi => Finset.sum_congr rfl (fun j hj => ?_))
  rw [Finset.mem_Ico] at hi hj
  have key := (random_world_spec nx ny rand g).1 i j
  rw [if_pos (show 1 ≤ i ∧ i < nx - 1 ∧ 1 ≤ j ∧ j < ny - 1 from ⟨hi.1, hi.2, hj.1, hj.2⟩)] at key
  rw [key]
  cases rand i j <;> simp

theorem random_world_border (nx ny : Nat) (rand : Nat → Nat → Bool) (g : World)
    (hg : border_zero nx ny g) : border_zero nx ny (random_world nx ny rand g).1 := by
  intro i j hi hj hb
  rw [(random_world_spec nx ny rand g).1, if_neg (by omega)]
  exact hg i j hi hj hb

theorem within_four_glider : within 4 (glider_base 0) := by
  intro x hx
  simp only [glider_base, List.mem_cons, List.mem_singleton, List.mem_nil_iff, or_false] at hx
  rcases hx with rfl | rfl | rfl | rfl | rfl <;> simp

/-- A buffer with zero border has its non-zero cells in rows and columns `1 .. n`. -/
theorem live_in_interior {cfg : Config} {g : World} (h : border_zero cfg.nx cfg.ny g)
    (i j : Nat) (hi : i < cfg.nx) (hj : j < cfg.ny) (hne : g i j ≠ 0) :
    1 ≤ i ∧ i ≤ cfg.n ∧ 1 ≤ j ∧ j ≤ cfg.n := by
  have hnx : cfg.nx = cfg.n + 2 := rfl
  have hny : cfg.ny = cfg.n + 2 := rfl
  by_contra hcon
  exact hne (h i j hi hj (by omega))

/-! ## Initial state: small grids -/

theorem block_base_nodup : block_base.Nodup := by decide

/-- C12 (failing input). For `-n 2 -g 1` (`nx = ny = 4`, interior rows and
columns 1..2, allocation of zeros) `main` writes the block at rows and columns
`nx/2 = 2` and `nx/2 + 1 = 3`: the cells (2,3), (3,2) and (3,3) of the current
buffer lie on the border and hold 1, the border is not zero, and
`population[w_plot]` is 4 while one interior cell is live. -/
theorem C12_small_block_on_border :
    1 ≤ cfg_one.n ∧
    main_init cfg_one 1 (fun _ _ => false) dead_world dead_world = some small_block_start ∧
    cfg_one.nx - 1 = 3 ∧ cfg_one.ny - 1 = 3 ∧
    small_block_start.currWorld 2 3 = 1 ∧
    small_block_start.currWorld 3 2 = 1 ∧
    small_block_start.currWorld 3 3 = 1 ∧
    ¬ border_zero cfg_one.nx cfg_one.ny small_block_start.currWorld ∧
    small_block_start.population small_block_start.w_plot = 4 ∧
    live_count cfg_one.nx cfg_one.ny small_block_start.currWorld = 1 := by
  refine ⟨by decide, rfl, rfl, rfl, by decide, by decide, by decide, ?_, rfl, by decide⟩
  intro h
  have h33 := h 3 3 (by decide) (by decide) (Or.inr (Or.inl rfl))
  exact absurd h33 (by decide)

/-- Initial state when the pattern fits. After initialisation in `main` with pattern selector 0 and
interior side length `n ≥ 1` (any random outcomes, any contents of the
allocations), or with selector 1 and `n ≥ 3`, or with selector 2 and `n ≥ 5`,
where for selectors 1 and 2 the interior of the allocated current buffer holds
zeros: `main` reaches the thread creation, every border cell of both buffers is
0, every non-zero cell of the current buffer lies in rows and columns `1 .. n`,
and `population[w_plot]` equals the number of live interior cells. -/
theorem main_init_fitting (cfg : Config) (game : Int) (rand : Nat → Nat → Bool) (m0 m1 : World)
    (hg : (game = 0 ∧ 1 ≤ cfg.n) ∨ (game = 1 ∧ 3 ≤ cfg.n ∧ interior_zero cfg m0) ∨
      (game = 2 ∧ 5 ≤ cfg.n ∧ interior_zero cfg m0)) :
    ∃ s0, main_init cfg game rand m0 m1 = some s0 ∧
      border_zero cfg.nx cfg.ny s0.currWorld ∧ border_zero cfg.nx cfg.ny s0.nextWorld ∧
      (∀ i j, i < cfg.nx → j < cfg.ny → s0.currWorld i j ≠ 0 →
        1 ≤ i ∧ i ≤ cfg.n ∧ 1 ≤ j ∧ j ≤ cfg.n) ∧
      s0.population s0.w_plot = live_count cfg.nx cfg.ny s0.currWorld := by
  have hnx : cfg.nx = cfg.n + 2 := rfl
  have hny : cfg.ny = cfg.n + 2 := rfl
  rcases hg with ⟨rfl, _⟩ | ⟨rfl, hn, hm⟩ | ⟨rfl, hn, hm⟩
  · have hb := random_world_border cfg.nx cfg.ny rand _ (clear_border_zero cfg.nx cfg.ny m0)
    exact ⟨_, rfl, hb, clear_border_zero cfg.nx cfg.ny m1, live_in_interior hb,
      random_world_count cfg.nx cfg.ny rand _⟩
  · have hgrid := block_world_on_grid cfg.nx cfg.ny (by omega) (by omega) m0 hm
    have hb : border_zero cfg.nx cfg.ny
        (block_world cfg.nx cfg.ny (clear_border cfg.nx cfg.ny m0)) := by
      intro i j hi hj hb
      rw [hgrid i j hi hj]
      exact shift_cells_zero block_base_within _ _ i j (by omega)
    refine ⟨_, rfl, hb, clear_border_zero cfg.nx cfg.ny m1, live_in_interior hb, ?_⟩
    show (4 : Int) = live_count cfg.nx cfg.ny
      (block_world cfg.nx cfg.ny (clear_border cfg.nx cfg.ny m0))
    rw [live_count_congr hgrid, live_count_shift block_base_within block_base_nodup
      cfg.nx cfg.ny _ _ (by omega) (by omega)]
    rfl
  · have hgrid := glider_world_on_grid cfg.nx cfg.ny (by omega) (by omega) m0 hm
    have hb : border_zero cfg.nx cfg.ny
        (glider_world cfg.nx cfg.ny (clear_border cfg.nx cfg.ny m0)) := by
      intro i j hi hj hb
      rw [hgrid i j hi hj]
      exact shift_cells_zero within_four_glider _ _ i j (by omega)
    refine ⟨_, rfl, hb, clear_border_zero cfg.nx cfg.ny m1, live_in_interior hb, ?_⟩
    show (5 : Int) = live_count cfg.nx cfg.ny
      (glider_world cfg.nx cfg.ny (clear_border cfg.nx cfg.ny m0))
    rw [live_count_congr hgrid, live_count_shift within_four_glider (glider_base_nodup 0)
      cfg.nx cfg.ny _ _ (by omega) (by omega)]
    rfl

/-! ## Runs on an allocation that is not zero -/

/-- C5 (failing input). `-n 4 -g 1 -t 2 -d` when `malloc` returns `three_alloc`
for the current buffer (`main` clears only the border, lines 245-258, before it
writes the four cells of the block at rows and columns 3..4, line 272):
the start state has the live cell (1,1) outside the block while
`population[w_plot]` is 4; the schedule in which thread 0 and then thread 1 run
round 0 is executable, and after this round the cells (1,2) and (2,1) of the
current buffer are live and `population[w_plot]` is 6. -/
theorem C5_block_on_dirty_allocation :
    3 ≤ cfg_two.n ∧ cfg_two.nx / 2 = 3 ∧ cfg_two.ny / 2 = 3 ∧
    main_init cfg_two 1 (fun _ _ => false) three_alloc dead_world = some dirty_block_start ∧
    dirty_block_start.currWorld 1 1 = 3 ∧
    dirty_block_start.population dirty_block_start.w_plot = 4 ∧
    (run cfg_two dirty_block_start
      [Actor.driver, Actor.driver, Actor.worker 0, Actor.worker 0, Actor.worker 0,
       Actor.worker 0, Actor.worker 1, Actor.worker 1, Actor.worker 1,
       Actor.worker 1]).isSome = true ∧
    Reachable cfg_two dirty_block_start
      (run_from cfg_two dirty_block_start
        [Actor.driver, Actor.driver, Actor.worker 0, Actor.worker 0, Actor.worker 0,
         Actor.worker 0, Actor.worker 1, Actor.worker 1, Actor.worker 1, Actor.worker 1]) ∧
    (run_from cfg_two dirty_block_start
        [Actor.driver, Actor.driver, Actor.worker 0, Actor.worker 0, Actor.worker 0,
         Actor.worker 0, Actor.worker 1, Actor.worker 1, Actor.worker 1,
         Actor.worker 1]).current_iteration = 1 ∧
    (run_from cfg_two dirty_block_start
        [Actor.driver, Actor.driver, Actor.worker 0, Actor.worker 0, Actor.worker 0,
         Actor.worker 0, Actor.worker 1, Actor.worker 1, Actor.worker 1,
         Actor.worker 1]).currWorld 1 2 = 1 ∧
    (run_from cfg_two dirty_block_start
        [Actor.driver, Actor.driver, Actor.worker 0, Actor.worker 0, Actor.worker 0,
         Actor.worker 0, Actor.worker 1, Actor.worker 1, Actor.worker 1,
         Actor.worker 1]).currWorld 2 1 = 1 ∧
    (run_from cfg_two dirty_block_start
        [Actor.driver, Actor.driver, Actor.worker 0, Actor.worker 0, Actor.worker 0,
         Actor.worker 0, Actor.worker 1, Actor.worker 1, Actor.worker 1,
         Actor.worker 1]).population
      (run_from cfg_two dirty_block_start
        [Actor.driver, Actor.driver, Actor.worker 0, Actor.worker 0, Actor.worker 0,
         Actor.worker 0, Actor.worker 1, Actor.worker 1, Actor.worker 1,
         Actor.worker 1]).w_plot = 6 := by
  refine ⟨by decide, rfl, rfl, rfl, by decide, rfl, by decide, reachable_run_from _ _ _,
    by decide, by decide, by decide, by decide⟩

/-! ## Glider on an allocation that is not zero -/

theorem dirty_gen_within (k : Nat) : within 8 (dirty_gen k) := by
  intro x hx
  unfold dirty_gen at hx
  rw [List.mem_append, List.mem_map] at hx
  rcases hx with ⟨y, hy, rfl⟩ | hx
  · have := glider_base_within k y hy
    simp only
    omega
  · simp only [List.mem_cons, List.mem_singleton, List.mem_nil_iff, or_false] at hx
    rcases hx with rfl | rfl | rfl | rfl <;> simp

theorem dirty_gen_step0 : ∀ a, a ≤ 8 + 1 → ∀ b, b ≤ 8 + 1 →
    next_cell (cells_of (dirty_gen 0)) a b = cells_of (dirty_gen 1) a b := by
  decide

theorem dirty_gen_step1 : ∀ a, a ≤ 8 + 1 → ∀ b, b ≤ 8 + 1 →
    next_cell (cells_of (dirty_gen 1)) a b = cells_of (dirty_gen 2) a b := by
  decide

theorem dirty_gen_step2 : ∀ a, a ≤ 8 + 1 → ∀ b, b ≤ 8 + 1 →
    next_cell (cells_of (dirty_gen 2)) a b = cells_of (dirty_gen 3) a b := by
  decide

theorem dirty_gen_step3 : ∀ a, a ≤ 8 + 1 → ∀ b, b ≤ 8 + 1 →
    next_cell (cells_of (dirty_gen 3)) a b = cells_of (dirty_gen 4) a b := by
  decide

theorem dirty_gen_step (k : Nat) (hk : k < 4) : ∀ a, a ≤ 8 + 1 → ∀ b, b ≤ 8 + 1 →
    next_cell (cells_of (dirty_gen k)) a b = cells_of (dirty_gen (k + 1)) a b := by
  interval_cases k
  · exact dirty_gen_step0
  · exact dirty_gen_step1
  · exact dirty_gen_step2
  · exact dirty_gen_step3

theorem dirty_gen_nodup (k : Nat) (hk : k ≤ 4) : (dirty_gen k).Nodup := by
  interval_cases k <;> decide

theorem dirty_gen_length (k : Nat) : (dirty_gen k).length = 9 := by
  unfold dirty_gen
  rw [List.length_append, List.length_map, glider_base_length]
  rfl

theorem dirty_glider_on_grid : ∀ a, a < 10 → ∀ b, b < 10 →
    glider_world 10 10 (clear_border 10 10 ones_alloc) a b = cells_of (dirty_gen 0) a b := by
  decide

theorem shift_zero (g : World) : shift 0 0 g = g := by
  funext i j
  simp [shift]

theorem dirty_life_step (k : Nat) (hk : k < 4) :
    life_step 10 10 (cells_of (dirty_gen k)) = cells_of (dirty_gen (k + 1)) := by
  have h := life_step_pattern (dirty_gen_within k) (dirty_gen_within (k + 1))
    (dirty_gen_step k hk) 10 10 0 0 (by omega) (by omega)
  rw [shift_zero, shift_zero] at h
  exact h

/-- Generation `k ≤ 4` of the glider placed on `ones_alloc`. -/
theorem dirty_iterate (curr0 : World)
    (h0 : ∀ a b, a < 10 → b < 10 → curr0 a b = cells_of (dirty_gen 0) a b)
    (k : Nat) (hk : k ≤ 4) :
    ∀ a b, a < 10 → b < 10 → ((life_step 10 10)^[k] curr0) a b = cells_of (dirty_gen k) a b := by
  induction k with
  | zero => exact h0
  | succ k ih =>
    intro a b _ _
    rw [Function.iterate_succ_apply', life_step_congr (ih (by omega)),
      dirty_life_step k (by omega)]

/-- During the first four rounds on the glider placed on `ones_alloc` the current
buffer is the corresponding generation of the nine cells, and after the first
round the population is 9. -/
theorem dirty_phase (s : State) (hr : Reachable cfg_glider dirty_glider_start s)
    (hk : s.current_iteration ≤ 4) :
    (∀ i j, i < 10 → j < 10 → s.currWorld i j = cells_of (dirty_gen s.current_iteration) i j) ∧
    s.population s.w_plot = if s.current_iteration = 0 then 5 else 9 := by
  have hgrid : ∀ a b, a < 10 → b < 10 →
      glider_world 10 10 (clear_border 10 10 ones_alloc) a b = cells_of (dirty_gen 0) a b :=
    fun a b ha hb => dirty_glider_on_grid a ha b hb
  have hbc : border_zero cfg_glider.nx cfg_glider.ny
      (glider_world cfg_glider.nx cfg_glider.ny
        (clear_border cfg_glider.nx cfg_glider.ny ones_alloc)) := by
    intro i j hi hj hb
    have hi1 : i < 10 := hi
    have hj1 : j < 10 := hj
    have hb1 : i = 0 ∨ i = 9 ∨ j = 0 ∨ j = 9 := hb
    show glider_world 10 10 (clear_border 10 10 ones_alloc) i j = 0
    rw [hgrid i j hi1 hj1, ← shift_zero (cells_of (dirty_gen 0))]
    exact shift_cells_zero (dirty_gen_within 0) 0 0 i j (by omega)
  have hG := GridInv_reachable hbc (clear_border_zero cfg_glider.nx cfg_glider.ny dead_world) hr
  have hcur : ∀ i j, i < 10 → j < 10 →
      s.currWorld i j = cells_of (dirty_gen s.current_iteration) i j := by
    intro i j hi hj
    rw [hG.hist i j hi hj]
    exact dirty_iterate _ hgrid _ hk i j hi hj
  refine ⟨hcur, ?_⟩
  rcases Nat.eq_zero_or_pos s.current_iteration with hz | hpos
  · rw [if_pos hz]
    exact plot_pop_initial hr hz
  · have hlc : live_count 10 10 (cells_of (dirty_gen s.current_iteration)) =
        (dirty_gen s.current_iteration).length := by
      have h := live_count_shift (dirty_gen_within s.current_iteration)
        (dirty_gen_nodup s.current_iteration hk) 10 10 0 0 (by omega) (by omega)
      rw [shift_zero] at h
      exact h
    have hp : s.population s.w_plot = live_count 10 10 s.currWorld :=
      (DataInv_reachable hr).plot hpos
    rw [if_neg (by omega), hp, live_count_congr hcur, hlc, dirty_gen_length]
    rfl

theorem dirty_next_round (s : State) (k : Nat) (hk : k < 4)
    (hr : Reachable cfg_glider dirty_glider_start s)
    (hc : (s.workers 0).pc = WorkerPc.check ∧ (s.workers 0).t = k ∧
      s.current_iteration = k ∧ s.ready_to_compute = true ∧
      s.has_plotting_thread = false ∧ s.computation_complete = 0) :
    ∃ s1, run cfg_glider s round0 = some s1 ∧ Reachable cfg_glider dirty_glider_start s1 ∧
      ((s1.workers 0).pc = WorkerPc.check ∧ (s1.workers 0).t = k + 1 ∧
      s1.current_iteration = k + 1 ∧ s1.ready_to_compute = true ∧
      s1.has_plotting_thread = false ∧ s1.computation_complete = 0) := by
  have hpop := (dirty_phase s hr (by omega)).2
  have hne : s.population s.w_plot ≠ 0 := by
    rw [hpop]
    split_ifs <;> decide
  have hklt : (k : Int) < cfg_glider.maxiter := by
    show (k : Int) < 4
    omega
  obtain ⟨s1, h1, h2⟩ := single_worker_round cfg_glider rfl s k hc.1 hc.2.1 hc.2.2.1
    hc.2.2.2.1 hc.2.2.2.2.1 hc.2.2.2.2.2 hklt hne
  exact ⟨s1, h1, reachable_run round0 hr h1, h2⟩

theorem dirty_run_four :
    ∃ s4, run cfg_glider dirty_glider_start glider_sched = some s4 ∧
      s4.current_iteration = 4 := by
  have hd : step cfg_glider dirty_glider_start Actor.driver =
      some (run_from cfg_glider dirty_glider_start [Actor.driver]) := rfl
  have hr0 : Reachable cfg_glider dirty_glider_start
      (run_from cfg_glider dirty_glider_start [Actor.driver]) :=
    reachable_run_from _ _ _
  obtain ⟨s1, e1, r1, c1⟩ := dirty_next_round _ 0 (by omega) hr0
    ⟨rfl, rfl, rfl, rfl, rfl, rfl⟩
  obtain ⟨s2, e2, r2, c2⟩ := dirty_next_round s1 1 (by omega) r1 c1
  obtain ⟨s3, e3, r3, c3⟩ := dirty_next_round s2 2 (by omega) r2 c2
  obtain ⟨s4, e4, r4, c4⟩ := dirty_next_round s3 3 (by omega) r3 c3
  refine ⟨s4, ?_, c4.2.2.1⟩
  unfold glider_sched
  rw [run_cons_some _ hd, run_append, e1, Option.some_bind, run_append, e2, Option.some_bind,
    run_append, e3, Option.some_bind, e4]

/-- C6 (failing input). `-n 8 -i 4 -t 1 -d -g 2` when `malloc` returns
`ones_alloc` for the current buffer (`main` clears only the border, lines
245-258, before it writes the five cells of the glider, lines 280-284, with
`r = c = 5`): the schedule in which the single computation thread runs four
rounds is executable, and after the fourth round the cells (2,2), (2,3), (3,2)
and (3,3) of the current buffer, none of which is one of the five moved glider
positions (rows 6..8, columns 5..7), are live and `population[w_plot]` is 9. -/
theorem C6_glider_on_dirty_allocation :
    8 ≤ cfg_glider.n ∧ cfg_glider.nx / 2 = 5 ∧ cfg_glider.ny / 2 = 5 ∧
    main_init cfg_glider 2 (fun _ _ => false) ones_alloc dead_world = some dirty_glider_start ∧
    (run cfg_glider dirty_glider_start glider_sched).isSome = true ∧
    Reachable cfg_glider dirty_glider_start
      (run_from cfg_glider dirty_glider_start glider_sched) ∧
    (run_from cfg_glider dirty_glider_start glider_sched).current_iteration = 4 ∧
    (run_from cfg_glider dirty_glider_start glider_sched).currWorld 2 2 = 1 ∧
    (run_from cfg_glider dirty_glider_start glider_sched).currWorld 2 3 = 1 ∧
    (run_from cfg_glider dirty_glider_start glider_sched).currWorld 3 2 = 1 ∧
    (run_from cfg_glider dirty_glider_start glider_sched).currWorld 3 3 = 1 ∧
    (run_from cfg_glider dirty_glider_start glider_sched).population
      (run_from cfg_glider dirty_glider_start glider_sched).w_plot = 9 := by
  obtain ⟨s4, h1, h2⟩ := dirty_run_four
  have hrun : run_from cfg_glider dirty_glider_start glider_sched = s4 := by
    unfold run_from
    rw [h1]
    rfl
  have hr : Reachable cfg_glider dirty_glider_start s4 := reachable_run _ Reachable.init h1
  obtain ⟨hcur, hpop⟩ := dirty_phase s4 hr (by omega)
  rw [h2] at hcur hpop
  rw [hrun]
  refine ⟨by decide, rfl, rfl, rfl, ?_, hr, h2, ?_, ?_, ?_, ?_, ?_⟩
  · rw [h1]
    rfl
  · rw [hcur 2 2 (by omega) (by omega)]
    decide
  · rw [hcur 2 3 (by omega) (by omega)]
    decide
  · rw [hcur 3 2 (by omega) (by omega)]
    decide
  · rw [hcur 3 3 (by omega) (by omega)]
    decide
  · rw [hpop]
    rfl

end Life
